import Mathlib

/-! systembolaget: a verification development

A shallow embedding of `systembolaget.go` (package `systembolaget`): the client
constructor `NewClient`, the helper `Client.get` and the two read operations
`Client.Articles` and `Client.Stores`, together with the parts of the Go
standard library they call (`strconv.Itoa`, `net/url`, `net/http` request
construction, and the struct unmarshalling of `encoding/xml`).

Conventions.
* A Go `string` is its sequence of bytes: `GoString := List Nat`, every element a
  byte value. `str` turns an ASCII literal into its bytes.
* A Go `(T, error)` result of the package's own functions is a pair of options
  (`none` is `nil`), so that "exactly one of the two is non-nil" is a property
  to prove and not a typing fact. Library internals use `Except`.
* A pointer field of `Client` (`httpClient`, `BaseURL`) is an `Option`, `none` for
  nil; a call that dereferences a nil pointer ends in `Outcome.panic`.
* What a call does besides returning (the request given to the transport, the
  closing of the response body) is returned next to its results, as `Effects`.
-/

namespace Systembolaget

/-- A Go string: its bytes. -/
abbrev GoString := List Nat

/-- The bytes of an ASCII literal (for ASCII text the code points are the UTF-8 bytes). -/
def str (s : String) : GoString := s.toList.map Char.toNat

/-- The error values that occur. `errorString s` is the value of `errors.New(s)`:
the error whose `Error()` text is exactly `s`. -/
inductive GoError where
  /-- The value of errors.New(text). -/
  | errorString (text : GoString)
  /-- The url.EscapeError of net/url. -/
  | EscapeError (s : GoString)
  /-- The url.InvalidHostError of net/url. -/
  | InvalidHostError (s : GoString)
  /-- The fmt.Errorf("invalid port %q after host", colonPort) of net/url. -/
  | invalidPort (colonPort : GoString)
  /-- The fmt.Errorf("net/http: invalid method %q", method) of net/http. -/
  | invalidMethod (method : GoString)
  /-- The *url.Error wrapper built by url.Parse. -/
  | urlError (op url : GoString) (err : GoError)
  /-- The sentinel io.EOF. -/
  | EOF
  /-- The *xml.SyntaxError of encoding/xml (line number left out). -/
  | SyntaxError (msg : GoString)
  /-- Any error produced outside the modelled code (by the transport, or by the
  XML lexer on malformed input), identified by its text. -/
  | external (text : GoString)
  deriving DecidableEq, Repr

/-! ## strconv -/

namespace strconv

/-- The decimal digits of `n`, most significant first, appended in front of `acc`.
`fuel` bounds the number of digits produced. -/
def digitsAux : Nat → Nat → GoString → GoString
  | 0, _, acc => acc
  | fuel + 1, n, acc =>
    if n < 10 then ('0'.toNat + n) :: acc
    else digitsAux fuel (n / 10) (('0'.toNat + n % 10) :: acc)

/-- The decimal representation of a natural number (`n` has at most `n + 1` digits). -/
def formatNat (n : Nat) : GoString := digitsAux (n + 1) n []

/-- Go's `strconv.Itoa`: base-10 text of an int, with a leading `-` when negative. -/
def Itoa (i : Int) : GoString :=
  if i < 0 then '-'.toNat :: formatNat i.natAbs else formatNat i.natAbs

end strconv

/-! ## Byte-string helpers (package `strings`) -/

/-- Go's `strings.Cut(s, sep)` for a one-byte separator: the text before the first
`sep`, the text after it, and whether `sep` occurs. -/
def cut (sep : Nat) : GoString → GoString × GoString × Bool
  | [] => ([], [], false)
  | c :: rest =>
    if c = sep then ([], rest, true)
    else
      let r := cut sep rest
      (c :: r.1, r.2.1, r.2.2)

/-- Go's `strings.LastIndex(s, sep)` for a one-byte separator; `none` is `-1`. -/
def lastIndex (sep : Nat) : GoString → Option Nat
  | [] => none
  | c :: rest =>
    match lastIndex sep rest with
    | some i => some (i + 1)
    | none => if c = sep then some 0 else none

/-- Go's `strings.HasPrefix`. -/
def startsWith : GoString → GoString → Bool
  | _, [] => true
  | [], _ :: _ => false
  | c :: s, p :: ps => c == p && startsWith s ps

/-- Go's `strings.Index(s, sub)`; `none` is `-1`. -/
def indexOf (sub : GoString) : GoString → Option Nat
  | [] => if sub = [] then some 0 else none
  | c :: rest =>
    if startsWith (c :: rest) sub then some 0
    else (indexOf sub rest).map (· + 1)

/-- Go's `strings.Count(s, sep)` for a one-byte separator. -/
def countByte (sep : Nat) (s : GoString) : Nat := s.count sep

/-- Go's `strings.ToLower` on the ASCII letters (the only bytes a scheme can hold). -/
def toLowerASCII (s : GoString) : GoString :=
  s.map fun c => if 'A'.toNat ≤ c ∧ c ≤ 'Z'.toNat then c + 32 else c

/-! ## net/url

`Parse`, `ResolveReference` and `String` with what they call. The library has changed
at two edges over its releases, and `parseHost` and `resolvePath` are embedded here as
they were before those changes: later releases check that a host in square brackets is
an IPv6 address and reject a host with more than one colon outside brackets, and they
treat an empty path element that follows a `..` element differently. The properties
proved about URLs are stated for base addresses on which the releases agree
(`PlainBase`: a host without brackets and with at most one colon, a path without `.`
and `..` elements) and for the literals of the package.
-/

namespace url

/-- The escaping modes of net/url (`type encoding int`). -/
inductive encoding where
  | encodePath
  | encodePathSegment
  | encodeHost
  | encodeZone
  | encodeUserPassword
  | encodeQueryComponent
  | encodeFragment
  deriving DecidableEq, Repr

open encoding

/-- The type `url.Userinfo`. -/
structure Userinfo where
  username : GoString
  password : GoString
  passwordSet : Bool
  deriving DecidableEq, Repr

/-- The type `url.URL`; a nil `User` is `none`. -/
structure URL where
  Scheme : GoString := []
  Opaque : GoString := []
  User : Option Userinfo := none
  Host : GoString := []
  Path : GoString := []
  RawPath : GoString := []
  OmitHost : Bool := false
  ForceQuery : Bool := false
  RawQuery : GoString := []
  Fragment : GoString := []
  RawFragment : GoString := []
  deriving DecidableEq, Repr

def ishex (c : Nat) : Bool :=
  ('0'.toNat ≤ c && c ≤ '9'.toNat) || ('a'.toNat ≤ c && c ≤ 'f'.toNat) ||
    ('A'.toNat ≤ c && c ≤ 'F'.toNat)

def unhex (c : Nat) : Nat :=
  if '0'.toNat ≤ c ∧ c ≤ '9'.toNat then c - '0'.toNat
  else if 'a'.toNat ≤ c ∧ c ≤ 'f'.toNat then c - 'a'.toNat + 10
  else if 'A'.toNat ≤ c ∧ c ≤ 'F'.toNat then c - 'A'.toNat + 10
  else 0

/-- The bytes `! $ & ' ( ) * + , ; = : [ ] < > "` that a host may hold unescaped. -/
def hostSubDelims : GoString :=
  [33, 36, 38, 39, 40, 41, 42, 43, 44, 59, 61, 58, 91, 93, 60, 62, 34]

/-- Go's `shouldEscape(c, mode)`: whether byte `c` must be percent-escaped in `mode`. -/
def shouldEscape (c : Nat) (mode : encoding) : Bool :=
  if ('a'.toNat ≤ c && c ≤ 'z'.toNat) || ('A'.toNat ≤ c && c ≤ 'Z'.toNat) ||
      ('0'.toNat ≤ c && c ≤ '9'.toNat) then false
  else if (mode = encodeHost || mode = encodeZone) && hostSubDelims.contains c then false
  else if c = '-'.toNat || c = '_'.toNat || c = '.'.toNat || c = '~'.toNat then false
  else if (str "$&+,/:;=?@").contains c &&
      (mode = encodePath || mode = encodePathSegment || mode = encodeUserPassword ||
        mode = encodeQueryComponent || mode = encodeFragment) then
    match mode with
    | encodePath => c = '?'.toNat
    | encodePathSegment =>
      c = '/'.toNat || c = ';'.toNat || c = ','.toNat || c = '?'.toNat
    | encodeUserPassword =>
      c = '@'.toNat || c = '/'.toNat || c = '?'.toNat || c = ':'.toNat
    | encodeQueryComponent => true
    | encodeFragment => false
    | _ => true
  else if mode = encodeFragment && (str "!()*").contains c then false
  else true

/-- The first loop of Go's `unescape`: checks that every `%` starts a well-formed
escape that the mode allows, and that a host holds no byte it must not. -/
def unescapeCheck (mode : encoding) : GoString → Option GoError
  | [] => none
  | c :: rest =>
    if c = '%'.toNat then
      match rest with
      | h1 :: h2 :: rest2 =>
        if !ishex h1 || !ishex h2 then some (.EscapeError [c, h1, h2])
        else if mode = encodeHost && unhex h1 < 8 && [c, h1, h2] ≠ str "%25" then
          some (.EscapeError [c, h1, h2])
        else if mode = encodeZone && [c, h1, h2] ≠ str "%25" &&
            unhex h1 * 16 + unhex h2 ≠ ' '.toNat &&
            shouldEscape (unhex h1 * 16 + unhex h2) encodeHost then
          some (.EscapeError [c, h1, h2])
        else unescapeCheck mode rest2
      | short => some (.EscapeError (c :: short))
    else if c = '+'.toNat then unescapeCheck mode rest
    else if (mode = encodeHost || mode = encodeZone) && c < 128 &&
        shouldEscape c encodeHost then
      some (.InvalidHostError [c])
    else unescapeCheck mode rest

/-- The second loop of Go's `unescape`: replaces each `%XX` by its byte and, in query
components, `+` by a space. Only run on text that passed `unescapeCheck`. -/
def unescapeWrite (mode : encoding) : GoString → GoString
  | [] => []
  | c :: rest =>
    if c = '%'.toNat then
      match rest with
      | h1 :: h2 :: rest2 => (unhex h1 * 16 + unhex h2) :: unescapeWrite mode rest2
      | _ => []
    else if c = '+'.toNat then
      (if mode = encodeQueryComponent then ' '.toNat else '+'.toNat) :: unescapeWrite mode rest
    else c :: unescapeWrite mode rest

/-- Go's `unescape(s, mode)`. -/
def unescape (s : GoString) (mode : encoding) : Except GoError GoString :=
  match unescapeCheck mode s with
  | some e => .error e
  | none => .ok (unescapeWrite mode s)

/-- Go's `"0123456789ABCDEF"[i]` for `i < 16`. -/
def upperhex (i : Nat) : Nat := if i < 10 then '0'.toNat + i else 'A'.toNat + (i - 10)

/-- Go's `escape(s, mode)`. -/
def escape (s : GoString) (mode : encoding) : GoString :=
  s.flatMap fun c =>
    if shouldEscape c mode then
      if c = ' '.toNat ∧ mode = encodeQueryComponent then ['+'.toNat]
      else ['%'.toNat, upperhex (c / 16 % 16), upperhex (c % 16)]
    else [c]

/-- Go's `validEncoded(s, mode)`. -/
def validEncoded (s : GoString) (mode : encoding) : Bool :=
  s.all fun c => (str "!$&()*+,;=:@[]%").contains c || c = 39 || !shouldEscape c mode

/-- Go's `(*URL).setPath`. -/
def URL.setPath (u : URL) (p : GoString) : Except GoError URL :=
  match unescape p encodePath with
  | .error e => .error e
  | .ok path =>
    .ok { u with Path := path, RawPath := if p = escape path encodePath then [] else p }

/-- Go's `(*URL).setFragment`. -/
def URL.setFragment (u : URL) (f : GoString) : Except GoError URL :=
  match unescape f encodeFragment with
  | .error e => .error e
  | .ok frag =>
    .ok { u with Fragment := frag,
                 RawFragment := if f = escape frag encodeFragment then [] else f }

/-- The test `p, err := unescape(raw, mode); err == nil && p == v` of `EscapedPath`
and `EscapedFragment`. -/
def unescapesTo (raw : GoString) (mode : encoding) (v : GoString) : Bool :=
  match unescape raw mode with
  | .ok p => p = v
  | .error _ => false

/-- Go's `(*URL).EscapedPath`. -/
def URL.EscapedPath (u : URL) : GoString :=
  if u.RawPath ≠ [] ∧ validEncoded u.RawPath encodePath = true ∧
      unescapesTo u.RawPath encodePath u.Path = true then u.RawPath
  else if u.Path = str "*" then str "*"
  else escape u.Path encodePath

/-- Go's `(*URL).EscapedFragment`. -/
def URL.EscapedFragment (u : URL) : GoString :=
  if u.RawFragment ≠ [] ∧ validEncoded u.RawFragment encodeFragment = true ∧
      unescapesTo u.RawFragment encodeFragment u.Fragment = true then u.RawFragment
  else escape u.Fragment encodeFragment

/-- Go's `(*Userinfo).String` on a non-nil receiver. -/
def Userinfo.String (ui : Userinfo) : GoString :=
  escape ui.username encodeUserPassword ++
    (if ui.passwordSet then ':'.toNat :: escape ui.password encodeUserPassword else [])

/-- The elements that successive `strings.Cut(remaining, "/")` calls of `resolvePath`
deliver: the text between the slashes, in order. -/
def segments : GoString → List GoString
  | [] => [[]]
  | c :: rest =>
    if c = '/'.toNat then [] :: segments rest
    else
      match segments rest with
      | seg :: segs => (c :: seg) :: segs
      | [] => [[c]]

/-- One turn of the loop of `resolvePath`: the builder `dst` and the flag `first`
after the element `elem`. A `..` element sets `first` only when it empties the builder
for want of a slash, and leaves it as it is otherwise. -/
def resolveStep (st : GoString × Bool) (elem : GoString) : GoString × Bool :=
  if elem = str "." then (st.1, false)
  else if elem = str ".." then
    match lastIndex '/'.toNat (st.1.drop 1) with
    | none => (str "/", true)
    | some index => ('/'.toNat :: (st.1.drop 1).take index, st.2)
  else ((if st.2 then st.1 else st.1 ++ str "/") ++ elem, false)

/-- Go's `resolvePath(base, ref)`: the path of `ref` taken relative to `base`, with
the `.` and `..` elements removed (RFC 3986, sections 5.2.3 and 5.2.4). -/
def resolvePath (base ref : GoString) : GoString :=
  let full :=
    match ref with
    | [] => base
    | c :: _ =>
      if c ≠ '/'.toNat then
        (match lastIndex '/'.toNat base with
          | some i => base.take (i + 1)
          | none => []) ++ ref
      else ref
  if full = [] then []
  else
    let elems := segments full
    let dst := (elems.foldl resolveStep (str "/", true)).1
    let last := elems.getLast?.getD []
    let r := if last = str "." ∨ last = str ".." then dst ++ str "/" else dst
    match r with
    | _ :: c :: rest => if c = '/'.toNat then c :: rest else r
    | _ => r

/-- Go's `(*URL).setPath` with its error dropped, as `ResolveReference` calls it:
on an error the URL is left as it was. -/
def URL.setPathIgnoringError (u : URL) (p : GoString) : URL :=
  match u.setPath p with
  | .ok v => v
  | .error _ => u

/-- Go's `(*URL).ResolveReference`. -/
def URL.ResolveReference (u ref : URL) : URL :=
  let url : URL := if ref.Scheme = [] then { ref with Scheme := u.Scheme } else ref
  if ref.Scheme ≠ [] ∨ ref.Host ≠ [] ∨ ref.User ≠ none then
    url.setPathIgnoringError (resolvePath ref.EscapedPath [])
  else if ref.Opaque ≠ [] then
    { url with User := none, Host := [], Path := [] }
  else
    let url : URL :=
      if ref.Path = [] ∧ ref.ForceQuery = false ∧ ref.RawQuery = [] then
        if ref.Fragment = [] then
          { url with RawQuery := u.RawQuery, Fragment := u.Fragment,
                     RawFragment := u.RawFragment }
        else { url with RawQuery := u.RawQuery }
      else url
    if ref.Path = [] ∧ u.Opaque ≠ [] then
      { url with Opaque := u.Opaque, User := none, Host := [], Path := [] }
    else
      ({ url with Host := u.Host, User := u.User } : URL).setPathIgnoringError
        (resolvePath u.EscapedPath ref.EscapedPath)

/-- Go's `(*URL).String`. -/
def URL.String (u : URL) : GoString :=
  let buf : GoString := if u.Scheme ≠ [] then u.Scheme ++ str ":" else []
  let buf : GoString :=
    if u.Opaque ≠ [] then buf ++ u.Opaque
    else
      let buf : GoString :=
        if u.Scheme ≠ [] ∨ u.Host ≠ [] ∨ u.User ≠ none then
          if u.OmitHost = true ∧ u.Host = [] ∧ u.User = none then buf
          else
            buf ++ (if u.Host ≠ [] ∨ u.Path ≠ [] ∨ u.User ≠ none then str "//" else []) ++
              (match u.User with
                | some ui => ui.String ++ str "@"
                | none => []) ++
              (if u.Host ≠ [] then escape u.Host encodeHost else [])
        else buf
      let path := u.EscapedPath
      let buf : GoString :=
        if path ≠ [] ∧ path.head? ≠ some '/'.toNat ∧ u.Host ≠ [] then buf ++ str "/" else buf
      let buf : GoString :=
        if buf = [] ∧ (cut '/'.toNat path).1.contains ':'.toNat = true then buf ++ str "./"
        else buf
      buf ++ path
  let buf : GoString :=
    if u.ForceQuery = true ∨ u.RawQuery ≠ [] then buf ++ str "?" ++ u.RawQuery else buf
  if u.Fragment ≠ [] then buf ++ str "#" ++ u.EscapedFragment else buf

/-- Go's `getScheme(rawURL)`: a leading `scheme:` split off, `i` counting the bytes
already read and `seen` holding them. -/
def getSchemeLoop (rawURL : GoString) : Nat → GoString → GoString →
    Except GoError (GoString × GoString)
  | _, _, [] => .ok ([], rawURL)
  | i, seen, c :: rest =>
    if ('a'.toNat ≤ c ∧ c ≤ 'z'.toNat) ∨ ('A'.toNat ≤ c ∧ c ≤ 'Z'.toNat) then
      getSchemeLoop rawURL (i + 1) (seen ++ [c]) rest
    else if ('0'.toNat ≤ c ∧ c ≤ '9'.toNat) ∨ c = '+'.toNat ∨ c = '-'.toNat ∨ c = '.'.toNat then
      if i = 0 then .ok ([], rawURL) else getSchemeLoop rawURL (i + 1) (seen ++ [c]) rest
    else if c = ':'.toNat then
      if i = 0 then .error (.errorString (str "missing protocol scheme"))
      else .ok (seen, rest)
    else .ok ([], rawURL)

/-- Go's `getScheme`. -/
def getScheme (rawURL : GoString) : Except GoError (GoString × GoString) :=
  getSchemeLoop rawURL 0 [] rawURL

/-- Go's `validOptionalPort`: empty, or a colon followed by digits only. -/
def validOptionalPort (port : GoString) : Bool :=
  match port with
  | [] => true
  | c :: rest => c = ':'.toNat && rest.all fun b => '0'.toNat ≤ b && b ≤ '9'.toNat

/-- Go's `validUserinfo`. -/
def validUserinfo (s : GoString) : Bool :=
  s.all fun r =>
    ('A'.toNat ≤ r && r ≤ 'Z'.toNat) || ('a'.toNat ≤ r && r ≤ 'z'.toNat) ||
      ('0'.toNat ≤ r && r ≤ '9'.toNat) || (str "-._:~!$&()*+,;=%@").contains r || r = 39

/-- Go's `stringContainsCTLByte`. -/
def stringContainsCTLByte (s : GoString) : Bool :=
  s.any fun b => b < ' '.toNat || b = 127

/-- Go's `parseHost`, as in the releases in which a host in square brackets is checked
for its closing bracket, its port and its escapes only, and the port of another host is
what follows its last colon. -/
def parseHost (host : GoString) : Except GoError GoString :=
  if startsWith host (str "[") then
    match lastIndex ']'.toNat host with
    | none => .error (.errorString (str "missing ']' in host"))
    | some i =>
      let colonPort := host.drop (i + 1)
      if !validOptionalPort colonPort then .error (.invalidPort colonPort)
      else
        match indexOf (str "%25") (host.take i) with
        | some zone =>
          match unescape (host.take zone) encodeHost with
          | .error e => .error e
          | .ok host1 =>
            match unescape ((host.take i).drop zone) encodeZone with
            | .error e => .error e
            | .ok host2 =>
              match unescape (host.drop i) encodeHost with
              | .error e => .error e
              | .ok host3 => .ok (host1 ++ host2 ++ host3)
        | none => unescape host encodeHost
  else
    match lastIndex ':'.toNat host with
    | some i =>
      let colonPort := host.drop i
      if !validOptionalPort colonPort then .error (.invalidPort colonPort)
      else unescape host encodeHost
    | none => unescape host encodeHost

/-- Go's `parseAuthority`. -/
def parseAuthority (authority : GoString) : Except GoError (Option Userinfo × GoString) :=
  match lastIndex '@'.toNat authority with
  | none =>
    match parseHost authority with
    | .error e => .error e
    | .ok host => .ok (none, host)
  | some i =>
    match parseHost (authority.drop (i + 1)) with
    | .error e => .error e
    | .ok host =>
      let userinfo := authority.take i
      if !validUserinfo userinfo then .error (.errorString (str "net/url: invalid userinfo"))
      else if !userinfo.contains ':'.toNat then
        match unescape userinfo encodeUserPassword with
        | .error e => .error e
        | .ok name => .ok (some ⟨name, [], false⟩, host)
      else
        let c := cut ':'.toNat userinfo
        match unescape c.1 encodeUserPassword with
        | .error e => .error e
        | .ok username =>
          match unescape c.2.1 encodeUserPassword with
          | .error e => .error e
          | .ok password => .ok (some ⟨username, password, true⟩, host)

/-- Go's `parse(rawURL, viaRequest)`: a URL without its fragment. -/
def parse (rawURL : GoString) (viaRequest : Bool) : Except GoError URL :=
  if stringContainsCTLByte rawURL then
    .error (.errorString (str "net/url: invalid control character in URL"))
  else if rawURL = [] ∧ viaRequest = true then .error (.errorString (str "empty url"))
  else if rawURL = str "*" then .ok { Path := str "*" }
  else
    match getScheme rawURL with
    | .error e => .error e
    | .ok (scheme, rest) =>
      let url : URL := { Scheme := toLowerASCII scheme }
      let forced : Bool := rest.getLast? = some '?'.toNat ∧ countByte '?'.toNat rest = 1
      let url : URL :=
        if forced then { url with ForceQuery := true }
        else { url with RawQuery := (cut '?'.toNat rest).2.1 }
      let rest : GoString := if forced then rest.dropLast else (cut '?'.toNat rest).1
      if !startsWith rest (str "/") ∧ url.Scheme ≠ [] then .ok { url with Opaque := rest }
      else if !startsWith rest (str "/") ∧ viaRequest = true then
        .error (.errorString (str "invalid URI for request"))
      else if !startsWith rest (str "/") ∧ (cut '/'.toNat rest).1.contains ':'.toNat = true then
        .error (.errorString (str "first path segment in URL cannot contain colon"))
      else if (url.Scheme ≠ [] ∨ (viaRequest = false ∧ !startsWith rest (str "///"))) ∧
          startsWith rest (str "//") = true then
        let authority := rest.drop 2
        let split : GoString × GoString :=
          match (cut '/'.toNat authority).2.2 with
          | true => ((cut '/'.toNat authority).1, '/'.toNat :: (cut '/'.toNat authority).2.1)
          | false => (authority, [])
        match parseAuthority split.1 with
        | .error e => .error e
        | .ok (user, host) => ({ url with User := user, Host := host } : URL).setPath split.2
      else if url.Scheme ≠ [] ∧ startsWith rest (str "/") = true then
        ({ url with OmitHost := true } : URL).setPath rest
      else url.setPath rest

/-- Go's `url.Parse`. -/
def Parse (rawURL : GoString) : Except GoError URL :=
  let c := cut '#'.toNat rawURL
  match parse c.1 false with
  | .error e => .error (.urlError (str "parse") c.1 e)
  | .ok url =>
    if c.2.1 = [] then .ok url
    else
      match url.setFragment c.2.1 with
      | .error e => .error (.urlError (str "parse") rawURL e)
      | .ok url => .ok url

end url

/-! ## encoding/xml

The decoder is modelled from its token layer upwards. The bytes of a document enter
as what the lexer `(*Decoder).rawToken` makes of them: the raw tokens in order, and
the error that ends the stream: `io.EOF` when the bytes are used up (so a document
of no bytes is no tokens followed by `io.EOF`), or the lexer's error at the first
construct it cannot read. On top of that `Token` (element nesting), `Skip`,
`unmarshal` and `unmarshalPath` are modelled as the library defines them, for the
kinds of value this package decodes into: strings, structs, and slices of structs.
The library's limit on the depth of nested `unmarshal` calls (10000) is left out:
with these types the calls nest four deep at most.
-/

namespace xml

/-- The type `xml.Name`. -/
structure Name where
  Space : GoString
  Local : GoString
  deriving DecidableEq, Repr

/-- The type `xml.Attr`. -/
structure Attr where
  Name : Name
  Value : GoString
  deriving DecidableEq, Repr

/-- The type `xml.Token`: the six kinds of token. -/
inductive Token where
  | StartElement (name : Name) (attr : List Attr)
  | EndElement (name : Name)
  | CharData (data : GoString)
  | Comment (data : GoString)
  | ProcInst (target inst : GoString)
  | Directive (data : GoString)
  deriving DecidableEq, Repr

/-- The input of a decoder: the raw tokens of the bytes still unread, and the error
that reading past them gives. -/
structure Source where
  toks : List Token
  fin : GoError
  deriving DecidableEq, Repr

/-- The source of a body of no bytes. -/
def Source.empty : Source := ⟨[], .EOF⟩

/-- The state of an `xml.Decoder`: its input and the stack `stk` of the elements
that are open (innermost first). The decoder is strict, as `NewDecoder` makes it. -/
structure Decoder where
  src : Source
  stk : List Name
  deriving DecidableEq, Repr

/-- Go's `xml.NewDecoder(r)`. -/
def NewDecoder (r : Source) : Decoder := ⟨r, []⟩

/-- Go's `(*Decoder).Token`: the next token, checked against the open elements. At
the end of the input with an element still open the error is a syntax error, and an
end tag must close the innermost open element, by local name and by prefix. The
names are delivered as written (the namespace translation changes `Space` only,
which no field of this package looks at). -/
def Decoder.Token (d : Decoder) : Except GoError (Token × Decoder) :=
  match d.src.toks with
  | [] =>
    if d.src.fin = .EOF ∧ d.stk ≠ [] then .error (.SyntaxError (str "unexpected EOF"))
    else .error d.src.fin
  | t :: rest =>
    match t with
    | .StartElement name _ => .ok (t, ⟨⟨rest, d.src.fin⟩, name :: d.stk⟩)
    | .EndElement name =>
      match d.stk with
      | [] =>
        .error (.SyntaxError (str "unexpected end element </" ++ name.Local ++ str ">"))
      | s :: stk =>
        if s.Local ≠ name.Local then
          .error (.SyntaxError
            (str "element <" ++ s.Local ++ str "> closed by </" ++ name.Local ++ str ">"))
        else if s.Space ≠ name.Space then
          .error (.SyntaxError
            (str "element <" ++ s.Local ++ str "> in space " ++ s.Space ++
              str " closed by </" ++ name.Local ++ str "> in space " ++
              (if name.Space = [] then str "\"\"" else name.Space)))
        else .ok (t, ⟨⟨rest, d.src.fin⟩, stk⟩)
    | _ => .ok (t, ⟨⟨rest, d.src.fin⟩, d.stk⟩)

/-- What a decoding step gives: a value and the decoder after it, an error, or
`outOfFuel` when the step counter `fuel` of the model ran out (which `Decode` rules
out by the fuel it starts with). -/
inductive Res (α : Type) where
  | ok (v : α) (d : Decoder)
  | err (e : GoError)
  | outOfFuel
  deriving DecidableEq, Repr

/-- Go's `(*Decoder).Skip`: reads up to the end tag that closes the element whose
start tag was just read; `depth` counts the elements opened on the way. -/
def Skip : Nat → Nat → Decoder → Res Unit
  | 0, _, _ => .outOfFuel
  | fuel + 1, depth, d =>
    match d.Token with
    | .error e => .err e
    | .ok (.StartElement _ _, d1) => Skip fuel (depth + 1) d1
    | .ok (.EndElement _, d1) =>
      if depth = 0 then .ok () d1 else Skip fuel (depth - 1) d1
    | .ok (_, d1) => Skip fuel depth d1

/-- Go's `(*Decoder).unmarshal` for a value of kind `reflect.String`, the start tag
read: the character data directly inside the element is gathered in `data`, the
elements inside it are skipped, and at the end tag `copyValue` stores the text. -/
def unmarshalString : Nat → GoString → Decoder → Res GoString
  | 0, _, _ => .outOfFuel
  | fuel + 1, data, d =>
    match d.Token with
    | .error e => .err e
    | .ok (.StartElement _ _, d1) =>
      match Skip fuel 0 d1 with
      | .ok _ d2 => unmarshalString fuel data d2
      | .err e => .err e
      | .outOfFuel => .outOfFuel
    | .ok (.EndElement _, d1) => .ok data d1
    | .ok (.CharData t, d1) => unmarshalString fuel (data ++ t) d1
    | .ok (_, d1) => unmarshalString fuel data d1

/-- A field of a struct as `getTypeInfo` records it from the field's `xml:"a>b>name"`
tag: the parent elements, the element name, and `store`, the call
`d.unmarshal(finfo.value(sv), start, depth+1)` for the field's type. -/
structure fieldInfo (σ : Type) where
  parents : List GoString
  name : GoString
  store : Nat → σ → Decoder → Res σ

/-- How the field loop of `unmarshalPath` ends for a start tag. -/
inductive Found (σ : Type) where
  /-- A field whose whole path is the path to the element. -/
  | perfect (f : fieldInfo σ)
  /-- A field whose path goes through the element: `recurse`, with the new `parents`. -/
  | recurse (parents : List GoString)
  /-- No field has business with the element. -/
  | nothing

/-- The field loop of `unmarshalPath`, over the fields in declaration order. -/
def findField {σ : Type} (parents : List GoString) (lcl : GoString) :
    List (fieldInfo σ) → Found σ
  | [] => .nothing
  | f :: fs =>
    if f.parents.length < parents.length then findField parents lcl fs
    else if f.parents.take parents.length ≠ parents then findField parents lcl fs
    else if f.parents.length = parents.length ∧ f.name = lcl then .perfect f
    else if f.parents.length > parents.length ∧ f.parents.get? parents.length = some lcl then
      .recurse (f.parents.take (parents.length + 1))
    else findField parents lcl fs

/-- Go's `(*Decoder).unmarshalPath`, the start tag `start` read. `inLoop = false` is
the call itself; `inLoop = true` is its final `for` loop over the tokens inside an
element that is a parent of some field. The flag returned is `consumed`. -/
def unmarshalPath {σ : Type} (fields : List (fieldInfo σ)) :
    Nat → Bool → List GoString → Name → σ → Decoder → Res (Bool × σ)
  | 0, _, _, _, _, _ => .outOfFuel
  | fuel + 1, false, parents, start, sv, d =>
    match findField parents start.Local fields with
    | .perfect f =>
      match f.store fuel sv d with
      | .ok sv1 d1 => .ok (true, sv1) d1
      | .err e => .err e
      | .outOfFuel => .outOfFuel
    | .recurse parents1 => unmarshalPath fields fuel true parents1 start sv d
    | .nothing => .ok (false, sv) d
  | fuel + 1, true, parents, start, sv, d =>
    match d.Token with
    | .error e => .err e
    | .ok (.StartElement name _, d1) =>
      match unmarshalPath fields fuel false parents name sv d1 with
      | .ok (true, sv1) d2 => unmarshalPath fields fuel true parents start sv1 d2
      | .ok (false, sv1) d2 =>
        match Skip fuel 0 d2 with
        | .ok _ d3 => unmarshalPath fields fuel true parents start sv1 d3
        | .err e => .err e
        | .outOfFuel => .outOfFuel
      | .err e => .err e
      | .outOfFuel => .outOfFuel
    | .ok (.EndElement _, d1) => .ok (true, sv) d1
    | .ok (_, d1) => unmarshalPath fields fuel true parents start sv d1

/-- Go's `(*Decoder).unmarshal` for a value of kind `reflect.Struct` with the fields
`fields` (no `XMLName`, attribute, chardata, comment or any field), the start tag
read: each element inside is offered to `unmarshalPath` and skipped when no field
takes it; other tokens are passed over; the end tag ends the loop. -/
def unmarshalStruct {σ : Type} (fields : List (fieldInfo σ)) : Nat → σ → Decoder → Res σ
  | 0, _, _ => .outOfFuel
  | fuel + 1, sv, d =>
    match d.Token with
    | .error e => .err e
    | .ok (.StartElement name _, d1) =>
      match unmarshalPath fields fuel false [] name sv d1 with
      | .ok (true, sv1) d2 => unmarshalStruct fields fuel sv1 d2
      | .ok (false, sv1) d2 =>
        match Skip fuel 0 d2 with
        | .ok _ d3 => unmarshalStruct fields fuel sv1 d3
        | .err e => .err e
        | .outOfFuel => .outOfFuel
      | .err e => .err e
      | .outOfFuel => .outOfFuel
    | .ok (.EndElement _, d1) => .ok sv d1
    | .ok (_, d1) => unmarshalStruct fields fuel sv d1

/-- The first loop of `(*Decoder).unmarshal` when it is given no start tag: tokens
are read until a start tag comes. -/
def findStart : Nat → Decoder → Res Name
  | 0, _ => .outOfFuel
  | fuel + 1, d =>
    match d.Token with
    | .error e => .err e
    | .ok (.StartElement name _, d1) => .ok name d1
    | .ok (_, d1) => findStart fuel d1

/-- A string field: `store` unmarshals the element into a string and sets the field. -/
def stringField {σ : Type} (parents : List GoString) (name : GoString)
    (set : σ → GoString → σ) : fieldInfo σ where
  parents := parents
  name := name
  store := fun fuel sv d =>
    match unmarshalString fuel [] d with
    | .ok data d1 => .ok (set sv data) d1
    | .err e => .err e
    | .outOfFuel => .outOfFuel

/-- A field that is a slice of structs: `store` grows the slice by one zero struct
`zero`, unmarshals the element into it, and keeps the grown slice. -/
def sliceField {σ τ : Type} (name : GoString) (elemFields : List (fieldInfo τ)) (zero : τ)
    (append : σ → τ → σ) : fieldInfo σ where
  parents := []
  name := name
  store := fun fuel sv d =>
    match unmarshalStruct elemFields fuel zero d with
    | .ok elem d1 => .ok (append sv elem) d1
    | .err e => .err e
    | .outOfFuel => .outOfFuel

/-- Go's `(*Decoder).Decode(v)` for `v` a pointer to a struct with the fields `fields`
holding `sv`: the first start tag is looked for and the struct unmarshalled from the
element it opens. The fuel is one more than twice the number of tokens: every turn of
a loop reads a token, and a call that reads none (`unmarshalPath`, `store`) follows
the reading of a start tag, so this fuel is never used up. -/
def Decode {σ : Type} (fields : List (fieldInfo σ)) (sv : σ) (d : Decoder) :
    Res σ :=
  match findStart (2 * d.src.toks.length + 1) d with
  | .ok _ d1 => unmarshalStruct fields (2 * d.src.toks.length + 1) sv d1
  | .err e => .err e
  | .outOfFuel => .outOfFuel

end xml

/-! ## net/http -/

namespace http

/-- The type `http.Header`: the values of each key. -/
abbrev Header := List (GoString × List GoString)

/-- The token bytes of RFC 7230 (`httpguts.IsTokenRune`, `validHeaderFieldByte`):
letters, digits and the marks ``! # $ % & ' * + - . ^ _ ` | ~``. -/
def isTokenByte (c : Nat) : Bool :=
  ('a'.toNat ≤ c && c ≤ 'z'.toNat) || ('A'.toNat ≤ c && c ≤ 'Z'.toNat) ||
    ('0'.toNat ≤ c && c ≤ '9'.toNat) ||
    [33, 35, 36, 37, 38, 39, 42, 43, 45, 46, 94, 95, 96, 124, 126].contains c

/-- The loop of `canonicalMIMEHeaderKey`: the first letter and each letter after a
hyphen in upper case, the other letters in lower case. -/
def canonicalLoop : Bool → GoString → GoString
  | _, [] => []
  | upper, c :: rest =>
    let c1 :=
      if upper ∧ 'a'.toNat ≤ c ∧ c ≤ 'z'.toNat then c - 32
      else if ¬ upper ∧ 'A'.toNat ≤ c ∧ c ≤ 'Z'.toNat then c + 32
      else c
    c1 :: canonicalLoop (c1 = '-'.toNat) rest

/-- Go's `textproto.CanonicalMIMEHeaderKey`: a key with a byte that is no token byte
is left as it is. -/
def CanonicalMIMEHeaderKey (s : GoString) : GoString :=
  if s.all isTokenByte then canonicalLoop true s else s

/-- Go's `Header.Set(key, value)`: the canonical key gets the single value `value`. -/
def Header.Set (h : Header) (key value : GoString) : Header :=
  (h.filter fun kv => kv.1 ≠ CanonicalMIMEHeaderKey key) ++
    [(CanonicalMIMEHeaderKey key, [value])]

/-- The type `http.Request`, with the fields `NewRequest` fills. -/
structure Request where
  Method : GoString
  URL : url.URL
  Header : Header
  Host : GoString
  deriving DecidableEq, Repr

/-- A response body (`io.ReadCloser`): what is left to read, and whether `Close` has
been called on it. -/
structure Body where
  src : xml.Source
  closed : Bool
  deriving DecidableEq, Repr

/-- Go's `Body.Close()`. -/
def Body.Close (b : Body) : Body := { b with closed := true }

/-- The type `http.Response`, with the fields this package reads. -/
structure Response where
  StatusCode : Int
  Body : Body
  deriving DecidableEq, Repr

/-- The type `http.Client` as this package uses it: its method `Do`, which gives a
response or an error, never both and never neither. -/
structure Client where
  Do : Request → Except GoError Response

def StatusOK : Int := 200

def StatusNotModified : Int := 304

/-- Go's `validMethod`. -/
def validMethod (method : GoString) : Bool :=
  method ≠ [] && method.all isTokenByte

/-- Go's `removeEmptyPort`: a host that ends in a colon loses it. -/
def removeEmptyPort (host : GoString) : GoString :=
  let hasPort : Bool :=
    match lastIndex ':'.toNat host, lastIndex ']'.toNat host with
    | some i, some j => j < i
    | some _, none => true
    | none, _ => false
  if hasPort ∧ host.getLast? = some ':'.toNat then host.dropLast else host

/-- Go's `http.NewRequest(method, url, nil)`. -/
def NewRequest (method urlStr : GoString) : Except GoError Request :=
  let method := if method = [] then str "GET" else method
  if !validMethod method then .error (.invalidMethod method)
  else
    match url.Parse urlStr with
    | .error e => .error e
    | .ok u =>
      let u : url.URL := { u with Host := removeEmptyPort u.Host }
      .ok { Method := method, URL := u, Header := [], Host := u.Host }

end http

/-! ## Package systembolaget -/

def libraryVersion : GoString := str "0.2"

def baseURL : GoString := str "http://www.systembolaget.se/"

def userAgent : GoString := str "systembolaget/" ++ libraryVersion

/-- The type `Client`. The two pointer fields are `none` when nil. -/
structure Client where
  httpClient : Option http.Client
  BaseURL : Option url.URL
  UserAgent : GoString

/-- The type `Article`: 24 string fields, each empty in the zero value. -/
structure Article where
  Number : GoString := []
  ArticleId : GoString := []
  ProductNumber : GoString := []
  Name : GoString := []
  SubName : GoString := []
  Price : GoString := []
  VolumeMl : GoString := []
  PricePerLitre : GoString := []
  SoldSince : GoString := []
  DiscontinuedSince : GoString := []
  ProductGroup : GoString := []
  ContainerType : GoString := []
  SealingType : GoString := []
  Origin : GoString := []
  OriginCountry : GoString := []
  Producer : GoString := []
  Distributer : GoString := []
  AnnualVolume : GoString := []
  TestAnnualValume : GoString := []
  AlcoholPrecentage : GoString := []
  Assortment : GoString := []
  Organic : GoString := []
  Kosher : GoString := []
  PrimaryProducts : GoString := []
  deriving DecidableEq, Repr

set_option linter.dupNamespace false

/-- The type `Articles`. -/
structure Articles where
  CreatedAt : GoString := []
  InfoMessage : GoString := []
  Articles : List Article := []
  deriving DecidableEq, Repr

/-- The type `Store`: 14 string fields. -/
structure Store where
  Number : GoString := []
  /-- The field `Type` of the source (a keyword here). -/
  Typ : GoString := []
  Adress1 : GoString := []
  Adress2 : GoString := []
  Adress3 : GoString := []
  Adress4 : GoString := []
  Adress5 : GoString := []
  PhoneNumber : GoString := []
  StoreType : GoString := []
  Services : GoString := []
  SearchWords : GoString := []
  OpeningHours : GoString := []
  RT90x : GoString := []
  RT90y : GoString := []
  deriving DecidableEq, Repr

/-- The type `Stores`. -/
structure Stores where
  InfoMessage : GoString := []
  Stores : List Store := []
  deriving DecidableEq, Repr

open xml in
/-- The fields of `Article` with the element names of their `xml` tags, in the order
of declaration. -/
def articleFields : List (fieldInfo Article) :=
  [ stringField [] (str "nr") fun a s => { a with Number := s },
    stringField [] (str "Artikelid") fun a s => { a with ArticleId := s },
    stringField [] (str "Varnummer") fun a s => { a with ProductNumber := s },
    stringField [] (str "Namn") fun a s => { a with Name := s },
    stringField [] (str "Namn2") fun a s => { a with SubName := s },
    stringField [] (str "Prisinklmoms") fun a s => { a with Price := s },
    stringField [] (str "Volymiml") fun a s => { a with VolumeMl := s },
    stringField [] (str "PrisPerLiter") fun a s => { a with PricePerLitre := s },
    stringField [] (str "Saljstart") fun a s => { a with SoldSince := s },
    stringField [] (str "Slutlev") fun a s => { a with DiscontinuedSince := s },
    stringField [] (str "Varugrupp") fun a s => { a with ProductGroup := s },
    stringField [] (str "Forpackning") fun a s => { a with ContainerType := s },
    stringField [] (str "Forslutning") fun a s => { a with SealingType := s },
    stringField [] (str "Ursprung") fun a s => { a with Origin := s },
    stringField [] (str "Ursprunglandnamn") fun a s => { a with OriginCountry := s },
    stringField [] (str "Producent") fun a s => { a with Producer := s },
    stringField [] (str "Leverantor") fun a s => { a with Distributer := s },
    stringField [] (str "Argang") fun a s => { a with AnnualVolume := s },
    stringField [] (str "Provadargang") fun a s => { a with TestAnnualValume := s },
    stringField [] (str "Alkoholhalt") fun a s => { a with AlcoholPrecentage := s },
    stringField [] (str "Sortiment") fun a s => { a with Assortment := s },
    stringField [] (str "Ekologisk") fun a s => { a with Organic := s },
    stringField [] (str "Koscher") fun a s => { a with Kosher := s },
    stringField [] (str "RavarorBeskrivning") fun a s => { a with PrimaryProducts := s } ]

open xml in
/-- The fields of `Articles`: `skapad-tid`, `info>meddelande` and the slice `artikel`. -/
def articlesFields : List (fieldInfo Articles) :=
  [ stringField [] (str "skapad-tid") fun r s => { r with CreatedAt := s },
    stringField [str "info"] (str "meddelande") fun r s => { r with InfoMessage := s },
    sliceField (str "artikel") articleFields {} fun r a =>
      { r with Articles := r.Articles ++ [a] } ]

open xml in
/-- The fields of `Store` with the element names of their `xml` tags. -/
def storeFields : List (fieldInfo Store) :=
  [ stringField [] (str "Nr") fun a s => { a with Number := s },
    stringField [] (str "Typ") fun a s => { a with Typ := s },
    stringField [] (str "Address1") fun a s => { a with Adress1 := s },
    stringField [] (str "Address2") fun a s => { a with Adress2 := s },
    stringField [] (str "Address3") fun a s => { a with Adress3 := s },
    stringField [] (str "Address4") fun a s => { a with Adress4 := s },
    stringField [] (str "Address5") fun a s => { a with Adress5 := s },
    stringField [] (str "Telefon") fun a s => { a with PhoneNumber := s },
    stringField [] (str "ButiksTyp") fun a s => { a with StoreType := s },
    stringField [] (str "Tjanster") fun a s => { a with Services := s },
    stringField [] (str "SokOrd") fun a s => { a with SearchWords := s },
    stringField [] (str "Oppettider") fun a s => { a with OpeningHours := s },
    stringField [] (str "RT90x") fun a s => { a with RT90x := s },
    stringField [] (str "RT90y") fun a s => { a with RT90y := s } ]

open xml in
/-- The fields of `Stores`: `Info>Meddelande` and the slice `ButikOmbud`. -/
def storesFields : List (fieldInfo Stores) :=
  [ stringField [str "Info"] (str "Meddelande") fun r s => { r with InfoMessage := s },
    sliceField (str "ButikOmbud") storeFields {} fun r a =>
      { r with Stores := r.Stores ++ [a] } ]

/-- How a call of a function of the package ends: it returns its two results (`none`
is nil), or it panics on a nil pointer. -/
inductive Outcome (α : Type) where
  | ret (val : Option α) (err : Option GoError)
  | panic
  deriving DecidableEq, Repr

/-- What a call leaves behind besides its results: the request it handed to the
transport, and the response the transport returned, with its body as it is when the
call returns. -/
structure Effects where
  sent : Option http.Request := none
  response : Option http.Response := none
  deriving DecidableEq, Repr

/-- Go's `NewClient(httpClient)`; `DefaultClient` is `http.DefaultClient`. -/
def NewClient (DefaultClient : http.Client) (httpClient : Option http.Client) : Client :=
  let httpClient : http.Client :=
    match httpClient with
    | none => DefaultClient
    | some h => h
  { httpClient := some httpClient
    BaseURL := (url.Parse baseURL).toOption
    UserAgent := userAgent }

/-- The call `c.BaseURL.ResolveReference(ref)` of `get`; `none` is the panic on a nil
`BaseURL`, which `ResolveReference` reads only for a `ref` without scheme. -/
def Client.resolve (c : Client) (ref : url.URL) : Option url.URL :=
  match c.BaseURL with
  | some base => some (base.ResolveReference ref)
  | none => if ref.Scheme = [] then none else some (ref.ResolveReference ref)

/-- Go's `(*Client).get(endp)`. -/
def Client.get (c : Client) (endp : GoString) : Outcome http.Response × Effects :=
  match url.Parse endp with
  | .error err => (.ret none (some err), {})
  | .ok ref =>
    match c.resolve ref with
    | none => (.panic, {})
    | some u =>
      match http.NewRequest (str "GET") u.String with
      | .error err => (.ret none (some err), {})
      | .ok req =>
        match c.httpClient with
        | none => (.panic, {})
        | some httpClient =>
          match httpClient.Do { req with Header := req.Header.Set (str "User-Agent") c.UserAgent } with
          | .error err =>
            (.ret none (some err),
              { sent := some { req with Header := req.Header.Set (str "User-Agent") c.UserAgent } })
          | .ok resp =>
            if resp.StatusCode ≠ http.StatusOK ∧ resp.StatusCode ≠ http.StatusNotModified then
              (.ret none
                  (some (.errorString
                    (str "api error, response code: " ++ strconv.Itoa resp.StatusCode))),
                { sent := some { req with Header := req.Header.Set (str "User-Agent") c.UserAgent },
                  response := some resp })
            else
              (.ret (some resp) none,
                { sent := some { req with Header := req.Header.Set (str "User-Agent") c.UserAgent },
                  response := some resp })

/-- Go's `(*Client).Stores()`. The deferred `res.Body.Close()` runs at each of the two
returns that follow it. -/
def Client.Stores (c : Client) : Outcome Stores × Effects :=
  match c.get (str "Assortment.aspx?butikerombud=1") with
  | (.panic, eff) => (.panic, eff)
  | (.ret _ (some err), eff) => (.ret none (some err), eff)
  | (.ret none none, eff) => (.panic, eff)
  | (.ret (some res) none, eff) =>
    let closed : Effects := { eff with response := some { res with Body := res.Body.Close } }
    match xml.Decode storesFields {} (xml.NewDecoder res.Body.src) with
    | .err err => (.ret none (some err), closed)
    | .ok stores _ => (.ret (some stores) none, closed)
    | .outOfFuel => (.panic, closed)

/-- Go's `(*Client).Articles()`. The deferred `res.Body.Close()` runs at each of the
two returns that follow it. -/
def Client.Articles (c : Client) : Outcome Articles × Effects :=
  match c.get (str "Assortment.aspx?Format=Xml") with
  | (.panic, eff) => (.panic, eff)
  | (.ret _ (some err), eff) => (.ret none (some err), eff)
  | (.ret none none, eff) => (.panic, eff)
  | (.ret (some res) none, eff) =>
    let closed : Effects := { eff with response := some { res with Body := res.Body.Close } }
    match xml.Decode articlesFields {} (xml.NewDecoder res.Body.src) with
    | .err err => (.ret none (some err), closed)
    | .ok articles _ => (.ret (some articles) none, closed)
    | .outOfFuel => (.panic, closed)

/-! ## Auxiliary definitions for the properties -/

/-- The status check of `get` on the response `resp` to the request `req`. -/
def Client.check (req : http.Request) (resp : http.Response) :
    Outcome http.Response × Effects :=
  if resp.StatusCode ≠ http.StatusOK ∧ resp.StatusCode ≠ http.StatusNotModified then
    (.ret none
        (some (.errorString (str "api error, response code: " ++ strconv.Itoa resp.StatusCode))),
      { sent := some req, response := some resp })
  else (.ret (some resp) none, { sent := some req, response := some resp })

/-- What `Articles` and `Stores` have in common: the call of `get` for `ref`, the
deferred `res.Body.Close()`, and the decoding into the zero value `zero` of the
record with the fields `fields`. -/
def Client.fetch {σ : Type} (c : Client) (ref : GoString) (fields : List (xml.fieldInfo σ))
    (zero : σ) : Outcome σ × Effects :=
  match c.get ref with
  | (.panic, eff) => (.panic, eff)
  | (.ret _ (some err), eff) => (.ret none (some err), eff)
  | (.ret none none, eff) => (.panic, eff)
  | (.ret (some res) none, eff) =>
    let closed : Effects := { eff with response := some { res with Body := res.Body.Close } }
    match xml.Decode fields zero (xml.NewDecoder res.Body.src) with
    | .err err => (.ret none (some err), closed)
    | .ok v _ => (.ret (some v) none, closed)
    | .outOfFuel => (.panic, closed)

/-- A step that succeeds has read at least one token, and no step runs out of fuel. -/
def xml.Res.Good {α : Type} (r : xml.Res α) (d : xml.Decoder) : Prop :=
  match r with
  | .ok _ d1 => d1.src.toks.length < d.src.toks.length
  | .err _ => True
  | .outOfFuel => False

/-- `unmarshalPath` called on a start tag: it consumes the element, or leaves the
decoder as it is. -/
def xml.Res.GoodPath {σ : Type} (r : xml.Res (Bool × σ)) (d : xml.Decoder) : Prop :=
  match r with
  | .ok (true, _) d1 => d1.src.toks.length < d.src.toks.length
  | .ok (false, _) d1 => d1 = d
  | .err _ => True
  | .outOfFuel => False

/-- The final loop of `unmarshalPath`: it ends with `consumed = true`. -/
def xml.Res.GoodLoop {σ : Type} (r : xml.Res (Bool × σ)) (d : xml.Decoder) : Prop :=
  match r with
  | .ok (c, _) d1 => c = true ∧ d1.src.toks.length < d.src.toks.length
  | .err _ => True
  | .outOfFuel => False

/-- The `store` of a field never runs out of fuel and reads a token when it succeeds. -/
def StoreGood {σ : Type} (f : xml.fieldInfo σ) : Prop :=
  ∀ (fuel : Nat) (sv : σ) (d : xml.Decoder),
    2 * d.src.toks.length + 1 ≤ fuel → (f.store fuel sv d).Good d

/-- A transport for examples: it answers every request with the status `code` and a
body, not yet closed, that holds `src`. -/
def exampleTransport (code : Int) (src : xml.Source) : http.Client :=
  ⟨fun _ => .ok ⟨code, ⟨src, false⟩⟩⟩

/-- The request that a client made by `NewClient` hands to the transport in `Articles`. -/
def exampleRequest : http.Request :=
  { Method := str "GET"
    URL := { Scheme := str "http", Host := str "www.systembolaget.se",
             Path := str "/Assortment.aspx", RawQuery := str "Format=Xml" }
    Header := [(str "User-Agent", [str "systembolaget/0.2"])]
    Host := str "www.systembolaget.se" }

/-- The request that a client made by `NewClient` hands to the transport in `Stores`. -/
def exampleStoresRequest : http.Request :=
  { exampleRequest with
    URL := { Scheme := str "http", Host := str "www.systembolaget.se",
             Path := str "/Assortment.aspx", RawQuery := str "butikerombud=1" } }

/-- The directory of a path: the path up to and with its last slash, and `/` for a
path without a slash. -/
def url.dir (p : GoString) : GoString :=
  match lastIndex '/'.toNat p with
  | some i => p.take (i + 1)
  | none => str "/"

/-- The elements of a path joined by slashes again. -/
def url.joinSegments : List GoString → GoString
  | [] => []
  | [e] => e
  | e :: es => e ++ '/'.toNat :: url.joinSegments es

/-- A byte that a scheme in lower case may hold after its first letter: a letter, a
digit, `+`, `-` or `.`. -/
def url.isSchemeByte (c : Nat) : Bool :=
  ('a'.toNat ≤ c && c ≤ 'z'.toNat) || ('0'.toNat ≤ c && c ≤ '9'.toNat) ||
    c = '+'.toNat || c = '-'.toNat || c = '.'.toNat

/-- A scheme that `url.Parse` reads back as it is: a lower-case letter and then
lower-case letters, digits, `+`, `-` and `.`. -/
def url.plainScheme : GoString → Bool
  | [] => false
  | c :: rest => ('a'.toNat ≤ c && c ≤ 'z'.toNat) && rest.all url.isSchemeByte

/-- A byte of a host name: a letter, a digit, `-` or `.`. -/
def url.isHostNameByte (c : Nat) : Bool :=
  ('a'.toNat ≤ c && c ≤ 'z'.toNat) || ('A'.toNat ≤ c && c ≤ 'Z'.toNat) ||
    ('0'.toNat ≤ c && c ≤ '9'.toNat) || c = '-'.toNat || c = '.'.toNat

/-- A decimal digit. -/
def url.isDigit (c : Nat) : Bool := '0'.toNat ≤ c && c ≤ '9'.toNat

/-- A host that is a name (or an IPv4 address) of letters, digits, `-` and `.`, alone
or followed by one colon and a port of one or more digits. -/
def url.plainHost (h : GoString) : Bool :=
  (cut ':'.toNat h).1 ≠ [] && (cut ':'.toNat h).1.all url.isHostNameByte &&
    (!(cut ':'.toNat h).2.2 ||
      ((cut ':'.toNat h).2.1 ≠ [] && (cut ':'.toNat h).2.1.all url.isDigit))

/-- A query that `url.Parse` reads back as it is: not empty, of printable ASCII bytes
other than `#` and `?`. -/
def url.plainQuery (q : GoString) : Bool :=
  q ≠ [] && q.all fun c => 32 < c && c < 127 && c ≠ '#'.toNat && c ≠ '?'.toNat

/-- A base address for which resolving is plain text work: a scheme in lower case, no
user information, a host that is a name with or without a port, and a path that needs
no escaping, is empty or starts with a slash, and has no `.` and `..` elements. -/
structure url.PlainBase (B : url.URL) : Prop where
  scheme : url.plainScheme B.Scheme = true
  user : B.User = none
  host : url.plainHost B.Host = true
  rawPath : B.RawPath = []
  path : ∀ c ∈ B.Path, url.shouldEscape c .encodePath = false
  rooted : B.Path = [] ∨ B.Path.head? = some '/'.toNat
  noDots : ∀ seg ∈ url.segments B.Path, seg ≠ str "." ∧ seg ≠ str ".."

/-- A base address with a path below the root, as `url.Parse` reads
`http://example.com/api/v1`. -/
def exampleBase : url.URL :=
  { Scheme := str "http", Host := str "example.com", Path := str "/api/v1" }

/-- A client from `NewClient` whose base address the caller has set to `B`. -/
def clientAt (B : url.URL) : Client :=
  { NewClient (exampleTransport 200 xml.Source.empty) none with BaseURL := some B }

/-- A client from `NewClient` whose base address the caller has set to `exampleBase`. -/
def exampleClient : Client := clientAt exampleBase

/-- The address of a mock server, as `url.Parse` reads `http://127.0.0.1:8080/mock/v1`. -/
def mockBase : url.URL :=
  { Scheme := str "http", Host := str "127.0.0.1:8080", Path := str "/mock/v1" }

/-! ### Documents as trees

A well-formed document read as a tree of elements, each with its children in
document order. `Node.tokens` is the token sequence of a node, which is what the
decoder is given. -/

/-- A node of a document: an element with its children, character data, or one of
the other three kinds of markup. -/
inductive Node where
  | elem (name : xml.Name) (attr : List xml.Attr) (kids : List Node)
  | text (data : GoString)
  | comment (data : GoString)
  | procInst (target inst : GoString)
  | directive (data : GoString)

mutual
/-- The tokens of a node, in document order. -/
def Node.tokens : Node → List xml.Token
  | .elem name attr kids =>
    .StartElement name attr :: (tokensList kids ++ [.EndElement name])
  | .text data => [.CharData data]
  | .comment data => [.Comment data]
  | .procInst target inst => [.ProcInst target inst]
  | .directive data => [.Directive data]
/-- The tokens of a sequence of nodes. -/
def tokensList : List Node → List xml.Token
  | [] => []
  | n :: ns => n.tokens ++ tokensList ns
end

/-- Whether a node is an element with the local name `tag`. -/
def Node.isNamed (tag : GoString) : Node → Bool
  | .elem name _ _ => name.Local = tag
  | _ => false

/-- Whether a node is an element. -/
def Node.isElem : Node → Bool
  | .elem _ _ _ => true
  | _ => false

/-- The children of a node (none for a node that is no element). -/
def Node.kids : Node → List Node
  | .elem _ _ kids => kids
  | _ => []

/-- The text of an element with the children `kids`: the character data that stands
directly in it, in order, with nothing added, removed or changed. -/
def directText : List Node → GoString
  | [] => []
  | .text data :: rest => data ++ directText rest
  | _ :: rest => directText rest

/-- The text of the last child element named `tag` among `kids`, and `acc` when there
is none. -/
def textFrom (acc : GoString) (tag : GoString) : List Node → GoString
  | [] => acc
  | kid :: rest => textFrom (if kid.isNamed tag then directText kid.kids else acc) tag rest

/-- The text of the child element named `tag` (of the last one, should there be
several), and the empty string when there is none. -/
def textOf (tag : GoString) (kids : List Node) : GoString := textFrom [] tag kids

/-- A field of a struct together with `apply`, what its `store` is to do with an
element, told by the children of the element. -/
structure FieldSpec (σ : Type) where
  info : xml.fieldInfo σ
  apply : List Node → σ → σ

/-- A string field takes the text of the element. -/
def stringSpec {σ : Type} (parents : List GoString) (name : GoString)
    (set : σ → GoString → σ) : FieldSpec σ :=
  ⟨xml.stringField parents name set, fun kids sv => set sv (directText kids)⟩

/-- How the search for a field ends, as `xml.Found`, for fields with their `apply`. -/
inductive FoundSpec (σ : Type) where
  | perfect (fs : FieldSpec σ)
  | recurse (parents : List GoString)
  | nothing

/-- The search `xml.findField` on fields with their `apply`. -/
def findSpec {σ : Type} (parents : List GoString) (lcl : GoString) :
    List (FieldSpec σ) → FoundSpec σ
  | [] => .nothing
  | f :: fs =>
    if f.info.parents.length < parents.length then findSpec parents lcl fs
    else if f.info.parents.take parents.length ≠ parents then findSpec parents lcl fs
    else if f.info.parents.length = parents.length ∧ f.info.name = lcl then .perfect f
    else if f.info.parents.length > parents.length ∧
        f.info.parents.get? parents.length = some lcl then
      .recurse (f.info.parents.take (parents.length + 1))
    else findSpec parents lcl fs

/-- What a child `kid` of a parent element on the path `parents` does to the struct:
an element that is a field on that path is applied, everything else is passed over. -/
def semInner {σ : Type} (specs : List (FieldSpec σ)) (parents : List GoString) (sv : σ)
    (kid : Node) : σ :=
  match kid with
  | .elem name _ kids =>
    match findSpec parents name.Local specs with
    | .perfect fs => fs.apply kids sv
    | _ => sv
  | _ => sv

/-- What a child `kid` of the element of a struct does to the struct: an element
that is a field is applied, one that is the parent of a field hands its own children
on, everything else is passed over. -/
def semKid {σ : Type} (specs : List (FieldSpec σ)) (sv : σ) (kid : Node) : σ :=
  match kid with
  | .elem name _ kids =>
    match findSpec [] name.Local specs with
    | .perfect fs => fs.apply kids sv
    | .recurse parents => kids.foldl (semInner specs parents) sv
    | .nothing => sv
  | _ => sv

/-- The struct after the children `kids` of its element, from first to last. -/
def semStruct {σ : Type} (specs : List (FieldSpec σ)) (kids : List Node) (sv : σ) : σ :=
  kids.foldl (semKid specs) sv

/-- A slice field takes one more struct, read from the children of the element. -/
def sliceSpec {σ τ : Type} (name : GoString) (elemSpecs : List (FieldSpec τ)) (zero : τ)
    (append : σ → τ → σ) : FieldSpec σ :=
  ⟨xml.sliceField name (elemSpecs.map (·.info)) zero append,
    fun kids sv => append sv (semStruct elemSpecs kids zero)⟩

/-- The `store` of the field does, on the tokens of an element, what `apply` tells. -/
def FieldSpec.Sound {σ : Type} (fs : FieldSpec σ) : Prop :=
  ∀ (fuel : Nat) (kids : List Node) (name : xml.Name) (r : List xml.Token) (fin : GoError)
    (stk : List xml.Name) (sv : σ), (tokensList kids).length + 1 ≤ fuel →
      fs.info.store fuel sv ⟨⟨tokensList kids ++ .EndElement name :: r, fin⟩, name :: stk⟩ =
        .ok (fs.apply kids sv) ⟨⟨r, fin⟩, stk⟩

/-- A string field of a struct, read and written. -/
structure Lens (σ : Type) where
  get : σ → GoString
  set : σ → GoString → σ

/-- The fields of a struct that has string fields only, none below a parent element. -/
def lensSpecs {σ : Type} (table : List (GoString × Lens σ)) : List (FieldSpec σ) :=
  table.map fun p => stringSpec [] p.1 p.2.set

/-- The element name and the field of each `xml` tag of `Article`. -/
def articleLenses : List (GoString × Lens Article) :=
  [
    (str "nr", ⟨fun a => a.Number, fun a s => { a with Number := s }⟩),
    (str "Artikelid", ⟨fun a => a.ArticleId, fun a s => { a with ArticleId := s }⟩),
    (str "Varnummer", ⟨fun a => a.ProductNumber, fun a s => { a with ProductNumber := s }⟩),
    (str "Namn", ⟨fun a => a.Name, fun a s => { a with Name := s }⟩),
    (str "Namn2", ⟨fun a => a.SubName, fun a s => { a with SubName := s }⟩),
    (str "Prisinklmoms", ⟨fun a => a.Price, fun a s => { a with Price := s }⟩),
    (str "Volymiml", ⟨fun a => a.VolumeMl, fun a s => { a with VolumeMl := s }⟩),
    (str "PrisPerLiter", ⟨fun a => a.PricePerLitre, fun a s => { a with PricePerLitre := s }⟩),
    (str "Saljstart", ⟨fun a => a.SoldSince, fun a s => { a with SoldSince := s }⟩),
    (str "Slutlev", ⟨fun a => a.DiscontinuedSince, fun a s => { a with DiscontinuedSince := s }⟩),
    (str "Varugrupp", ⟨fun a => a.ProductGroup, fun a s => { a with ProductGroup := s }⟩),
    (str "Forpackning", ⟨fun a => a.ContainerType, fun a s => { a with ContainerType := s }⟩),
    (str "Forslutning", ⟨fun a => a.SealingType, fun a s => { a with SealingType := s }⟩),
    (str "Ursprung", ⟨fun a => a.Origin, fun a s => { a with Origin := s }⟩),
    (str "Ursprunglandnamn", ⟨fun a => a.OriginCountry, fun a s => { a with OriginCountry := s }⟩),
    (str "Producent", ⟨fun a => a.Producer, fun a s => { a with Producer := s }⟩),
    (str "Leverantor", ⟨fun a => a.Distributer, fun a s => { a with Distributer := s }⟩),
    (str "Argang", ⟨fun a => a.AnnualVolume, fun a s => { a with AnnualVolume := s }⟩),
    (str "Provadargang", ⟨fun a => a.TestAnnualValume, fun a s => { a with TestAnnualValume := s }⟩),
    (str "Alkoholhalt", ⟨fun a => a.AlcoholPrecentage, fun a s => { a with AlcoholPrecentage := s }⟩),
    (str "Sortiment", ⟨fun a => a.Assortment, fun a s => { a with Assortment := s }⟩),
    (str "Ekologisk", ⟨fun a => a.Organic, fun a s => { a with Organic := s }⟩),
    (str "Koscher", ⟨fun a => a.Kosher, fun a s => { a with Kosher := s }⟩),
    (str "RavarorBeskrivning", ⟨fun a => a.PrimaryProducts, fun a s => { a with PrimaryProducts := s }⟩) ]

/-- The element name and the field of each `xml` tag of `Store`. -/
def storeLenses : List (GoString × Lens Store) :=
  [
    (str "Nr", ⟨fun a => a.Number, fun a s => { a with Number := s }⟩),
    (str "Typ", ⟨fun a => a.Typ, fun a s => { a with Typ := s }⟩),
    (str "Address1", ⟨fun a => a.Adress1, fun a s => { a with Adress1 := s }⟩),
    (str "Address2", ⟨fun a => a.Adress2, fun a s => { a with Adress2 := s }⟩),
    (str "Address3", ⟨fun a => a.Adress3, fun a s => { a with Adress3 := s }⟩),
    (str "Address4", ⟨fun a => a.Adress4, fun a s => { a with Adress4 := s }⟩),
    (str "Address5", ⟨fun a => a.Adress5, fun a s => { a with Adress5 := s }⟩),
    (str "Telefon", ⟨fun a => a.PhoneNumber, fun a s => { a with PhoneNumber := s }⟩),
    (str "ButiksTyp", ⟨fun a => a.StoreType, fun a s => { a with StoreType := s }⟩),
    (str "Tjanster", ⟨fun a => a.Services, fun a s => { a with Services := s }⟩),
    (str "SokOrd", ⟨fun a => a.SearchWords, fun a s => { a with SearchWords := s }⟩),
    (str "Oppettider", ⟨fun a => a.OpeningHours, fun a s => { a with OpeningHours := s }⟩),
    (str "RT90x", ⟨fun a => a.RT90x, fun a s => { a with RT90x := s }⟩),
    (str "RT90y", ⟨fun a => a.RT90y, fun a s => { a with RT90y := s }⟩) ]

/-- The fields of `Articles` with what each is to do. -/
def articlesSpecs : List (FieldSpec Articles) :=
  [ stringSpec [] (str "skapad-tid") fun r s => { r with CreatedAt := s },
    stringSpec [str "info"] (str "meddelande") fun r s => { r with InfoMessage := s },
    sliceSpec (str "artikel") (lensSpecs articleLenses) {} fun r a =>
      { r with Articles := r.Articles ++ [a] } ]

/-- The fields of `Stores` with what each is to do. -/
def storesSpecs : List (FieldSpec Stores) :=
  [ stringSpec [str "Info"] (str "Meddelande") fun r s => { r with InfoMessage := s },
    sliceSpec (str "ButikOmbud") (lensSpecs storeLenses) {} fun r a =>
      { r with Stores := r.Stores ++ [a] } ]

/-- The `Article` that an `artikel` element with the children `kids` stands for: each
field is the text of the child element that its tag names, as it stands in the
document, and empty when there is no such child. -/
def articleOf (kids : List Node) : Article where
  Number := textOf (str "nr") kids
  ArticleId := textOf (str "Artikelid") kids
  ProductNumber := textOf (str "Varnummer") kids
  Name := textOf (str "Namn") kids
  SubName := textOf (str "Namn2") kids
  Price := textOf (str "Prisinklmoms") kids
  VolumeMl := textOf (str "Volymiml") kids
  PricePerLitre := textOf (str "PrisPerLiter") kids
  SoldSince := textOf (str "Saljstart") kids
  DiscontinuedSince := textOf (str "Slutlev") kids
  ProductGroup := textOf (str "Varugrupp") kids
  ContainerType := textOf (str "Forpackning") kids
  SealingType := textOf (str "Forslutning") kids
  Origin := textOf (str "Ursprung") kids
  OriginCountry := textOf (str "Ursprunglandnamn") kids
  Producer := textOf (str "Producent") kids
  Distributer := textOf (str "Leverantor") kids
  AnnualVolume := textOf (str "Argang") kids
  TestAnnualValume := textOf (str "Provadargang") kids
  AlcoholPrecentage := textOf (str "Alkoholhalt") kids
  Assortment := textOf (str "Sortiment") kids
  Organic := textOf (str "Ekologisk") kids
  Kosher := textOf (str "Koscher") kids
  PrimaryProducts := textOf (str "RavarorBeskrivning") kids

/-- The `Store` that a `ButikOmbud` element with the children `kids` stands for. -/
def storeOf (kids : List Node) : Store where
  Number := textOf (str "Nr") kids
  Typ := textOf (str "Typ") kids
  Adress1 := textOf (str "Address1") kids
  Adress2 := textOf (str "Address2") kids
  Adress3 := textOf (str "Address3") kids
  Adress4 := textOf (str "Address4") kids
  Adress5 := textOf (str "Address5") kids
  PhoneNumber := textOf (str "Telefon") kids
  StoreType := textOf (str "ButiksTyp") kids
  Services := textOf (str "Tjanster") kids
  SearchWords := textOf (str "SokOrd") kids
  OpeningHours := textOf (str "Oppettider") kids
  RT90x := textOf (str "RT90x") kids
  RT90y := textOf (str "RT90y") kids

/-- A well-formed document: markup that is no element (declaration, comments, white
space), then the root element, then whatever follows it; read to the end, or up to
an error `fin` after the root element. -/
def document (before : List Node) (root : xml.Name) (attr : List xml.Attr)
    (kids : List Node) (after : List xml.Token) (fin : GoError) : xml.Source :=
  ⟨tokensList before ++ (Node.elem root attr kids).tokens ++ after, fin⟩

/-- The decoding of one `artikel` element on its own, as a document of which it is
the root: the `Article`, or `none` when the decoding fails. -/
def decodeArticle (kid : Node) : Option Article :=
  match xml.Decode articleFields {} (xml.NewDecoder ⟨kid.tokens, .EOF⟩) with
  | .ok a _ => some a
  | _ => none

/-- The decoding of one `ButikOmbud` element on its own. -/
def decodeStore (kid : Node) : Option Store :=
  match xml.Decode storeFields {} (xml.NewDecoder ⟨kid.tokens, .EOF⟩) with
  | .ok a _ => some a
  | _ => none

/-- An element with the text `text` as its only content. -/
def leaf (name text : String) : Node :=
  .elem ⟨[], str name⟩ [] [.text (str text)]

/-- The children of the root element of the example of the specification: one
`artikel` with `Namn` and `Prisinklmoms` and without `Namn2`, between line breaks. -/
def exampleArticleKids : List Node :=
  [ .text (str "\n"),
    .elem ⟨[], str "artikel"⟩ []
      [leaf "Namn" "Absolut Vodka", leaf "Prisinklmoms" "229,00"],
    .text (str "\n") ]

/-- The example document: an XML declaration and the root element `artiklar`. -/
def exampleArticleDocument : xml.Source :=
  document [.procInst (str "xml") (str "version=\"1.0\" encoding=\"utf-8\"")]
    ⟨[], str "artiklar"⟩ [] exampleArticleKids [] .EOF

/-- A document with the same `artikel` element twice. -/
def exampleTwinsDocument : xml.Source :=
  document [] ⟨[], str "artiklar"⟩ []
    [ .elem ⟨[], str "artikel"⟩ [] [leaf "nr" "0101", leaf "Artikelid" "7"],
      .elem ⟨[], str "artikel"⟩ [] [leaf "nr" "0101", leaf "Artikelid" "7"] ] [] .EOF

/-- The body `<artiklar></artiklar><` as the lexer delivers it: the start tag and the
end tag of the root element, and then the syntax error at the `<` that nothing
follows. -/
def garbageAfterRoot : xml.Source :=
  ⟨[.StartElement ⟨[], str "artiklar"⟩ [], .EndElement ⟨[], str "artiklar"⟩],
    .SyntaxError (str "unexpected EOF")⟩

/-- Reading on from `d` up to and with the end tag that closes the innermost open
element leads to `d1`: what is read is the tokens of a sequence of nodes and then that
end tag. -/
def xml.Closed (d d1 : xml.Decoder) : Prop :=
  ∃ (kids : List Node) (name : xml.Name),
    d.src.toks = tokensList kids ++ .EndElement name :: d1.src.toks ∧
      d.stk = name :: d1.stk ∧ d1.src.fin = d.src.fin

/-- The same for the `depth + 1` innermost open elements, one after the other. -/
def xml.ClosedN : Nat → xml.Decoder → xml.Decoder → Prop
  | 0, d, d1 => xml.Closed d d1
  | depth + 1, d, d1 => ∃ dm, xml.Closed d dm ∧ xml.ClosedN depth dm d1

/-- A step that succeeds has read up to and with the end tag of the innermost open
element. -/
def xml.Res.Closes {α : Type} (r : xml.Res α) (d : xml.Decoder) : Prop :=
  match r with
  | .ok _ d1 => xml.Closed d d1
  | _ => True

/-- The `store` of a field, where it succeeds, has read the element to its end tag. -/
def StoreCloses {σ : Type} (f : xml.fieldInfo σ) : Prop :=
  ∀ (fuel : Nat) (sv : σ) (d : xml.Decoder), (f.store fuel sv d).Closes d

/-- A body that begins with a complete root element: markup that is no element, then
an element with well-nested content and its end tag; what follows is free. -/
def xml.Source.StartsWithRoot (src : xml.Source) : Prop :=
  ∃ (before : List Node) (root : xml.Name) (attr : List xml.Attr) (kids : List Node)
    (after : List xml.Token),
    (∀ n ∈ before, n.isElem = false) ∧ src = document before root attr kids after src.fin

/-- The body `not xml`: character data only, and then the end of the input. -/
def noRootBody : xml.Source := ⟨[.CharData (str "not xml")], .EOF⟩

/-- The body `<artiklar>`: the root element is opened and never closed. -/
def unclosedBody : xml.Source := ⟨[.StartElement ⟨[], str "artiklar"⟩ []], .EOF⟩

/-- The body `<artiklar></artikel>`: the end tag is not the one of the open element. -/
def mismatchedBody : xml.Source :=
  ⟨[.StartElement ⟨[], str "artiklar"⟩ [], .EndElement ⟨[], str "artikel"⟩], .EOF⟩

/-- The body `<artiklar><artikel><Namn>Absolut`, cut off inside an element: the three
start tags and the text, and then the end of the input. -/
def truncatedBody : xml.Source :=
  ⟨[.StartElement ⟨[], str "artiklar"⟩ [], .StartElement ⟨[], str "artikel"⟩ [],
    .StartElement ⟨[], str "Namn"⟩ [], .CharData (str "Absolut")], .EOF⟩

/-! ## Properties -/

section Fuel

open xml

theorem Token_length (d d1 : Decoder) (t : Token) (h : d.Token = .ok (t, d1)) :
    d1.src.toks.length + 1 = d.src.toks.length := by
  unfold Decoder.Token at h
  split at h
  · split at h <;> simp at h
  · rename_i t0 rest htoks
    rw [htoks]
    split at h
    · simp only [Except.ok.injEq, Prod.mk.injEq] at h
      rw [← h.2]
      simp
    · split at h
      · simp at h
      · split at h
        · simp at h
        · split at h
          · simp at h
          · simp only [Except.ok.injEq, Prod.mk.injEq] at h
            rw [← h.2]
            simp
    · simp only [Except.ok.injEq, Prod.mk.injEq] at h
      rw [← h.2]
      simp

theorem Good_mono {α : Type} {r : Res α} {d1 d : Decoder} (h : r.Good d1)
    (hl : d1.src.toks.length ≤ d.src.toks.length) : r.Good d := by
  cases r with
  | ok v d2 => simp only [Res.Good] at h ⊢; omega
  | err e => trivial
  | outOfFuel => exact h

theorem Skip_good (fuel : Nat) : ∀ (depth : Nat) (d : Decoder),
    2 * d.src.toks.length + 1 ≤ fuel → (Skip fuel depth d).Good d := by
  induction fuel with
  | zero => intro depth d h; omega
  | succ fuel ih =>
    intro depth d h
    unfold Skip
    cases hT : d.Token with
    | error e => simp [Res.Good]
    | ok p =>
      obtain ⟨t, d1⟩ := p
      have hl := Token_length d d1 t hT
      have key : ∀ dp, (Skip fuel dp d1).Good d :=
        fun dp => Good_mono (ih dp d1 (by omega)) (by omega)
      cases t with
      | EndElement name =>
        simp only
        split
        · simp only [Res.Good]; omega
        · exact key _
      | _ => exact key _

theorem unmarshalString_good (fuel : Nat) : ∀ (data : GoString) (d : Decoder),
    2 * d.src.toks.length + 1 ≤ fuel → (unmarshalString fuel data d).Good d := by
  induction fuel with
  | zero => intro data d h; omega
  | succ fuel ih =>
    intro data d h
    unfold unmarshalString
    cases hT : d.Token with
    | error e => simp [Res.Good]
    | ok p =>
      obtain ⟨t, d1⟩ := p
      have hl := Token_length d d1 t hT
      have key : ∀ dt (d2 : Decoder), d2.src.toks.length ≤ d1.src.toks.length →
          (unmarshalString fuel dt d2).Good d := by
        intro dt d2 h2
        exact Good_mono (ih dt d2 (by omega)) (by omega)
      cases t with
      | StartElement name attr =>
        simp only
        have hs := Skip_good fuel 0 d1 (by omega)
        revert hs
        cases Skip fuel 0 d1 with
        | ok u d2 =>
          simp only [Res.Good]
          intro hs
          exact key _ d2 (by omega)
        | err e => simp [Res.Good]
        | outOfFuel => simp [Res.Good]
      | EndElement name => simp only [Res.Good]; omega
      | _ => exact key _ d1 (le_refl _)

theorem findField_mem {σ : Type} (parents : List GoString) (lcl : GoString) :
    ∀ (fields : List (fieldInfo σ)) (f : fieldInfo σ),
      findField parents lcl fields = .perfect f → f ∈ fields := by
  intro fields
  induction fields with
  | nil => intro f h; simp [findField] at h
  | cons g gs ih =>
    intro f h
    unfold findField at h
    split at h
    · exact List.mem_cons_of_mem _ (ih f h)
    · split at h
      · exact List.mem_cons_of_mem _ (ih f h)
      · split at h
        · simp only [Found.perfect.injEq] at h
          rw [← h]
          exact List.mem_cons_self _ _
        · split at h
          · simp at h
          · exact List.mem_cons_of_mem _ (ih f h)

theorem unmarshalPath_good {σ : Type} (fields : List (fieldInfo σ))
    (hf : ∀ f ∈ fields, StoreGood f) (fuel : Nat) :
    ∀ (parents : List GoString) (start : Name) (sv : σ) (d : Decoder),
      (2 * d.src.toks.length + 1 ≤ fuel →
        (unmarshalPath fields fuel true parents start sv d).GoodLoop d) ∧
      (2 * d.src.toks.length + 2 ≤ fuel →
        (unmarshalPath fields fuel false parents start sv d).GoodPath d) := by
  induction fuel with
  | zero => intro parents start sv d; constructor <;> intro h <;> omega
  | succ fuel ih =>
    intro parents start sv d
    constructor
    · intro h
      unfold unmarshalPath
      cases hT : d.Token with
      | error e => simp [Res.GoodLoop]
      | ok p =>
        obtain ⟨t, d1⟩ := p
        have hl := Token_length d d1 t hT
        have key : ∀ (sv1 : σ) (d2 : Decoder), d2.src.toks.length ≤ d1.src.toks.length →
            (unmarshalPath fields fuel true parents start sv1 d2).GoodLoop d := by
          intro sv1 d2 h2
          have := (ih parents start sv1 d2).1 (by omega)
          revert this
          cases unmarshalPath fields fuel true parents start sv1 d2 with
          | ok v d3 => simp only [Res.GoodLoop]; intro h3; exact ⟨h3.1, by omega⟩
          | err e => simp [Res.GoodLoop]
          | outOfFuel => simp [Res.GoodLoop]
        cases t with
        | StartElement name attr =>
          simp only
          have hp := (ih parents name sv d1).2 (by omega)
          revert hp
          cases unmarshalPath fields fuel false parents name sv d1 with
          | ok v d2 =>
            obtain ⟨c, sv1⟩ := v
            cases c with
            | true =>
              simp only [Res.GoodPath]
              intro hp
              exact key sv1 d2 (by omega)
            | false =>
              simp only [Res.GoodPath]
              intro hp
              subst hp
              have hs := Skip_good fuel 0 d2 (by omega)
              revert hs
              cases Skip fuel 0 d2 with
              | ok u d3 =>
                simp only [Res.Good]
                intro hs
                exact key sv1 d3 (by omega)
              | err e => simp [Res.GoodLoop]
              | outOfFuel => simp [Res.Good]
          | err e => simp [Res.GoodLoop]
          | outOfFuel => simp [Res.GoodPath]
        | EndElement name => simp only [Res.GoodLoop]; exact ⟨trivial, by omega⟩
        | _ => exact key sv d1 (le_refl _)
    · intro h
      unfold unmarshalPath
      cases hfd : findField parents start.Local fields with
      | perfect f =>
        simp only
        have hs := hf f (findField_mem _ _ _ _ hfd) fuel sv d (by omega)
        revert hs
        cases f.store fuel sv d with
        | ok v d1 => simp only [Res.Good, Res.GoodPath]; exact id
        | err e => simp [Res.GoodPath]
        | outOfFuel => simp [Res.Good]
      | recurse parents1 =>
        simp only
        have hs := (ih parents1 start sv d).1 (by omega)
        revert hs
        cases unmarshalPath fields fuel true parents1 start sv d with
        | ok v d1 =>
          obtain ⟨c, sv1⟩ := v
          simp only [Res.GoodLoop]
          intro hs
          rw [hs.1]
          exact hs.2
        | err e => simp [Res.GoodPath]
        | outOfFuel => simp [Res.GoodLoop]
      | nothing => simp [Res.GoodPath]

theorem unmarshalStruct_good {σ : Type} (fields : List (fieldInfo σ))
    (hf : ∀ f ∈ fields, StoreGood f) (fuel : Nat) :
    ∀ (sv : σ) (d : Decoder), 2 * d.src.toks.length + 1 ≤ fuel →
      (unmarshalStruct fields fuel sv d).Good d := by
  induction fuel with
  | zero => intro sv d h; omega
  | succ fuel ih =>
    intro sv d h
    unfold unmarshalStruct
    cases hT : d.Token with
    | error e => simp [Res.Good]
    | ok p =>
      obtain ⟨t, d1⟩ := p
      have hl := Token_length d d1 t hT
      have key : ∀ (sv1 : σ) (d2 : Decoder), d2.src.toks.length ≤ d1.src.toks.length →
          (unmarshalStruct fields fuel sv1 d2).Good d :=
        fun sv1 d2 h2 => Good_mono (ih sv1 d2 (by omega)) (by omega)
      cases t with
      | StartElement name attr =>
        simp only
        have hp := (unmarshalPath_good fields hf fuel [] name sv d1).2 (by omega)
        revert hp
        cases unmarshalPath fields fuel false [] name sv d1 with
        | ok v d2 =>
          obtain ⟨c, sv1⟩ := v
          cases c with
          | true =>
            simp only [Res.GoodPath]
            intro hp
            exact key sv1 d2 (by omega)
          | false =>
            simp only [Res.GoodPath]
            intro hp
            subst hp
            have hs := Skip_good fuel 0 d2 (by omega)
            revert hs
            cases Skip fuel 0 d2 with
            | ok u d3 =>
              simp only [Res.Good]
              intro hs
              exact key sv1 d3 (by omega)
            | err e => simp [Res.Good]
            | outOfFuel => simp [Res.Good]
        | err e => simp [Res.Good]
        | outOfFuel => simp [Res.GoodPath]
      | EndElement name => simp only [Res.Good]; omega
      | _ => exact key sv d1 (le_refl _)

theorem findStart_good (fuel : Nat) : ∀ (d : Decoder),
    2 * d.src.toks.length + 1 ≤ fuel → (findStart fuel d).Good d := by
  induction fuel with
  | zero => intro d h; omega
  | succ fuel ih =>
    intro d h
    unfold findStart
    cases hT : d.Token with
    | error e => simp [Res.Good]
    | ok p =>
      obtain ⟨t, d1⟩ := p
      have hl := Token_length d d1 t hT
      cases t with
      | StartElement name attr => simp only [Res.Good]; omega
      | _ => exact Good_mono (ih d1 (by omega)) (by omega)

theorem stringField_good {σ : Type} (parents : List GoString) (name : GoString)
    (set : σ → GoString → σ) : StoreGood (stringField parents name set) := by
  intro fuel sv d h
  have hs := unmarshalString_good fuel [] d h
  revert hs
  simp only [stringField]
  cases unmarshalString fuel [] d <;> simp [Res.Good]

theorem sliceField_good {σ τ : Type} (name : GoString) (elemFields : List (fieldInfo τ))
    (zero : τ) (append : σ → τ → σ) (hf : ∀ f ∈ elemFields, StoreGood f) :
    StoreGood (sliceField name elemFields zero append) := by
  intro fuel sv d h
  have hs := unmarshalStruct_good elemFields hf fuel zero d h
  revert hs
  simp only [sliceField]
  cases unmarshalStruct elemFields fuel zero d <;> simp [Res.Good]

/-- The fuel `Decode` starts with is never used up. -/
theorem Decode_total {σ : Type} (fields : List (fieldInfo σ))
    (hf : ∀ f ∈ fields, StoreGood f) (sv : σ) (d : Decoder) :
    Decode fields sv d ≠ .outOfFuel := by
  unfold Decode
  have hs := findStart_good (2 * d.src.toks.length + 1) d (le_refl _)
  revert hs
  cases findStart (2 * d.src.toks.length + 1) d with
  | ok name d1 =>
    simp only [Res.Good]
    intro hs
    have hu := unmarshalStruct_good fields hf (2 * d.src.toks.length + 1) sv d1 (by omega)
    revert hu
    cases unmarshalStruct fields (2 * d.src.toks.length + 1) sv d1 <;> simp [Res.Good]
  | err e => simp
  | outOfFuel => simp [Res.Good]

theorem articleFields_good : ∀ f ∈ articleFields, StoreGood f := by
  intro f hf
  simp only [articleFields, List.mem_cons, List.mem_singleton, List.not_mem_nil, or_false] at hf
  rcases hf with h | h | h | h | h | h | h | h | h | h | h | h | h | h | h | h | h | h | h | h |
    h | h | h | h <;> subst h <;> exact stringField_good _ _ _

theorem storeFields_good : ∀ f ∈ storeFields, StoreGood f := by
  intro f hf
  simp only [storeFields, List.mem_cons, List.mem_singleton, List.not_mem_nil, or_false] at hf
  rcases hf with h | h | h | h | h | h | h | h | h | h | h | h | h | h <;> subst h <;>
    exact stringField_good _ _ _

theorem articlesFields_good : ∀ f ∈ articlesFields, StoreGood f := by
  intro f hf
  simp only [articlesFields, List.mem_cons, List.mem_singleton, List.not_mem_nil, or_false] at hf
  rcases hf with h | h | h <;> subst h
  · exact stringField_good _ _ _
  · exact stringField_good _ _ _
  · exact sliceField_good _ _ _ _ articleFields_good

theorem storesFields_good : ∀ f ∈ storesFields, StoreGood f := by
  intro f hf
  simp only [storesFields, List.mem_cons, List.mem_singleton, List.not_mem_nil, or_false] at hf
  rcases hf with h | h <;> subst h
  · exact stringField_good _ _ _
  · exact sliceField_good _ _ _ _ storeFields_good

end Fuel

section Construction

/-- C10: `NewClient` keeps a transport it is given and takes `http.DefaultClient` when
given none; whatever it is given, the base address is the parsed literal
`http://www.systembolaget.se/` (non-nil, scheme `http`, host `www.systembolaget.se`,
path `/`, nothing else set) and the user agent is `systembolaget/0.2`. -/
theorem NewClient_fields (DefaultClient : http.Client) :
    (∀ h : http.Client, (NewClient DefaultClient (some h)).httpClient = some h) ∧
    (NewClient DefaultClient none).httpClient = some DefaultClient ∧
    (∀ h : Option http.Client,
      (NewClient DefaultClient h).BaseURL =
          some { Scheme := str "http", Host := str "www.systembolaget.se", Path := str "/" } ∧
        (NewClient DefaultClient h).UserAgent = str "systembolaget/0.2") ∧
    url.Parse (str "http://www.systembolaget.se/") =
      .ok { Scheme := str "http", Host := str "www.systembolaget.se", Path := str "/" } := by
  have hparse : url.Parse (str "http://www.systembolaget.se/") =
      .ok { Scheme := str "http", Host := str "www.systembolaget.se", Path := str "/" } := by
    rfl
  refine ⟨fun h => rfl, rfl, fun h => ⟨?_, ?_⟩, hparse⟩
  · show (url.Parse baseURL).toOption = _
    rw [show baseURL = str "http://www.systembolaget.se/" from rfl, hparse]
    rfl
  · rfl

end Construction

section Itoa

open strconv

theorem digitsAux_foldl (fuel : Nat) : ∀ (n : Nat) (acc : GoString), n < fuel →
    (digitsAux fuel n acc).foldl (fun a c => a * 10 + (c - 48)) 0 =
      acc.foldl (fun a c => a * 10 + (c - 48)) n := by
  induction fuel with
  | zero => intro n acc h; omega
  | succ fuel ih =>
    intro n acc h
    unfold digitsAux
    have h0 : '0'.toNat = 48 := rfl
    by_cases hn : n < 10
    · simp [hn, h0]
    · simp only [hn, if_false, h0]
      rw [ih (n / 10) _ (by omega)]
      simp only [List.foldl_cons]
      congr 1
      omega

theorem digitsAux_head (fuel : Nat) : ∀ (n : Nat) (acc : GoString), n < fuel →
    ∃ d rest, digitsAux fuel n acc = d :: rest ∧ 48 ≤ d := by
  induction fuel with
  | zero => intro n acc h; omega
  | succ fuel ih =>
    intro n acc h
    unfold digitsAux
    have h0 : '0'.toNat = 48 := rfl
    by_cases hn : n < 10
    · refine ⟨48 + n, acc, ?_, by omega⟩
      simp only [hn, if_true, h0]
    · simp only [hn, if_false]
      exact ih (n / 10) _ (by omega)

/-- The text `formatNat` gives determines the number. -/
theorem formatNat_injective (n m : Nat) (h : formatNat n = formatNat m) : n = m := by
  have hn := digitsAux_foldl (n + 1) n [] (by omega)
  have hm := digitsAux_foldl (m + 1) m [] (by omega)
  unfold formatNat at h
  rw [h, hm] at hn
  simpa using hn.symm

/-- The text `Itoa` gives determines the integer. -/
theorem Itoa_injective (i j : Int) (h : Itoa i = Itoa j) : i = j := by
  have hm : '-'.toNat = 45 := rfl
  obtain ⟨d, r, hd, hd48⟩ := digitsAux_head (i.natAbs + 1) i.natAbs [] (by omega)
  obtain ⟨e, q, he, he48⟩ := digitsAux_head (j.natAbs + 1) j.natAbs [] (by omega)
  unfold Itoa at h
  by_cases hi : i < 0 <;> by_cases hj : j < 0 <;> simp only [hi, hj, if_true, if_false] at h
  · have := formatNat_injective _ _ (List.cons.inj h).2
    omega
  · unfold formatNat at h
    rw [he, hm] at h
    have := (List.cons.inj h).1
    omega
  · unfold formatNat at h
    rw [hd, hm] at h
    have := (List.cons.inj h).1
    omega
  · have := formatNat_injective _ _ h
    omega

end Itoa

section Get

theorem Articles_eq_fetch (c : Client) :
    c.Articles = c.fetch (str "Assortment.aspx?Format=Xml") articlesFields {} := by
  unfold Client.Articles Client.fetch
  rcases c.get (str "Assortment.aspx?Format=Xml") with ⟨out, eff⟩
  rcases out with ⟨_ | res, _ | err⟩ | _ <;> try rfl
  simp only
  cases xml.Decode articlesFields {} (xml.NewDecoder res.Body.src) <;> rfl

theorem Stores_eq_fetch (c : Client) :
    c.Stores = c.fetch (str "Assortment.aspx?butikerombud=1") storesFields {} := by
  unfold Client.Stores Client.fetch
  rcases c.get (str "Assortment.aspx?butikerombud=1") with ⟨out, eff⟩
  rcases out with ⟨_ | res, _ | err⟩ | _ <;> try rfl
  simp only
  cases xml.Decode storesFields {} (xml.NewDecoder res.Body.src) <;> rfl

/-- What `get` does once it has handed the request `req` to the transport: the
request is the one `NewRequest` built for the resolved URL, with the `User-Agent`
header set, and the results follow from what the transport gives. -/
theorem get_reached (c : Client) (endp : GoString) (req : http.Request)
    (hs : (c.get endp).2.sent = some req) :
    ∃ h r0 ref u, c.httpClient = some h ∧ url.Parse endp = .ok ref ∧ c.resolve ref = some u ∧
      http.NewRequest (str "GET") u.String = .ok r0 ∧
      req = { r0 with Header := r0.Header.Set (str "User-Agent") c.UserAgent } ∧
      c.get endp =
        match h.Do req with
        | .error err => (.ret none (some err), { sent := some req })
        | .ok resp => Client.check req resp := by
  unfold Client.get at hs ⊢
  cases hp : url.Parse endp with
  | error e => simp [hp] at hs
  | ok ref =>
    simp only [hp] at hs ⊢
    cases hr : c.resolve ref with
    | none => simp [hr] at hs
    | some u =>
      simp only [hr] at hs ⊢
      cases hn : http.NewRequest (str "GET") u.String with
      | error e => simp [hn] at hs
      | ok r0 =>
        simp only [hn] at hs ⊢
        cases hh : c.httpClient with
        | none => simp [hh] at hs
        | some h =>
          simp only [hh] at hs ⊢
          have hreq : req = { r0 with Header := r0.Header.Set (str "User-Agent") c.UserAgent } := by
            cases hd : h.Do { r0 with Header := r0.Header.Set (str "User-Agent") c.UserAgent } with
            | error e => simpa [hd] using hs.symm
            | ok resp =>
              simp only [hd, Client.check] at hs
              split at hs <;> simpa using hs.symm
          subst hreq
          exact ⟨h, r0, ref, u, rfl, rfl, hr, hn, rfl, rfl⟩

/-- C1: when the transport answers the request of `get` with a response and no error,
`get` returns that response with a nil error exactly when its status code is 200 or
304, and for every other status code it returns a nil response with a non-nil error. -/
theorem get_accepts_200_304 (c : Client) (endp : GoString) (h : http.Client)
    (req : http.Request) (resp : http.Response)
    (hc : c.httpClient = some h) (hs : (c.get endp).2.sent = some req)
    (hd : h.Do req = .ok resp) :
    ((c.get endp).1 = .ret (some resp) none ↔
        (resp.StatusCode = 200 ∨ resp.StatusCode = 304)) ∧
      (¬ (resp.StatusCode = 200 ∨ resp.StatusCode = 304) →
        ∃ e, (c.get endp).1 = .ret none (some e)) := by
  obtain ⟨h', r0, ref, u, hh, -, -, -, -, hget⟩ := get_reached c endp req hs
  rw [hc] at hh
  cases hh
  rw [hget, hd]
  simp only [Client.check, http.StatusOK, http.StatusNotModified]
  by_cases h1 : resp.StatusCode = 200
  · simp [h1]
  · by_cases h2 : resp.StatusCode = 304
    · simp [h2]
    · simp [h1, h2]

/-- C1, at a client made by `NewClient` whose transport answers 304. -/
theorem get_accepts_200_304_witness :
    ((NewClient (exampleTransport 304 xml.Source.empty) none).get
          (str "Assortment.aspx?Format=Xml")).1 =
        .ret (some ⟨304, ⟨xml.Source.empty, false⟩⟩) none ↔
      ((304 : Int) = 200 ∨ (304 : Int) = 304) :=
  (get_accepts_200_304 (NewClient (exampleTransport 304 xml.Source.empty) none)
    (str "Assortment.aspx?Format=Xml") (exampleTransport 304 xml.Source.empty)
    exampleRequest ⟨304, ⟨xml.Source.empty, false⟩⟩ rfl (by decide!) rfl).1

theorem NewRequest_ok (method u : GoString) (r : http.Request)
    (h : http.NewRequest method u = .ok r) :
    r.Method = (if method = [] then str "GET" else method) ∧ r.Header = [] := by
  unfold http.NewRequest at h
  simp only at h
  cases hv : http.validMethod (if method = [] then str "GET" else method) with
  | false => simp [hv] at h
  | true =>
    cases hp : url.Parse u with
    | error e => simp [hv, hp] at h
    | ok v =>
      simp only [hv, hp, Bool.not_true, Bool.false_eq_true, if_false, Except.ok.injEq] at h
      subst h
      exact ⟨rfl, rfl⟩

/-- C6: the request that `get` hands to the transport has the method `GET` and as its
whole header the one key `User-Agent` with the one value `c.UserAgent`, the field as it
is at the call; a client from `NewClient` has `systembolaget/0.2` there: the library
name, a slash, and `libraryVersion`. -/
theorem get_request_user_agent (c : Client) (endp : GoString) (req : http.Request)
    (hs : (c.get endp).2.sent = some req) :
    req.Method = str "GET" ∧
      req.Header = [(str "User-Agent", [c.UserAgent])] ∧
      (∀ (DefaultClient : http.Client) (h : Option http.Client),
        (NewClient DefaultClient h).UserAgent = str "systembolaget/0.2") ∧
      userAgent = str "systembolaget" ++ str "/" ++ libraryVersion ∧
      libraryVersion = str "0.2" := by
  obtain ⟨h, r0, ref, u, -, -, -, hn, hreq, -⟩ := get_reached c endp req hs
  obtain ⟨hm, hh⟩ := NewRequest_ok _ _ _ hn
  subst hreq
  refine ⟨?_, ?_, fun _ _ => rfl, rfl, rfl⟩
  · rw [hm]; rfl
  · simp only [hh]
    rfl

/-- C6, at a client whose `UserAgent` the caller has overridden: the request that
reaches the transport carries the new value. -/
theorem get_request_user_agent_witness :
    (({ NewClient (exampleTransport 200 xml.Source.empty) none with
          UserAgent := str "probe/1" } : Client).get (str "Assortment.aspx?Format=Xml")).2.sent =
        some { exampleRequest with Header := [(str "User-Agent", [str "probe/1"])] } ∧
      ({ exampleRequest with Header := [(str "User-Agent", [str "probe/1"])] } :
          http.Request).Method = str "GET" ∧
      ({ exampleRequest with Header := [(str "User-Agent", [str "probe/1"])] } :
          http.Request).Header = [(str "User-Agent", [str "probe/1"])] :=
  ⟨by decide!,
    (get_request_user_agent
      { NewClient (exampleTransport 200 xml.Source.empty) none with UserAgent := str "probe/1" }
      (str "Assortment.aspx?Format=Xml")
      { exampleRequest with Header := [(str "User-Agent", [str "probe/1"])] }
      (by decide!)).1,
    (get_request_user_agent
      { NewClient (exampleTransport 200 xml.Source.empty) none with UserAgent := str "probe/1" }
      (str "Assortment.aspx?Format=Xml")
      { exampleRequest with Header := [(str "User-Agent", [str "probe/1"])] }
      (by decide!)).2.1⟩

/-- What `Articles` and `Stores` do once `get` has handed `req` to the transport and
the transport has answered with `resp`: a refused status is returned as the error of
`get` and `resp` is left as it came; an accepted one is decoded, and the body is
closed whatever the decoding gives. -/
theorem fetch_reached {σ : Type} (c : Client) (ref : GoString)
    (fields : List (xml.fieldInfo σ)) (zero : σ) (h : http.Client) (req : http.Request)
    (resp : http.Response) (hc : c.httpClient = some h)
    (hs : (c.get ref).2.sent = some req) (hd : h.Do req = .ok resp) :
    c.fetch ref fields zero =
      if resp.StatusCode ≠ 200 ∧ resp.StatusCode ≠ 304 then
        (.ret none
            (some (.errorString
              (str "api error, response code: " ++ strconv.Itoa resp.StatusCode))),
          { sent := some req, response := some resp })
      else
        match xml.Decode fields zero (xml.NewDecoder resp.Body.src) with
        | .err err =>
          (.ret none (some err),
            { sent := some req, response := some { resp with Body := resp.Body.Close } })
        | .ok v _ =>
          (.ret (some v) none,
            { sent := some req, response := some { resp with Body := resp.Body.Close } })
        | .outOfFuel =>
          (.panic, { sent := some req, response := some { resp with Body := resp.Body.Close } }) := by
  obtain ⟨h', r0, ref', u, hh, -, -, -, -, hget⟩ := get_reached c ref req hs
  rw [hc] at hh
  cases hh
  rw [hd] at hget
  unfold Client.fetch
  rw [hget]
  by_cases hst : resp.StatusCode ≠ 200 ∧ resp.StatusCode ≠ 304
  · have hst' : resp.StatusCode ≠ http.StatusOK ∧ resp.StatusCode ≠ http.StatusNotModified :=
      hst
    rw [if_pos hst]
    simp only [Client.check, if_pos hst']
  · have hst' : ¬ (resp.StatusCode ≠ http.StatusOK ∧
        resp.StatusCode ≠ http.StatusNotModified) := hst
    rw [if_neg hst]
    simp only [Client.check]
    rw [if_neg hst']

/-- C4: a refused status code `n` comes back as the error whose text is
`api error, response code: ` followed by `Itoa n`, from `get` and so from `Articles`
and `Stores`, which return no record with it; the text determines `n`, so two refused
codes never give the same text; and for 404 the text is
`api error, response code: 404`. -/
theorem api_error_carries_code (c : Client) (endp : GoString) (h : http.Client)
    (req : http.Request) (resp : http.Response)
    (hc : c.httpClient = some h) (hs : (c.get endp).2.sent = some req)
    (hd : h.Do req = .ok resp)
    (hn : resp.StatusCode ≠ 200 ∧ resp.StatusCode ≠ 304) :
    (c.get endp).1 =
        .ret none (some (.errorString
          (str "api error, response code: " ++ strconv.Itoa resp.StatusCode))) ∧
      (endp = str "Assortment.aspx?Format=Xml" →
        (c.Articles).1 =
          .ret none (some (.errorString
            (str "api error, response code: " ++ strconv.Itoa resp.StatusCode)))) ∧
      (endp = str "Assortment.aspx?butikerombud=1" →
        (c.Stores).1 =
          .ret none (some (.errorString
            (str "api error, response code: " ++ strconv.Itoa resp.StatusCode)))) ∧
      (∀ m : Int,
        str "api error, response code: " ++ strconv.Itoa m =
            str "api error, response code: " ++ strconv.Itoa resp.StatusCode →
          m = resp.StatusCode) ∧
      str "api error, response code: " ++ strconv.Itoa 404 =
        str "api error, response code: 404" := by
  refine ⟨?_, ?_, ?_, ?_, by decide⟩
  · obtain ⟨h', r0, ref, u, hh, -, -, -, -, hget⟩ := get_reached c endp req hs
    rw [hc] at hh
    cases hh
    rw [hget, hd]
    simp only [Client.check, http.StatusOK, http.StatusNotModified, hn, ne_eq,
      not_false_eq_true, and_self, if_true]
  · intro he
    subst he
    rw [Articles_eq_fetch, fetch_reached c _ articlesFields {} h req resp hc hs hd]
    simp only [hn, ne_eq, not_false_eq_true, and_self, if_true]
  · intro he
    subst he
    rw [Stores_eq_fetch, fetch_reached c _ storesFields {} h req resp hc hs hd]
    simp only [hn, ne_eq, not_false_eq_true, and_self, if_true]
  · intro m hm
    exact Itoa_injective _ _ (List.append_cancel_left hm)

/-- C4, at a client made by `NewClient` whose transport answers 404 to `Articles`. -/
theorem api_error_carries_code_witness :
    ((NewClient (exampleTransport 404 xml.Source.empty) none).Articles).1 =
      .ret none (some (.errorString (str "api error, response code: 404"))) :=
  (api_error_carries_code (NewClient (exampleTransport 404 xml.Source.empty) none)
    (str "Assortment.aspx?Format=Xml") (exampleTransport 404 xml.Source.empty)
    exampleRequest ⟨404, ⟨xml.Source.empty, false⟩⟩ rfl (by decide!) rfl
    (by decide)).2.1 rfl

/-- With a transport and a base address in place `get` returns, and returns exactly
one of a response and an error. -/
theorem get_returns (c : Client) (endp : GoString) (h : http.Client) (B : url.URL)
    (hc : c.httpClient = some h) (hb : c.BaseURL = some B) :
    (∃ res, (c.get endp).1 = .ret (some res) none) ∨
      (∃ e, (c.get endp).1 = .ret none (some e)) := by
  unfold Client.get
  cases hp : url.Parse endp with
  | error e => exact Or.inr ⟨e, rfl⟩
  | ok ref =>
    simp only [Client.resolve, hb, hc]
    cases hn : http.NewRequest (str "GET") (B.ResolveReference ref).String with
    | error e => exact Or.inr ⟨e, rfl⟩
    | ok r0 =>
      simp only
      cases hd : h.Do { r0 with Header := r0.Header.Set (str "User-Agent") c.UserAgent } with
      | error e => exact Or.inr ⟨e, rfl⟩
      | ok resp =>
        simp only [Client.check]
        split
        · exact Or.inr ⟨_, rfl⟩
        · exact Or.inl ⟨_, rfl⟩

/-- `Articles` and `Stores`, for any record: a record comes back exactly when `get`
gave a response and the decoding of its body gave the record, and an error comes
back in every other case. -/
theorem fetch_record_xor_error {σ : Type} (c : Client) (ref : GoString)
    (fields : List (xml.fieldInfo σ)) (hf : ∀ f ∈ fields, StoreGood f) (zero : σ)
    (h : http.Client) (B : url.URL)
    (hc : c.httpClient = some h) (hb : c.BaseURL = some B) :
    ((∃ v, (c.fetch ref fields zero).1 = .ret (some v) none) ∨
        (∃ e, (c.fetch ref fields zero).1 = .ret none (some e))) ∧
      (∀ v, (c.fetch ref fields zero).1 = .ret (some v) none ↔
        ∃ res d, (c.get ref).1 = .ret (some res) none ∧
          xml.Decode fields zero (xml.NewDecoder res.Body.src) = .ok v d) ∧
      (∀ res e, (c.get ref).1 = .ret (some res) none →
        xml.Decode fields zero (xml.NewDecoder res.Body.src) = .err e →
          (c.fetch ref fields zero).1 = .ret none (some e)) := by
  have hget := get_returns c ref h B hc hb
  unfold Client.fetch
  rcases hg : c.get ref with ⟨out, eff⟩
  rw [hg] at hget
  simp only at hget
  rcases hget with ⟨res, hres⟩ | ⟨e, he⟩
  · subst hres
    simp only
    have ht := Decode_total fields hf zero (xml.NewDecoder res.Body.src)
    cases hd : xml.Decode fields zero (xml.NewDecoder res.Body.src) with
    | ok v d =>
      refine ⟨Or.inl ⟨v, rfl⟩, fun w => ⟨fun hw => ?_, fun hw => ?_⟩, fun res' e' hr hd' => ?_⟩
      · simp only [Outcome.ret.injEq, Option.some.injEq, and_true] at hw
        subst hw
        exact ⟨res, d, rfl, hd⟩
      · obtain ⟨res', d', hr, hd'⟩ := hw
        simp only [Outcome.ret.injEq, Option.some.injEq, and_true] at hr
        subst hr
        rw [hd] at hd'
        simp only [xml.Res.ok.injEq] at hd'
        rw [hd'.1]
      · simp only [Outcome.ret.injEq, Option.some.injEq, and_true] at hr
        subst hr
        rw [hd] at hd'
        simp at hd'
    | err e =>
      refine ⟨Or.inr ⟨e, rfl⟩, fun w => ⟨fun hw => ?_, fun hw => ?_⟩, fun res' e' hr hd' => ?_⟩
      · simp at hw
      · obtain ⟨res', d', hr, hd'⟩ := hw
        simp only [Outcome.ret.injEq, Option.some.injEq, and_true] at hr
        subst hr
        rw [hd] at hd'
        simp at hd'
      · simp only [Outcome.ret.injEq, Option.some.injEq, and_true] at hr
        subst hr
        rw [hd] at hd'
        simp only [xml.Res.err.injEq] at hd'
        rw [hd']
    | outOfFuel => exact absurd hd ht
  · subst he
    simp only
    refine ⟨Or.inr ⟨e, rfl⟩, fun w => ⟨fun hw => ?_, fun hw => ?_⟩, fun res' e' hr hd' => ?_⟩
    · simp at hw
    · obtain ⟨res', d', hr, -⟩ := hw
      simp at hr
    · simp at hr

end Get

section Body

/-- C3, the path the code misses: when the transport answers 404, `Articles` and
`Stores` return with the response body still open: `get` drops the response at the
status check without closing it, and the deferred `Close` of `Articles` is never
reached. -/
theorem status_failure_leaves_body_open :
    ((NewClient (exampleTransport 404 xml.Source.empty) none).Articles).2.response =
        some ⟨404, ⟨xml.Source.empty, false⟩⟩ ∧
      ((NewClient (exampleTransport 404 xml.Source.empty) none).Stores).2.response =
        some ⟨404, ⟨xml.Source.empty, false⟩⟩ := by
  constructor <;> decide!

theorem fetch_accepted_closes {σ : Type} (c : Client) (ref : GoString)
    (fields : List (xml.fieldInfo σ)) (zero : σ) (h : http.Client) (req : http.Request)
    (resp : http.Response) (hc : c.httpClient = some h)
    (hs : (c.get ref).2.sent = some req) (hd : h.Do req = .ok resp)
    (hst : resp.StatusCode = 200 ∨ resp.StatusCode = 304) :
    (c.fetch ref fields zero).2.response = some { resp with Body := resp.Body.Close } := by
  rw [fetch_reached c ref fields zero h req resp hc hs hd]
  have : ¬ (resp.StatusCode ≠ 200 ∧ resp.StatusCode ≠ 304) := by
    rcases hst with h1 | h1 <;> simp [h1]
  rw [if_neg this]
  cases xml.Decode fields zero (xml.NewDecoder resp.Body.src) <;> rfl

/-- On the two paths that pass the status check, success and decode failure, the body
of the response is closed when `Articles` or `Stores` returns. -/
theorem accepted_body_closed (c : Client) (h : http.Client) (req : http.Request)
    (resp : http.Response) (hc : c.httpClient = some h) (hd : h.Do req = .ok resp)
    (hst : resp.StatusCode = 200 ∨ resp.StatusCode = 304) :
    ((c.get (str "Assortment.aspx?Format=Xml")).2.sent = some req →
        (c.Articles).2.response = some { resp with Body := resp.Body.Close } ∧
          (resp.Body.Close).closed = true) ∧
      ((c.get (str "Assortment.aspx?butikerombud=1")).2.sent = some req →
        (c.Stores).2.response = some { resp with Body := resp.Body.Close } ∧
          (resp.Body.Close).closed = true) := by
  constructor
  · intro hs
    rw [Articles_eq_fetch]
    exact ⟨fetch_accepted_closes c _ _ _ h req resp hc hs hd hst, rfl⟩
  · intro hs
    rw [Stores_eq_fetch]
    exact ⟨fetch_accepted_closes c _ _ _ h req resp hc hs hd hst, rfl⟩

/-- The body is closed after a failed decoding: a 200 answer whose body is no XML. -/
theorem accepted_body_closed_witness :
    ((NewClient (exampleTransport 200 ⟨[.CharData (str "not xml")], .EOF⟩) none).Articles).2.response =
      some ⟨200, ⟨⟨[.CharData (str "not xml")], .EOF⟩, true⟩⟩ :=
  ((accepted_body_closed (NewClient (exampleTransport 200 ⟨[.CharData (str "not xml")], .EOF⟩) none)
    (exampleTransport 200 ⟨[.CharData (str "not xml")], .EOF⟩) exampleRequest
    ⟨200, ⟨⟨[.CharData (str "not xml")], .EOF⟩, false⟩⟩ rfl rfl (Or.inl rfl)).1 (by decide!)).1

end Body

section NotModified

/-- C9 as stated fails: a 304 answer with a body of no bytes makes `Articles` return
no record and the error `io.EOF`, not an empty record with a nil error. -/
theorem not_modified_empty_body_is_error :
    ((NewClient (exampleTransport 304 xml.Source.empty) none).Articles).1 =
        .ret none (some .EOF) ∧
      ¬ ∃ r, ((NewClient (exampleTransport 304 xml.Source.empty) none).Articles).1 =
        .ret (some r) none := by
  have hA : ((NewClient (exampleTransport 304 xml.Source.empty) none).Articles).1 =
      .ret none (some .EOF) := by
    rw [Articles_eq_fetch, fetch_reached _ _ articlesFields {} (exampleTransport 304 xml.Source.empty)
      exampleRequest ⟨304, ⟨xml.Source.empty, false⟩⟩ rfl (by decide!) rfl]
    rfl
  refine ⟨hA, ?_⟩
  rintro ⟨r, hr⟩
  rw [hA] at hr
  simp at hr

/-- C9, amended: when the transport answers the request of `Articles` (of `Stores`)
with status 304 and a body of no bytes, the call returns a nil record and the error
`io.EOF` of the decoder, which finds no element to decode; the body is closed. -/
theorem not_modified_empty_body (c : Client) (h : http.Client) (req : http.Request)
    (resp : http.Response) (hc : c.httpClient = some h) (hd : h.Do req = .ok resp)
    (hst : resp.StatusCode = 304) (hbody : resp.Body.src = xml.Source.empty) :
    ((c.get (str "Assortment.aspx?Format=Xml")).2.sent = some req →
        c.Articles = (.ret none (some .EOF),
          { sent := some req, response := some { resp with Body := resp.Body.Close } })) ∧
      ((c.get (str "Assortment.aspx?butikerombud=1")).2.sent = some req →
        c.Stores = (.ret none (some .EOF),
          { sent := some req, response := some { resp with Body := resp.Body.Close } })) := by
  have hn : ¬ (resp.StatusCode ≠ 200 ∧ resp.StatusCode ≠ 304) := by simp [hst]
  constructor
  · intro hs
    rw [Articles_eq_fetch, fetch_reached c _ articlesFields {} h req resp hc hs hd, if_neg hn, hbody]
    rfl
  · intro hs
    rw [Stores_eq_fetch, fetch_reached c _ storesFields {} h req resp hc hs hd, if_neg hn, hbody]
    rfl

/-- C9 amended, at a client made by `NewClient` calling `Stores`. -/
theorem not_modified_empty_body_witness :
    (NewClient (exampleTransport 304 xml.Source.empty) none).Stores =
      (.ret none (some .EOF),
        { sent := some exampleStoresRequest,
          response := some ⟨304, ⟨xml.Source.empty, true⟩⟩ }) :=
  (not_modified_empty_body (NewClient (exampleTransport 304 xml.Source.empty) none)
    (exampleTransport 304 xml.Source.empty) exampleStoresRequest
    ⟨304, ⟨xml.Source.empty, false⟩⟩ rfl rfl rfl rfl).2 (by decide!)

end NotModified

section Resolve

open url

theorem escape_plain (mode : encoding) : ∀ (s : GoString),
    (∀ c ∈ s, shouldEscape c mode = false) → escape s mode = s := by
  intro s
  induction s with
  | nil => intro _; rfl
  | cons c s ih =>
    intro h
    have hc := h c (List.mem_cons_self _ _)
    have hs := ih (fun x hx => h x (List.mem_cons_of_mem _ hx))
    unfold escape at hs ⊢
    simp only [List.flatMap_cons, hc, Bool.false_eq_true, if_false, hs, List.singleton_append]

theorem unescapeCheck_plain : ∀ (s : GoString),
    (∀ c ∈ s, shouldEscape c .encodePath = false) → unescapeCheck .encodePath s = none := by
  intro s
  induction s with
  | nil => intro _; rfl
  | cons c s ih =>
    intro h
    have hc := h c (List.mem_cons_self _ _)
    have hs := ih (fun x hx => h x (List.mem_cons_of_mem _ hx))
    have hne : c ≠ '%'.toNat := by
      intro he
      rw [he] at hc
      exact absurd hc (by decide)
    unfold unescapeCheck
    simp only [hne, if_false, hs]
    split
    · rfl
    · simp

theorem unescapeWrite_plain : ∀ (s : GoString),
    (∀ c ∈ s, shouldEscape c .encodePath = false) → unescapeWrite .encodePath s = s := by
  intro s
  induction s with
  | nil => intro _; rfl
  | cons c s ih =>
    intro h
    have hc := h c (List.mem_cons_self _ _)
    have hs := ih (fun x hx => h x (List.mem_cons_of_mem _ hx))
    have hne : c ≠ '%'.toNat := by
      intro he
      rw [he] at hc
      exact absurd hc (by decide)
    unfold unescapeWrite
    simp only [hne, if_false, hs]
    split
    · rename_i hp
      simp [hp]
    · rfl

theorem unescape_plain (s : GoString) (h : ∀ c ∈ s, shouldEscape c .encodePath = false) :
    unescape s .encodePath = .ok s := by
  unfold unescape
  rw [unescapeCheck_plain s h, unescapeWrite_plain s h]

theorem setPath_plain (u : URL) (p : GoString)
    (h : ∀ c ∈ p, shouldEscape c .encodePath = false) :
    u.setPath p = .ok { u with Path := p, RawPath := [] } := by
  unfold URL.setPath
  rw [unescape_plain p h]
  simp only [escape_plain _ p h, if_true]

theorem EscapedPath_plain (u : URL) (hr : u.RawPath = [])
    (h : ∀ c ∈ u.Path, shouldEscape c .encodePath = false) : u.EscapedPath = u.Path := by
  unfold URL.EscapedPath
  have hstar : u.Path ≠ str "*" := by
    intro he
    have := h '*'.toNat (by rw [he]; decide)
    exact absurd this (by decide)
  simp only [hr, ne_eq, not_true_eq_false, false_and, if_false, hstar, escape_plain _ _ h]

theorem segments_ne_nil : ∀ (s : GoString), segments s ≠ [] := by
  intro s
  cases s with
  | nil => simp [segments]
  | cons c s =>
    unfold segments
    split
    · simp
    · split <;> simp

theorem segments_cons_slash (s : GoString) :
    segments ('/'.toNat :: s) = [] :: segments s := by
  rw [segments, if_pos rfl]

theorem segments_cons_other (c : Nat) (s seg : GoString) (segs : List GoString)
    (hc : c ≠ '/'.toNat) (hs : segments s = seg :: segs) :
    segments (c :: s) = (c :: seg) :: segs := by
  rw [segments, if_neg hc, hs]

theorem segments_append_slash (x y : GoString) :
    segments (x ++ '/'.toNat :: y) = segments x ++ segments y := by
  induction x with
  | nil => rw [List.nil_append, segments_cons_slash]; rfl
  | cons c x ih =>
    rw [List.cons_append]
    by_cases hc : c = '/'.toNat
    · rw [hc, segments_cons_slash, segments_cons_slash, ih]
      rfl
    · cases hx : segments x with
      | nil => exact absurd hx (segments_ne_nil x)
      | cons seg segs =>
        rw [segments_cons_other c x seg segs hc hx,
          segments_cons_other c _ seg (segs ++ segments y) hc (by rw [ih, hx]; rfl)]
        rfl

theorem segments_noSlash (r : GoString) (h : '/'.toNat ∉ r) : segments r = [r] := by
  induction r with
  | nil => rfl
  | cons c r ih =>
    have hc : c ≠ '/'.toNat := fun he => h (by rw [he]; exact List.mem_cons_self _ _)
    have hr : '/'.toNat ∉ r := fun hm => h (List.mem_cons_of_mem _ hm)
    exact segments_cons_other c r r [] hc (ih hr)

theorem joinSegments_segments (s : GoString) : joinSegments (segments s) = s := by
  induction s with
  | nil => rfl
  | cons c s ih =>
    cases hs : segments s with
    | nil => exact absurd hs (segments_ne_nil s)
    | cons seg segs =>
      rw [hs] at ih
      by_cases hc : c = '/'.toNat
      · rw [hc, segments_cons_slash, hs]
        unfold joinSegments
        rw [ih]
        rfl
      · rw [segments_cons_other c s seg segs hc hs]
        cases segs with
        | nil =>
          simp only [joinSegments] at ih ⊢
          rw [ih]
        | cons s2 segs =>
          simp only [joinSegments, List.cons_append] at ih ⊢
          rw [ih]

theorem lastIndex_split (sep : Nat) : ∀ (p : GoString) (i : Nat), lastIndex sep p = some i →
    p = p.take i ++ sep :: p.drop (i + 1) ∧ sep ∉ p.drop (i + 1) := by
  intro p
  induction p with
  | nil => intro i h; simp [lastIndex] at h
  | cons c p ih =>
    intro i h
    unfold lastIndex at h
    cases hp : lastIndex sep p with
    | some j =>
      simp only [hp, Option.some.injEq] at h
      subst h
      obtain ⟨h1, h2⟩ := ih j hp
      constructor
      · simp only [List.take_succ_cons, List.drop_succ_cons, List.cons_append]
        rw [← h1]
      · simpa using h2
    | none =>
      simp only [hp] at h
      split at h
      · rename_i hc
        simp only [Option.some.injEq] at h
        subst h
        subst hc
        refine ⟨by simp, ?_⟩
        simp only [zero_add, List.drop_succ_cons, List.drop_zero]
        clear ih
        induction p with
        | nil => simp
        | cons d p ihp =>
          unfold lastIndex at hp
          cases hq : lastIndex c p with
          | some k => simp [hq] at hp
          | none =>
            simp only [hq] at hp
            split at hp
            · simp at hp
            · rename_i hd
              simp only [List.mem_cons, not_or]
              exact ⟨fun he => hd he.symm, ihp hq⟩
      · simp at h

theorem lastIndex_none (sep : Nat) : ∀ (p : GoString), lastIndex sep p = none → sep ∉ p := by
  intro p
  induction p with
  | nil => simp
  | cons d p ihp =>
    intro hp
    unfold lastIndex at hp
    cases hq : lastIndex sep p with
    | some k => simp [hq] at hp
    | none =>
      simp only [hq] at hp
      split at hp
      · simp at hp
      · rename_i hd
        simp only [List.mem_cons, not_or]
        exact ⟨fun he => hd he.symm, ihp hq⟩

theorem lastIndex_lt (sep : Nat) (p : GoString) (i : Nat) (h : lastIndex sep p = some i) :
    i < p.length := by
  have h1 := congrArg List.length (lastIndex_split sep p i h).1
  simp only [List.length_append, List.length_cons, List.length_take, List.length_drop] at h1
  omega

theorem foldl_resolveStep_plain : ∀ (elems : List GoString),
    (∀ e ∈ elems, e ≠ str "." ∧ e ≠ str "..") → ∀ (dst : GoString) (first : Bool),
      (elems.foldl resolveStep (dst, first)).1 =
        dst ++ (if elems = [] then []
          else (if first then [] else str "/") ++ joinSegments elems) := by
  intro elems
  induction elems with
  | nil => intro _ dst first; simp
  | cons e es ih =>
    intro h dst first
    have he := h e (List.mem_cons_self _ _)
    have hes := ih (fun x hx => h x (List.mem_cons_of_mem _ hx))
    rw [List.foldl_cons]
    have hstep : resolveStep (dst, first) e =
        ((if first then dst else dst ++ str "/") ++ e, false) := by
      unfold resolveStep
      rw [if_neg he.1, if_neg he.2]
    rw [hstep, hes]
    simp only [List.cons_ne_nil, if_false, Bool.false_eq_true]
    cases es with
    | nil => cases first <;> simp [joinSegments]
    | cons e2 es => cases first <;> simp [joinSegments, str]

/-- For a plain base path, `resolvePath` puts a one-element reference in the place of
the last element of the base. -/
theorem resolvePath_plain (p r : GoString)
    (rooted : p = [] ∨ p.head? = some '/'.toNat)
    (noDots : ∀ seg ∈ segments p, seg ≠ str "." ∧ seg ≠ str "..")
    (hr : r ≠ []) (hslash : '/'.toNat ∉ r) (hdot : r ≠ str "." ∧ r ≠ str "..") :
    resolvePath p r = dir p ++ r := by
  obtain ⟨c, rest, rfl⟩ := List.exists_cons_of_ne_nil hr
  have hc : c ≠ '/'.toNat := fun he => hslash (by rw [he]; exact List.mem_cons_self _ _)
  unfold resolvePath dir
  simp only [hc, ne_eq, not_false_eq_true, if_true]
  cases hl : lastIndex '/'.toNat p with
  | none =>
    have hno := lastIndex_none _ p hl
    have hp : p = [] := by
      rcases rooted with h | h
      · exact h
      · cases p with
        | nil => rfl
        | cons a p =>
          simp only [List.head?_cons, Option.some.injEq] at h
          exact absurd (by rw [h]; exact List.mem_cons_self _ _) hno
    subst hp
    simp only [List.nil_append, List.cons_ne_nil, if_false, segments_noSlash _ hslash,
      List.foldl_cons, List.foldl_nil, List.getLast?_singleton, Option.getD_some]
    have hstep : resolveStep (str "/", true) (c :: rest) = (str "/" ++ c :: rest, false) := by
      unfold resolveStep
      rw [if_neg hdot.1, if_neg hdot.2]
      rfl
    rw [hstep]
    simp only [hdot.1, hdot.2, or_self, if_false]
    show (match (47 :: c :: rest : GoString) with
      | _ :: c' :: rest' => if c' = '/'.toNat then c' :: rest' else (47 :: c :: rest : GoString)
      | _ => (47 :: c :: rest : GoString)) = _
    simp only [hc, if_false]
    rfl
  | some i =>
    obtain ⟨hsplit, -⟩ := lastIndex_split _ p i hl
    have hi := lastIndex_lt _ p i hl
    have htake : p.take (i + 1) = p.take i ++ ['/'.toNat] := by
      conv_lhs => rw [hsplit]
      rw [List.take_append_eq_append_take]
      simp only [List.length_take, Nat.min_eq_left (Nat.le_of_lt hi)]
      rw [List.take_of_length_le (by simp [Nat.min_eq_left (Nat.le_of_lt hi)])]
      simp
    have hfull : p.take (i + 1) ++ c :: rest = p.take i ++ '/'.toNat :: (c :: rest) := by
      rw [htake]; simp
    have hsegs : segments (p.take (i + 1) ++ c :: rest) = segments (p.take i) ++ [c :: rest] := by
      rw [hfull, segments_append_slash, segments_noSlash _ hslash]
    have hclean : ∀ e ∈ segments (p.take i) ++ [c :: rest], e ≠ str "." ∧ e ≠ str ".." := by
      intro e he
      rcases List.mem_append.1 he with h1 | h1
      · apply noDots
        rw [hsplit, segments_append_slash]
        exact List.mem_append_left _ h1
      · rw [List.mem_singleton.1 h1]
        exact hdot
    have hhead : ∃ tl, p.take (i + 1) ++ c :: rest = '/'.toNat :: tl := by
      rcases rooted with h | h
      · rw [h] at hi; simp at hi
      · cases p with
        | nil => simp at hi
        | cons a p =>
          simp only [List.head?_cons, Option.some.injEq] at h
          exact ⟨_, by rw [h]; rfl⟩
    obtain ⟨tl, htl⟩ := hhead
    have hne : p.take (i + 1) ++ c :: rest ≠ [] := by simp
    simp only [hne, if_false]
    rw [foldl_resolveStep_plain _ (by rw [hsegs]; exact hclean)]
    have hlast : (segments (p.take (i + 1) ++ c :: rest)).getLast?.getD [] = c :: rest := by
      rw [hsegs]; simp
    rw [hlast]
    simp only [hdot.1, hdot.2, or_self, if_false, segments_ne_nil, if_true,
      joinSegments_segments, List.nil_append]
    rw [htl]
    rfl

theorem dir_plain (p : GoString) (h : ∀ c ∈ p, shouldEscape c .encodePath = false) :
    ∀ c ∈ dir p, shouldEscape c .encodePath = false := by
  intro c hc
  unfold dir at hc
  split at hc
  · exact h c (List.mem_of_mem_take hc)
  · have : c = '/'.toNat := by simpa [str] using hc
    rw [this]
    decide

theorem dir_head (p : GoString) (rooted : p = [] ∨ p.head? = some '/'.toNat) :
    ∃ tl, dir p = '/'.toNat :: tl := by
  unfold dir
  cases hl : lastIndex '/'.toNat p with
  | none => exact ⟨[], rfl⟩
  | some i =>
    rcases rooted with h | h
    · rw [h] at hl; simp [lastIndex] at hl
    · cases p with
      | nil => simp at h
      | cons a p =>
        simp only [List.head?_cons, Option.some.injEq] at h
        exact ⟨p.take i, by rw [h]; rfl⟩

/-- Resolving a one-element relative reference with a query against a plain base. -/
theorem ResolveReference_plain (B : URL) (hB : PlainBase B) (r q : GoString)
    (hr : r ≠ []) (hslash : '/'.toNat ∉ r) (hdot : r ≠ str "." ∧ r ≠ str "..")
    (hplain : ∀ c ∈ r, shouldEscape c .encodePath = false) :
    B.ResolveReference { Path := r, RawQuery := q } =
      { Scheme := B.Scheme, Host := B.Host, Path := dir B.Path ++ r, RawQuery := q } := by
  have hrefEsc : ({ Path := r, RawQuery := q } : URL).EscapedPath = r :=
    EscapedPath_plain _ rfl hplain
  have hres : resolvePath B.EscapedPath r = dir B.Path ++ r := by
    rw [EscapedPath_plain B hB.rawPath hB.path]
    exact resolvePath_plain _ _ hB.rooted hB.noDots hr hslash hdot
  have hall : ∀ c ∈ dir B.Path ++ r, shouldEscape c .encodePath = false := by
    intro c hc
    rcases List.mem_append.1 hc with h | h
    · exact dir_plain _ hB.path c h
    · exact hplain c h
  unfold URL.ResolveReference
  simp only [hrefEsc, hres, ne_eq, not_true_eq_false, or_self, if_false, if_true, hr,
    false_and, URL.setPathIgnoringError, setPath_plain _ _ hall, hB.user]

/-- The text of a URL that has a scheme, a plain host, a plain path starting with a
slash, and a query. -/
theorem String_plain (s h p q : GoString) (hs : s ≠ [])
    (hh : ∀ c ∈ h, shouldEscape c .encodeHost = false)
    (hp : ∀ c ∈ p, shouldEscape c .encodePath = false)
    (hhead : ∃ tl, p = '/'.toNat :: tl) (hq : q ≠ []) :
    URL.String { Scheme := s, Host := h, Path := p, RawQuery := q } =
      s ++ str "://" ++ h ++ p ++ str "?" ++ q := by
  obtain ⟨tl, rfl⟩ := hhead
  have hesc : ({ Scheme := s, Host := h, Path := '/'.toNat :: tl, RawQuery := q } :
      URL).EscapedPath = '/'.toNat :: tl := EscapedPath_plain _ rfl hp
  have hsne : s ++ str ":" ≠ [] := by simp [hs]
  unfold URL.String
  simp only [hesc, hs, hq, ne_eq, not_false_eq_true, not_true_eq_false, if_true, if_false,
    true_or, or_true, false_and, and_false, List.cons_ne_nil, List.head?_cons,
    Bool.false_eq_true, escape_plain _ _ hh, or_false, false_or]
  by_cases hhe : h = []
  · subst hhe
    simp [str]
  · simp [hhe, str]

theorem fetch_sent {σ : Type} (c : Client) (ref : GoString)
    (fields : List (xml.fieldInfo σ)) (zero : σ) :
    (c.fetch ref fields zero).2.sent = (c.get ref).2.sent := by
  unfold Client.fetch
  rcases hg : c.get ref with ⟨out, eff⟩
  cases out with
  | panic => rfl
  | ret val err =>
    cases err with
    | some e => cases val <;> rfl
    | none =>
      cases val with
      | none => rfl
      | some res =>
        simp only
        cases xml.Decode fields zero (xml.NewDecoder res.Body.src) <;> rfl

end Resolve

section RequestURL

open url

theorem cut_not_mem (sep : Nat) : ∀ (s : GoString), sep ∉ s → cut sep s = (s, [], false) := by
  intro s
  induction s with
  | nil => intro _; rfl
  | cons c s ih =>
    intro h
    simp only [List.mem_cons, not_or] at h
    unfold cut
    rw [if_neg (fun he => h.1 he.symm), ih h.2]

theorem cut_append (sep : Nat) (y : GoString) : ∀ (x : GoString), sep ∉ x →
    cut sep (x ++ sep :: y) = (x, y, true) := by
  intro x
  induction x with
  | nil => intro _; simp [cut]
  | cons c x ih =>
    intro h
    simp only [List.mem_cons, not_or] at h
    simp only [List.cons_append]
    unfold cut
    rw [if_neg (fun he => h.1 he.symm), ih h.2]

theorem cut_spec (sep : Nat) : ∀ (s : GoString),
    sep ∉ (cut sep s).1 ∧
      ((cut sep s).2.2 = true → s = (cut sep s).1 ++ sep :: (cut sep s).2.1) ∧
      ((cut sep s).2.2 = false → s = (cut sep s).1) := by
  intro s
  induction s with
  | nil => simp [cut]
  | cons c s ih =>
    unfold cut
    by_cases hc : c = sep
    · simp [hc]
    · simp only [hc, if_false, List.mem_cons, not_or, List.cons_append, List.cons.injEq,
        true_and]
      exact ⟨⟨fun he => hc he.symm, ih.1⟩, ih.2.1, ih.2.2⟩

theorem lastIndex_eq_none (sep : Nat) : ∀ (s : GoString), sep ∉ s → lastIndex sep s = none := by
  intro s
  induction s with
  | nil => intro _; rfl
  | cons c s ih =>
    intro h
    simp only [List.mem_cons, not_or] at h
    unfold lastIndex
    rw [ih h.2]
    simp only
    rw [if_neg (fun he => h.1 he.symm)]

theorem lastIndex_append (sep : Nat) (y : GoString) (hy : sep ∉ y) : ∀ (x : GoString),
    lastIndex sep (x ++ sep :: y) = some x.length := by
  intro x
  induction x with
  | nil =>
    simp only [List.nil_append, List.length_nil]
    unfold lastIndex
    rw [lastIndex_eq_none sep y hy]
    simp
  | cons c x ih =>
    simp only [List.cons_append, List.length_cons]
    unfold lastIndex
    rw [ih]

theorem hostByte_fin : ∀ c : Fin 123, (isHostNameByte c.val = true ∨ c.val = ':'.toNat) →
    shouldEscape c.val .encodeHost = false ∧ c.val ≠ '/'.toNat ∧ c.val ≠ '@'.toNat ∧
      c.val ≠ '['.toNat ∧ c.val ≠ ']'.toNat ∧ c.val ≠ '?'.toNat ∧ c.val ≠ '#'.toNat ∧
      c.val ≠ '%'.toNat ∧ c.val ≠ '+'.toNat ∧ 32 ≤ c.val ∧ c.val ≠ 127 := by
  decide

theorem isHostNameByte_le (c : Nat) (h : isHostNameByte c = true) : c ≤ 122 := by
  simp only [isHostNameByte, Bool.or_eq_true, Bool.and_eq_true, decide_eq_true_eq] at h
  have e1 : 'z'.toNat = 122 := rfl
  have e2 : 'Z'.toNat = 90 := rfl
  have e3 : '9'.toNat = 57 := rfl
  have e4 : '-'.toNat = 45 := rfl
  have e5 : '.'.toNat = 46 := rfl
  rw [e1, e2, e3, e4, e5] at h
  omega

theorem isDigit_hostName (c : Nat) (h : isDigit c = true) : isHostNameByte c = true := by
  simp only [isDigit, Bool.and_eq_true, decide_eq_true_eq] at h
  simp only [isHostNameByte, Bool.or_eq_true, Bool.and_eq_true, decide_eq_true_eq]
  exact Or.inl (Or.inl (Or.inr h))

/-- What the bytes of a plain host are. -/
theorem hostByte_facts (c : Nat) (h : isHostNameByte c = true ∨ c = ':'.toNat) :
    shouldEscape c .encodeHost = false ∧ c ≠ '/'.toNat ∧ c ≠ '@'.toNat ∧ c ≠ '['.toNat ∧
      c ≠ ']'.toNat ∧ c ≠ '?'.toNat ∧ c ≠ '#'.toNat ∧ c ≠ '%'.toNat ∧ c ≠ '+'.toNat ∧
      32 ≤ c ∧ c ≠ 127 := by
  have hle : c < 123 := by
    rcases h with h | h
    · have := isHostNameByte_le c h
      omega
    · rw [h]; decide
  exact hostByte_fin ⟨c, hle⟩ h

theorem shouldEscape_lt (c : Nat) (mode : encoding) (h : shouldEscape c mode = false) :
    c < 127 := by
  by_contra hge
  have hc : 127 ≤ c := by omega
  have e1 : 'z'.toNat = 122 := rfl
  have e2 : 'Z'.toNat = 90 := rfl
  have e3 : '9'.toNat = 57 := rfl
  have h1 : (('a'.toNat ≤ c && c ≤ 'z'.toNat) || ('A'.toNat ≤ c && c ≤ 'Z'.toNat) ||
      ('0'.toNat ≤ c && c ≤ '9'.toNat)) = false := by
    simp only [Bool.or_eq_false_iff, Bool.and_eq_false_iff, decide_eq_false_iff_not, e1, e2, e3]
    omega
  have h2 : hostSubDelims.contains c = false := by
    simp only [hostSubDelims, List.contains_eq_any_beq, List.any_cons, List.any_nil,
      Bool.or_false, Bool.or_eq_false_iff, beq_eq_false_iff_ne, ne_eq]
    omega
  have h3 : (c = '-'.toNat || c = '_'.toNat || c = '.'.toNat || c = '~'.toNat) = false := by
    have f1 : '-'.toNat = 45 := rfl
    have f2 : '_'.toNat = 95 := rfl
    have f3 : '.'.toNat = 46 := rfl
    have f4 : '~'.toNat = 126 := rfl
    simp only [Bool.or_eq_false_iff, decide_eq_false_iff_not, f1, f2, f3, f4]
    omega
  have h4 : (str "$&+,/:;=?@").contains c = false := by
    have : str "$&+,/:;=?@" = [36, 38, 43, 44, 47, 58, 59, 61, 63, 64] := by decide
    rw [this]
    simp only [List.contains_eq_any_beq, List.any_cons, List.any_nil,
      Bool.or_false, Bool.or_eq_false_iff, beq_eq_false_iff_ne, ne_eq]
    omega
  have h5 : (str "!()*").contains c = false := by
    have : str "!()*" = [33, 40, 41, 42] := by decide
    rw [this]
    simp only [List.contains_eq_any_beq, List.any_cons, List.any_nil,
      Bool.or_false, Bool.or_eq_false_iff, beq_eq_false_iff_ne, ne_eq]
    omega
  unfold shouldEscape at h
  rw [h1, h2, h3, h4, h5] at h
  simp at h

theorem pathByte_fin : ∀ c : Fin 127, shouldEscape c.val .encodePath = false →
    c.val ≠ '?'.toNat ∧ c.val ≠ '#'.toNat ∧ 32 ≤ c.val := by
  decide

/-- What the bytes of a path that needs no escaping are. -/
theorem pathByte_facts (c : Nat) (h : shouldEscape c .encodePath = false) :
    c ≠ '?'.toNat ∧ c ≠ '#'.toNat ∧ 32 ≤ c ∧ c ≠ 127 := by
  have hlt := shouldEscape_lt c _ h
  obtain ⟨h1, h2, h3⟩ := pathByte_fin ⟨c, hlt⟩ h
  exact ⟨h1, h2, h3, by omega⟩

theorem schemeByte_fin : ∀ c : Fin 123, isSchemeByte c.val = true →
    c.val ≠ '?'.toNat ∧ c.val ≠ '#'.toNat ∧ c.val ≠ ':'.toNat ∧ 32 ≤ c.val ∧ c.val ≠ 127 ∧
      ¬ ('A'.toNat ≤ c.val ∧ c.val ≤ 'Z'.toNat) := by
  decide

theorem isSchemeByte_le (c : Nat) (h : isSchemeByte c = true) : c ≤ 122 := by
  simp only [isSchemeByte, Bool.or_eq_true, Bool.and_eq_true, decide_eq_true_eq] at h
  have e1 : 'z'.toNat = 122 := rfl
  have e3 : '9'.toNat = 57 := rfl
  have e4 : '-'.toNat = 45 := rfl
  have e5 : '.'.toNat = 46 := rfl
  have e6 : '+'.toNat = 43 := rfl
  rw [e1, e3, e4, e5, e6] at h
  omega

/-- What the bytes of a plain scheme are. -/
theorem schemeByte_facts (c : Nat) (h : isSchemeByte c = true) :
    c ≠ '?'.toNat ∧ c ≠ '#'.toNat ∧ c ≠ ':'.toNat ∧ 32 ≤ c ∧ c ≠ 127 ∧
      ¬ ('A'.toNat ≤ c ∧ c ≤ 'Z'.toNat) := by
  have hle := isSchemeByte_le c h
  exact schemeByte_fin ⟨c, by omega⟩ h

theorem plainScheme_bytes (s : GoString) (h : plainScheme s = true) :
    ∃ c rest, s = c :: rest ∧ ('a'.toNat ≤ c ∧ c ≤ 'z'.toNat) ∧
      ∀ b ∈ s, isSchemeByte b = true := by
  cases s with
  | nil => simp [plainScheme] at h
  | cons c rest =>
    simp only [plainScheme, Bool.and_eq_true, decide_eq_true_eq, List.all_eq_true] at h
    refine ⟨c, rest, rfl, h.1, ?_⟩
    intro b hb
    rcases List.mem_cons.1 hb with rfl | hb
    · simp only [isSchemeByte, Bool.or_eq_true, Bool.and_eq_true, decide_eq_true_eq]
      exact Or.inl (Or.inl (Or.inl (Or.inl h.1)))
    · exact h.2 b hb

theorem toLowerASCII_plain : ∀ (s : GoString), (∀ b ∈ s, isSchemeByte b = true) →
    toLowerASCII s = s := by
  intro s
  induction s with
  | nil => intro _; rfl
  | cons c s ih =>
    intro h
    have hc := (schemeByte_facts c (h c (List.mem_cons_self _ _))).2.2.2.2.2
    have hs := ih (fun x hx => h x (List.mem_cons_of_mem _ hx))
    unfold toLowerASCII at hs ⊢
    simp only [List.map_cons, hc, if_false, hs]

theorem getSchemeLoop_plain (raw rest : GoString) : ∀ (s seen : GoString) (i : Nat), 0 < i →
    (∀ b ∈ s, isSchemeByte b = true) →
      getSchemeLoop raw i seen (s ++ ':'.toNat :: rest) = .ok (seen ++ s, rest) := by
  intro s
  induction s with
  | nil =>
    intro seen i hi _
    have hne : i ≠ 0 := by omega
    simp only [List.nil_append, List.append_nil]
    unfold getSchemeLoop
    simp [hne]
  | cons c s ih =>
    intro seen i hi h
    have hc := h c (List.mem_cons_self _ _)
    have hs := ih (seen ++ [c]) (i + 1) (by omega) (fun x hx => h x (List.mem_cons_of_mem _ hx))
    have hne : i ≠ 0 := by omega
    simp only [List.cons_append]
    unfold getSchemeLoop
    simp only [isSchemeByte, Bool.or_eq_true, Bool.and_eq_true, decide_eq_true_eq] at hc
    by_cases hl : ('a'.toNat ≤ c ∧ c ≤ 'z'.toNat) ∨ ('A'.toNat ≤ c ∧ c ≤ 'Z'.toNat)
    · rw [if_pos hl, hs]
      simp
    · rw [if_neg hl]
      have hd : ('0'.toNat ≤ c ∧ c ≤ '9'.toNat) ∨ c = '+'.toNat ∨ c = '-'.toNat ∨
          c = '.'.toNat := by
        rcases hc with (((h1 | h1) | h1) | h1) | h1
        · exact absurd (Or.inl h1) hl
        · exact Or.inl h1
        · exact Or.inr (Or.inl h1)
        · exact Or.inr (Or.inr (Or.inl h1))
        · exact Or.inr (Or.inr (Or.inr h1))
      rw [if_pos hd, if_neg hne, hs]
      simp

theorem getScheme_plain (s rest : GoString) (h : plainScheme s = true) :
    getScheme (s ++ ':'.toNat :: rest) = .ok (s, rest) := by
  obtain ⟨c, tl, rfl, hc, hall⟩ := plainScheme_bytes s h
  unfold getScheme
  simp only [List.cons_append]
  unfold getSchemeLoop
  rw [if_pos (Or.inl hc)]
  have := getSchemeLoop_plain (c :: (tl ++ ':'.toNat :: rest)) rest tl ([] ++ [c]) (0 + 1)
    (by omega) (fun x hx => hall x (List.mem_cons_of_mem _ hx))
  rw [this]
  simp

/-- What a plain host is made of: host name bytes, with a port of digits or without. -/
theorem plainHost_cases (h : GoString) (hh : plainHost h = true) :
    h ≠ [] ∧ (∀ c ∈ h, isHostNameByte c = true ∨ c = ':'.toNat) ∧
      (∀ c, h.head? = some c → isHostNameByte c = true) ∧
      (':'.toNat ∉ h ∨
        ∃ name port, h = name ++ ':'.toNat :: port ∧ ':'.toNat ∉ port ∧
          port ≠ [] ∧ port.all (fun b => '0'.toNat ≤ b && b ≤ '9'.toNat) = true) := by
  simp only [plainHost, Bool.and_eq_true, Bool.or_eq_true, Bool.not_eq_true',
    decide_eq_true_eq, List.all_eq_true, ne_eq] at hh
  obtain ⟨⟨hne, hname⟩, hport⟩ := hh
  obtain ⟨hnot, htrue, hfalse⟩ := cut_spec ':'.toNat h
  have hhead : ∀ c, (cut ':'.toNat h).1.head? = some c → isHostNameByte c = true := by
    intro c hc
    exact hname c (List.mem_of_mem_head? hc)
  cases hf : (cut ':'.toNat h).2.2 with
  | false =>
    have he := hfalse hf
    refine ⟨by rw [he]; exact hne, ?_, ?_, Or.inl (by rw [he]; exact hnot)⟩
    · intro c hc
      rw [he] at hc
      exact Or.inl (hname c hc)
    · intro c hc
      rw [he] at hc
      exact hhead c hc
  | true =>
    have he := htrue hf
    have hp : (cut ':'.toNat h).2.1 ≠ [] ∧ ∀ x ∈ (cut ':'.toNat h).2.1, isDigit x = true := by
      rcases hport with h1 | h1
      · rw [hf] at h1; simp at h1
      · exact h1
    have hdig : ∀ x ∈ (cut ':'.toNat h).2.1, x ≠ ':'.toNat := by
      intro x hx
      have := hp.2 x hx
      simp only [isDigit, Bool.and_eq_true, decide_eq_true_eq] at this
      have e3 : '9'.toNat = 57 := rfl
      have e4 : ':'.toNat = 58 := rfl
      rw [e3] at this
      rw [e4]
      omega
    refine ⟨by rw [he]; simp, ?_, ?_, Or.inr ⟨_, _, he, ?_, ?_, ?_⟩⟩
    · intro c hc
      rw [he] at hc
      rcases List.mem_append.1 hc with h1 | h1
      · exact Or.inl (hname c h1)
      · rcases List.mem_cons.1 h1 with h2 | h2
        · exact Or.inr h2
        · exact Or.inl (isDigit_hostName c (hp.2 c h2))
    · intro c hc
      rw [he] at hc
      cases hn : (cut ':'.toNat h).1 with
      | nil => exact absurd hn hne
      | cons a tl =>
        rw [hn] at hc hhead
        simp only [List.cons_append, List.head?_cons, Option.some.injEq] at hc hhead
        exact hhead c hc
    · intro hm
      exact hdig _ hm rfl
    · exact hp.1
    · simp only [List.all_eq_true]
      intro x hx
      exact hp.2 x hx

theorem unescapeCheck_host : ∀ (s : GoString),
    (∀ c ∈ s, isHostNameByte c = true ∨ c = ':'.toNat) →
      unescapeCheck .encodeHost s = none := by
  intro s
  induction s with
  | nil => intro _; rfl
  | cons c s ih =>
    intro h
    have hc := hostByte_facts c (h c (List.mem_cons_self _ _))
    have hs := ih (fun x hx => h x (List.mem_cons_of_mem _ hx))
    unfold unescapeCheck
    simp only [hc.2.2.2.2.2.2.2.1, hc.2.2.2.2.2.2.2.2.1, hc.1, if_false, hs, Bool.and_false,
      Bool.false_eq_true]

theorem unescapeWrite_host : ∀ (s : GoString),
    (∀ c ∈ s, isHostNameByte c = true ∨ c = ':'.toNat) →
      unescapeWrite .encodeHost s = s := by
  intro s
  induction s with
  | nil => intro _; rfl
  | cons c s ih =>
    intro h
    have hc := hostByte_facts c (h c (List.mem_cons_self _ _))
    have hs := ih (fun x hx => h x (List.mem_cons_of_mem _ hx))
    unfold unescapeWrite
    simp only [hc.2.2.2.2.2.2.2.1, hc.2.2.2.2.2.2.2.2.1, if_false, hs]

theorem startsWith_bracket (h : GoString) (hh : ∀ c, h.head? = some c → c ≠ '['.toNat) :
    startsWith h (str "[") = false := by
  cases h with
  | nil => rfl
  | cons c tl =>
    have := hh c rfl
    have e : str "[" = ['['.toNat] := rfl
    rw [e]
    simp only [startsWith, Bool.and_true, beq_eq_false_iff_ne, ne_eq]
    exact this

/-- `parseHost` reads a plain host as it is. -/
theorem parseHost_plain (h : GoString) (hh : plainHost h = true) : parseHost h = .ok h := by
  obtain ⟨-, hall, hhead, hport⟩ := plainHost_cases h hh
  have hun : unescape h .encodeHost = .ok h := by
    unfold unescape
    rw [unescapeCheck_host h hall, unescapeWrite_host h hall]
  have hb : startsWith h (str "[") = false :=
    startsWith_bracket h (fun c hc => (hostByte_facts c (Or.inl (hhead c hc))).2.2.2.1)
  unfold parseHost
  rw [hb]
  simp only [Bool.false_eq_true, if_false]
  rcases hport with hno | ⟨name, port, he, hnp, -, hdig⟩
  · rw [lastIndex_eq_none _ _ hno]
    exact hun
  · have hl : lastIndex ':'.toNat h = some name.length := by
      rw [he]
      exact lastIndex_append _ port hnp name
    rw [hl]
    simp only
    have hd : h.drop name.length = ':'.toNat :: port := by
      rw [he]
      simp
    rw [hd]
    simp only [validOptionalPort, decide_True, Bool.true_and, hdig, Bool.not_true,
      Bool.false_eq_true, if_false]
    exact hun

/-- `parseAuthority` reads a plain host as a host without user information. -/
theorem parseAuthority_plain (h : GoString) (hh : plainHost h = true) :
    parseAuthority h = .ok (none, h) := by
  obtain ⟨-, hall, -, -⟩ := plainHost_cases h hh
  have hat : '@'.toNat ∉ h := fun hm => (hostByte_facts _ (hall _ hm)).2.2.1 rfl
  unfold parseAuthority
  rw [lastIndex_eq_none _ _ hat, parseHost_plain h hh]

/-- A plain host has no empty port to remove. -/
theorem removeEmptyPort_plain (h : GoString) (hh : plainHost h = true) :
    http.removeEmptyPort h = h := by
  obtain ⟨hne, hall, -, hport⟩ := plainHost_cases h hh
  have hl : h.getLast? ≠ some ':'.toNat := by
    rcases hport with hno | ⟨name, port, he, hnp, hpne, hdig⟩
    · intro hm
      exact hno (List.mem_of_mem_getLast? hm)
    · rw [he]
      intro hm
      have h2 : (name ++ ':'.toNat :: port).getLast? = port.getLast? := by
        cases port with
        | nil => exact absurd rfl hpne
        | cons a tl =>
          rw [List.getLast?_append_of_ne_nil _ (by simp), List.getLast?_cons_cons]
      rw [h2] at hm
      exact hnp (List.mem_of_mem_getLast? hm)
  unfold http.removeEmptyPort
  simp only []
  rw [if_neg (fun hc => hl hc.2)]

theorem plainQuery_bytes (q : GoString) (hq : plainQuery q = true) :
    q ≠ [] ∧ ∀ c ∈ q, 32 < c ∧ c < 127 ∧ c ≠ '#'.toNat ∧ c ≠ '?'.toNat := by
  simp only [plainQuery, Bool.and_eq_true, decide_eq_true_eq, List.all_eq_true, ne_eq] at hq
  refine ⟨hq.1, fun c hc => ?_⟩
  have := hq.2 c hc
  exact ⟨this.1.1.1, this.1.1.2, this.1.2, this.2⟩

/-- `parse` reads the text of a plain URL back into its parts. -/
theorem parse_plain (s h p q tl : GoString) (hs : plainScheme s = true)
    (hh : plainHost h = true) (hp : ∀ c ∈ p, shouldEscape c .encodePath = false)
    (hp0 : p = '/'.toNat :: tl) (hq : plainQuery q = true) :
    parse (s ++ ':'.toNat :: '/'.toNat :: '/'.toNat :: (h ++ (p ++ '?'.toNat :: q))) false =
      .ok { Scheme := s, Host := h, Path := p, RawQuery := q } := by
  obtain ⟨c0, s0, hs0, hc0, hsall⟩ := plainScheme_bytes s hs
  obtain ⟨hhne, hhall, -, -⟩ := plainHost_cases h hh
  obtain ⟨hqne, hqall⟩ := plainQuery_bytes q hq
  have e32 : ' '.toNat = 32 := rfl
  have F1 : stringContainsCTLByte
      (s ++ ':'.toNat :: '/'.toNat :: '/'.toNat :: (h ++ (p ++ '?'.toNat :: q))) = false := by
    unfold stringContainsCTLByte
    rw [List.any_eq_false]
    intro x hx
    simp only [List.mem_append, List.mem_cons] at hx
    simp only [Bool.or_eq_true, decide_eq_true_eq, e32]
    rcases hx with hx | hx | hx | hx | hx | hx | hx | hx
    · have := schemeByte_facts x (hsall x hx); omega
    · rw [hx]; decide
    · rw [hx]; decide
    · rw [hx]; decide
    · have := hostByte_facts x (hhall x hx); omega
    · have := pathByte_facts x (hp x hx); omega
    · rw [hx]; decide
    · have := hqall x hx; omega
  have F3 : s ++ ':'.toNat :: '/'.toNat :: '/'.toNat :: (h ++ (p ++ '?'.toNat :: q)) ≠ str "*" := by
    rw [hs0]
    intro he
    have := congrArg List.length he
    simp [str] at this
  have F4 := getScheme_plain s ('/'.toNat :: '/'.toNat :: (h ++ (p ++ '?'.toNat :: q))) hs
  have F5 : ¬ (('/'.toNat :: '/'.toNat :: (h ++ (p ++ '?'.toNat :: q))).getLast? =
      some '?'.toNat ∧
      countByte '?'.toNat ('/'.toNat :: '/'.toNat :: (h ++ (p ++ '?'.toNat :: q))) = 1) := by
    intro hc
    have hm := hc.1
    have h2 : ('/'.toNat :: '/'.toNat :: (h ++ (p ++ '?'.toNat :: q))).getLast? = q.getLast? := by
      have e : '/'.toNat :: '/'.toNat :: (h ++ (p ++ '?'.toNat :: q)) =
          ('/'.toNat :: '/'.toNat :: (h ++ (p ++ ['?'.toNat]))) ++ q := by simp
      rw [e, List.getLast?_append_of_ne_nil _ hqne]
    rw [h2] at hm
    exact (hqall _ (List.mem_of_mem_getLast? hm)).2.2.2 rfl
  have hnq : '?'.toNat ∉ '/'.toNat :: '/'.toNat :: (h ++ p) := by
    intro hm
    simp only [List.mem_cons, List.mem_append] at hm
    rcases hm with hm | hm | hm | hm
    · exact absurd hm (by decide)
    · exact absurd hm (by decide)
    · exact (hostByte_facts _ (hhall _ hm)).2.2.2.2.2.1 rfl
    · exact (pathByte_facts _ (hp _ hm)).1 rfl
  have F6 : cut '?'.toNat ('/'.toNat :: '/'.toNat :: (h ++ (p ++ '?'.toNat :: q))) =
      ('/'.toNat :: '/'.toNat :: (h ++ p), q, true) := by
    have e : '/'.toNat :: '/'.toNat :: (h ++ (p ++ '?'.toNat :: q)) =
        ('/'.toNat :: '/'.toNat :: (h ++ p)) ++ '?'.toNat :: q := by simp
    rw [e]
    exact cut_append _ q _ hnq
  have hns : '/'.toNat ∉ h := fun hm => (hostByte_facts _ (hhall _ hm)).2.1 rfl
  have F8 : cut '/'.toNat (h ++ p) = (h, tl, true) := by
    rw [hp0]
    exact cut_append _ tl _ hns
  have F9 := parseAuthority_plain h hh
  have F7a : ∀ x : GoString, startsWith ('/'.toNat :: '/'.toNat :: x) (str "/") = true := by
    intro x; rfl
  have F7b : ∀ x : GoString, startsWith ('/'.toNat :: '/'.toNat :: x) (str "//") = true := by
    intro x
    have e : str "//" = ['/'.toNat, '/'.toNat] := rfl
    rw [e]
    simp [startsWith]
  have hsne : s ≠ [] := by rw [hs0]; simp
  unfold parse
  rw [F1]
  simp only [Bool.false_eq_true, if_false, false_and, and_false, F3, F4]
  simp only [F5, decide_False, Bool.false_eq_true, if_false, F6, F7a, F7b, Bool.not_true,
    false_and, toLowerASCII_plain s hsall, hsne, ne_eq, not_false_eq_true, true_or, and_self,
    if_true, List.drop_succ_cons, List.drop_zero, F8, F9]
  rw [← hp0, setPath_plain _ p hp]

/-- `url.Parse` reads the text of a plain URL back into its parts. -/
theorem Parse_plain (s h p q tl : GoString) (hs : plainScheme s = true)
    (hh : plainHost h = true) (hp : ∀ c ∈ p, shouldEscape c .encodePath = false)
    (hp0 : p = '/'.toNat :: tl) (hq : plainQuery q = true) :
    Parse (s ++ str "://" ++ h ++ p ++ str "?" ++ q) =
      .ok { Scheme := s, Host := h, Path := p, RawQuery := q } := by
  have e : s ++ str "://" ++ h ++ p ++ str "?" ++ q =
      s ++ ':'.toNat :: '/'.toNat :: '/'.toNat :: (h ++ (p ++ '?'.toNat :: q)) := by
    have e1 : str "://" = [':'.toNat, '/'.toNat, '/'.toNat] := rfl
    have e2 : str "?" = ['?'.toNat] := rfl
    rw [e1, e2]
    simp only [List.append_assoc, List.cons_append, List.nil_append]
  obtain ⟨-, hsall⟩ : True ∧ ∀ b ∈ s, isSchemeByte b = true := by
    obtain ⟨_, _, _, _, hall⟩ := plainScheme_bytes s hs
    exact ⟨trivial, hall⟩
  obtain ⟨-, hhall, -, -⟩ := plainHost_cases h hh
  obtain ⟨-, hqall⟩ := plainQuery_bytes q hq
  have hhash : '#'.toNat ∉
      s ++ ':'.toNat :: '/'.toNat :: '/'.toNat :: (h ++ (p ++ '?'.toNat :: q)) := by
    intro hx
    simp only [List.mem_append, List.mem_cons] at hx
    rcases hx with hx | hx | hx | hx | hx | hx | hx | hx
    · exact (schemeByte_facts _ (hsall _ hx)).2.1 rfl
    · exact absurd hx (by decide)
    · exact absurd hx (by decide)
    · exact absurd hx (by decide)
    · exact (hostByte_facts _ (hhall _ hx)).2.2.2.2.2.2.1 rfl
    · exact (pathByte_facts _ (hp _ hx)).2.1 rfl
    · exact absurd hx (by decide)
    · exact (hqall _ hx).2.2.1 rfl
  rw [e]
  unfold Parse
  simp only [cut_not_mem _ _ hhash, parse_plain s h p q tl hs hh hp hp0 hq, if_true]

/-- `http.NewRequest` on the text of a plain URL: the request for that URL. -/
theorem NewRequest_plain (s h p q tl : GoString) (hs : plainScheme s = true)
    (hh : plainHost h = true) (hp : ∀ c ∈ p, shouldEscape c .encodePath = false)
    (hp0 : p = '/'.toNat :: tl) (hq : plainQuery q = true) :
    http.NewRequest (str "GET") (s ++ str "://" ++ h ++ p ++ str "?" ++ q) =
      .ok { Method := str "GET", URL := { Scheme := s, Host := h, Path := p, RawQuery := q },
            Header := [], Host := h } := by
  have hm : (if str "GET" = [] then str "GET" else str "GET") = str "GET" := by decide
  have hv : http.validMethod (str "GET") = true := by decide
  unfold http.NewRequest
  simp only [hm, hv, Bool.not_true, Bool.false_eq_true, if_false,
    Parse_plain s h p q tl hs hh hp hp0 hq, removeEmptyPort_plain h hh]

/-- Once `get` has parsed and resolved its address and built the request, and there
is a transport, that request, with the `User-Agent` header set, goes to the transport,
whatever the transport then answers. -/
theorem get_sends (c : Client) (endp : GoString) (h : http.Client) (ref u : URL)
    (r0 : http.Request) (hc : c.httpClient = some h) (hp : Parse endp = .ok ref)
    (hr : c.resolve ref = some u) (hn : http.NewRequest (str "GET") u.String = .ok r0) :
    (c.get endp).2.sent =
      some { r0 with Header := r0.Header.Set (str "User-Agent") c.UserAgent } := by
  unfold Client.get
  simp only [hp, hr, hn, hc]
  cases h.Do { r0 with Header := r0.Header.Set (str "User-Agent") c.UserAgent } with
  | error e => rfl
  | ok resp =>
    simp only
    split <;> rfl

theorem plainScheme_ne_nil (s : GoString) (h : plainScheme s = true) : s ≠ [] := by
  obtain ⟨c, tl, rfl, -, -⟩ := plainScheme_bytes s h
  simp

theorem plainHost_escape (h : GoString) (hh : plainHost h = true) :
    ∀ c ∈ h, shouldEscape c .encodeHost = false :=
  fun c hc => (hostByte_facts c ((plainHost_cases h hh).2.1 c hc)).1

/-- What `get` hands to the transport for a one-element reference with a query, under
a plain base address. -/
theorem get_sent_plain (c : Client) (h : http.Client) (B : URL) (hc : c.httpClient = some h)
    (hb : c.BaseURL = some B) (hB : PlainBase B) (endp q : GoString)
    (hq : plainQuery q = true)
    (hparse : Parse endp = .ok { Path := str "Assortment.aspx", RawQuery := q }) :
    (c.get endp).2.sent =
        some { Method := str "GET",
               URL := { Scheme := B.Scheme, Host := B.Host,
                        Path := dir B.Path ++ str "Assortment.aspx", RawQuery := q },
               Header := http.Header.Set [] (str "User-Agent") c.UserAgent,
               Host := B.Host } ∧
      URL.String { Scheme := B.Scheme, Host := B.Host,
                   Path := dir B.Path ++ str "Assortment.aspx", RawQuery := q } =
        B.Scheme ++ str "://" ++ B.Host ++ dir B.Path ++ (str "Assortment.aspx?" ++ q) := by
  obtain ⟨tl, htl⟩ := dir_head B.Path hB.rooted
  have hpath : ∀ x ∈ dir B.Path ++ str "Assortment.aspx", shouldEscape x .encodePath = false := by
    intro x hx
    rcases List.mem_append.1 hx with h1 | h1
    · exact dir_plain _ hB.path x h1
    · exact (by decide : ∀ y ∈ str "Assortment.aspx",
        shouldEscape y .encodePath = false) x h1
  have hhead : dir B.Path ++ str "Assortment.aspx" = '/'.toNat :: (tl ++ str "Assortment.aspx") := by
    rw [htl]; rfl
  have hres : c.resolve { Path := str "Assortment.aspx", RawQuery := q } =
      some { Scheme := B.Scheme, Host := B.Host,
             Path := dir B.Path ++ str "Assortment.aspx", RawQuery := q } := by
    unfold Client.resolve
    rw [hb]
    simp only
    rw [ResolveReference_plain B hB (str "Assortment.aspx") q (by decide) (by decide)
      (by decide) (by decide)]
  have hstr :
      URL.String { Scheme := B.Scheme, Host := B.Host,
                   Path := dir B.Path ++ str "Assortment.aspx", RawQuery := q } =
        B.Scheme ++ str "://" ++ B.Host ++ (dir B.Path ++ str "Assortment.aspx") ++ str "?" ++
          q :=
    String_plain B.Scheme B.Host _ q (plainScheme_ne_nil _ hB.scheme)
      (plainHost_escape _ hB.host) hpath ⟨_, hhead⟩
      (plainQuery_bytes q hq).1
  have hnew := NewRequest_plain B.Scheme B.Host (dir B.Path ++ str "Assortment.aspx") q _
    hB.scheme hB.host hpath hhead hq
  rw [← hstr] at hnew
  refine ⟨?_, ?_⟩
  · rw [get_sends c endp h _ _ _ hc hparse hres hnew]
  · rw [hstr]
    have e1 : str "Assortment.aspx?" = str "Assortment.aspx" ++ str "?" := by decide
    rw [e1]
    simp only [List.append_assoc]

/-- C5, amended: the relative reference is resolved against the base address by the
rules of RFC 3986, so it takes the place of the last element of the base path. For a
client with a transport and a base address `B` that has a scheme in lower case, no user
information, a host that is a name with or without a port, and a path that needs no
escaping, is empty or starts with a slash and has no `.` and `..` elements, `Articles`
hands a request to the transport, and the URL of that request is the scheme, `://`, the
host, the directory of the path of `B` (the path up to and with its last slash, `/` for
an empty path) and `Assortment.aspx?Format=Xml`; `Stores` does the same with
`Assortment.aspx?butikerombud=1`. -/
theorem request_url_resolved (c : Client) (h : http.Client) (B : url.URL)
    (hc : c.httpClient = some h) (hb : c.BaseURL = some B) (hB : url.PlainBase B) :
    (∃ req, (c.Articles).2.sent = some req ∧
        req.URL = { Scheme := B.Scheme, Host := B.Host,
                    Path := url.dir B.Path ++ str "Assortment.aspx",
                    RawQuery := str "Format=Xml" } ∧
        req.URL.String = B.Scheme ++ str "://" ++ B.Host ++ url.dir B.Path ++
          str "Assortment.aspx?Format=Xml" ∧
        req.Host = B.Host) ∧
      (∃ req, (c.Stores).2.sent = some req ∧
        req.URL = { Scheme := B.Scheme, Host := B.Host,
                    Path := url.dir B.Path ++ str "Assortment.aspx",
                    RawQuery := str "butikerombud=1" } ∧
        req.URL.String = B.Scheme ++ str "://" ++ B.Host ++ url.dir B.Path ++
          str "Assortment.aspx?butikerombud=1" ∧
        req.Host = B.Host) := by
  have hA := get_sent_plain c h B hc hb hB (str "Assortment.aspx?Format=Xml") (str "Format=Xml")
    (by decide) (by rfl)
  have hS := get_sent_plain c h B hc hb hB (str "Assortment.aspx?butikerombud=1")
    (str "butikerombud=1") (by decide) (by rfl)
  have hAs : str "Assortment.aspx?" ++ str "Format=Xml" = str "Assortment.aspx?Format=Xml" := by
    decide
  have hSs : str "Assortment.aspx?" ++ str "butikerombud=1" =
      str "Assortment.aspx?butikerombud=1" := by decide
  rw [hAs] at hA
  rw [hSs] at hS
  have hAsent := hA.1
  have hSsent := hS.1
  rw [← fetch_sent c _ articlesFields {}, ← Articles_eq_fetch] at hAsent
  rw [← fetch_sent c _ storesFields {}, ← Stores_eq_fetch] at hSsent
  exact ⟨⟨_, hAsent, rfl, hA.2, rfl⟩, ⟨_, hSsent, rfl, hS.2, rfl⟩⟩

/-- C5 amended, at the default base address: the two URLs of the claim; and at the
address `http://127.0.0.1:8080/mock/v1` of a mock server. -/
theorem request_url_resolved_witness :
    (((NewClient (exampleTransport 200 xml.Source.empty) none).Articles).2.sent.map
          (fun req => req.URL.String) =
        some (str "http://www.systembolaget.se/Assortment.aspx?Format=Xml") ∧
      ((NewClient (exampleTransport 200 xml.Source.empty) none).Stores).2.sent.map
          (fun req => req.URL.String) =
        some (str "http://www.systembolaget.se/Assortment.aspx?butikerombud=1")) ∧
      (url.Parse (str "http://127.0.0.1:8080/mock/v1") = .ok mockBase ∧
        ((clientAt mockBase).Articles).2.sent.map (fun req => req.URL.String) =
          some (str "http://127.0.0.1:8080/mock/Assortment.aspx?Format=Xml") ∧
        ((clientAt mockBase).Stores).2.sent.map (fun req => req.URL.String) =
          some (str "http://127.0.0.1:8080/mock/Assortment.aspx?butikerombud=1")) :=
  have h := request_url_resolved (NewClient (exampleTransport 200 xml.Source.empty) none)
    (exampleTransport 200 xml.Source.empty)
    { Scheme := str "http", Host := str "www.systembolaget.se", Path := str "/" }
    rfl (by decide!)
    ⟨by decide, by decide, by decide, by decide, by decide, by decide, by decide⟩
  have m := request_url_resolved (clientAt mockBase) (exampleTransport 200 xml.Source.empty)
    mockBase rfl rfl
    ⟨by decide, by decide, by decide, by decide, by decide, by decide, by decide⟩
  ⟨⟨by
      obtain ⟨req, hs, -, hstr, -⟩ := h.1
      rw [hs, Option.map_some', hstr]
      decide,
    by
      obtain ⟨req, hs, -, hstr, -⟩ := h.2
      rw [hs, Option.map_some', hstr]
      decide⟩,
   ⟨by rfl,
    by
      obtain ⟨req, hs, -, hstr, -⟩ := m.1
      rw [hs, Option.map_some', hstr]
      decide,
    by
      obtain ⟨req, hs, -, hstr, -⟩ := m.2
      rw [hs, Option.map_some', hstr]
      decide⟩⟩

/-- C5 as stated fails: with the base address `http://example.com/api/v1` the URL that
`Articles` requests is `http://example.com/api/Assortment.aspx?Format=Xml`, which is
not the base address followed by `/Assortment.aspx?Format=Xml`; and with the default
base address, which ends in a slash, the base address followed by
`/Assortment.aspx?Format=Xml` has two slashes where the requested URL has one. The
scheme, the host and the directory of the path do not give the requested URL for every
base address either: not without a transport (nothing is requested), with an empty port
(`NewRequest` removes it), with a port that is no number (nothing is requested), with a
scheme in upper case, with user information, with a `..` element, with a path that
needs escaping, or with a path that does not start with a slash. -/
theorem request_url_not_base_followed_by_path :
    (url.Parse (str "http://example.com/api/v1") = .ok exampleBase ∧
      exampleBase.String = str "http://example.com/api/v1" ∧
      (exampleClient.Articles).2.sent.map (fun req => req.URL.String) =
        some (str "http://example.com/api/Assortment.aspx?Format=Xml") ∧
      (exampleClient.Articles).2.sent.map (fun req => req.URL.String) ≠
        some (exampleBase.String ++ str "/Assortment.aspx?Format=Xml") ∧
      ((NewClient (exampleTransport 200 xml.Source.empty) none).Articles).2.sent.map
          (fun req => req.URL.String) ≠
        some (baseURL ++ str "/Assortment.aspx?Format=Xml")) ∧
      ((({ clientAt exampleBase with httpClient := none } : Client).Articles).1 = .panic ∧
        (({ clientAt exampleBase with httpClient := none } : Client).Articles).2.sent = none) ∧
      (url.Parse (str "http://example.com:/api/") =
          .ok { Scheme := str "http", Host := str "example.com:", Path := str "/api/" } ∧
        ((clientAt { Scheme := str "http", Host := str "example.com:",
                     Path := str "/api/" }).Articles).2.sent.map
            (fun req => req.URL.String) =
          some (str "http://example.com/api/Assortment.aspx?Format=Xml")) ∧
      (((clientAt { Scheme := str "http", Host := str "a:b",
                    Path := str "/" }).Articles).2.sent = none ∧
        ((clientAt { Scheme := str "http", Host := str "a:b", Path := str "/" }).Articles).1 =
          .ret none (some (.urlError (str "parse")
            (str "http://a:b/Assortment.aspx?Format=Xml") (.invalidPort (str ":b"))))) ∧
      ((clientAt { Scheme := str "HTTP", Host := str "example.com",
                   Path := str "/" }).Articles).2.sent.map (fun req => req.URL.String) =
        some (str "http://example.com/Assortment.aspx?Format=Xml") ∧
      (url.Parse (str "http://user@example.com/") =
          .ok { Scheme := str "http", User := some ⟨str "user", [], false⟩,
                Host := str "example.com", Path := str "/" } ∧
        ((clientAt { Scheme := str "http", User := some ⟨str "user", [], false⟩,
                     Host := str "example.com", Path := str "/" }).Articles).2.sent.map
            (fun req => req.URL.String) =
          some (str "http://user@example.com/Assortment.aspx?Format=Xml")) ∧
      (url.Parse (str "http://example.com/x/../y/z") =
          .ok { Scheme := str "http", Host := str "example.com", Path := str "/x/../y/z" } ∧
        ((clientAt { Scheme := str "http", Host := str "example.com",
                     Path := str "/x/../y/z" }).Articles).2.sent.map
            (fun req => req.URL.String) =
          some (str "http://example.com/y/Assortment.aspx?Format=Xml")) ∧
      (url.Parse (str "http://example.com/a%20b/") =
          .ok { Scheme := str "http", Host := str "example.com", Path := str "/a b/" } ∧
        ((clientAt { Scheme := str "http", Host := str "example.com",
                     Path := str "/a b/" }).Articles).2.sent.map
            (fun req => req.URL.String) =
          some (str "http://example.com/a%20b/Assortment.aspx?Format=Xml")) ∧
      ((clientAt { Scheme := str "http", Host := str "example.com",
                   Path := str "api/" }).Articles).2.sent.map (fun req => req.URL.String) =
        some (str "http://example.com/api/Assortment.aspx?Format=Xml") := by
  refine ⟨⟨by rfl, ?_, ?_, ?_, ?_⟩, ⟨?_, ?_⟩, ⟨by rfl, ?_⟩, ⟨?_, ?_⟩, ?_, ⟨by rfl, ?_⟩,
    ⟨by rfl, ?_⟩, ⟨by rfl, ?_⟩, ?_⟩ <;> decide!

end RequestURL

section Trees

open xml

theorem tokensList_append (xs ys : List Node) :
    tokensList (xs ++ ys) = tokensList xs ++ tokensList ys := by
  induction xs with
  | nil => rfl
  | cons x xs ih => simp [tokensList, ih]

theorem Token_start (name : Name) (attr : List Attr) (rest : List Token) (fin : GoError)
    (stk : List Name) :
    Decoder.Token ⟨⟨.StartElement name attr :: rest, fin⟩, stk⟩ =
      .ok (.StartElement name attr, ⟨⟨rest, fin⟩, name :: stk⟩) := rfl

theorem Token_end (name : Name) (rest : List Token) (fin : GoError) (stk : List Name) :
    Decoder.Token ⟨⟨.EndElement name :: rest, fin⟩, name :: stk⟩ =
      .ok (.EndElement name, ⟨⟨rest, fin⟩, stk⟩) := by
  simp [Decoder.Token]

mutual
/-- Skipping passes over a whole node with the depth counter as it was. -/
theorem Skip_node : ∀ (n : Node) (k depth : Nat) (r : List Token) (fin : GoError)
    (stk : List Name),
    Skip (n.tokens.length + k) depth ⟨⟨n.tokens ++ r, fin⟩, stk⟩ =
      Skip k depth ⟨⟨r, fin⟩, stk⟩
  | .elem name attr kids, k, depth, r, fin, stk => by
    have h1 : (Node.elem name attr kids).tokens.length + k =
        ((tokensList kids).length + (k + 1)) + 1 := by
      simp [Node.tokens]; omega
    have h2 : (Node.elem name attr kids).tokens ++ r =
        .StartElement name attr :: (tokensList kids ++ (.EndElement name :: r)) := by
      simp [Node.tokens]
    rw [h1, h2, Skip, Token_start]
    simp only
    rw [Skip_list kids (k + 1) (depth + 1) _ fin (name :: stk), Skip, Token_end]
    simp
  | .text data, k, depth, r, fin, stk => by
    simp only [Node.tokens, List.length_singleton, List.singleton_append]
    rw [Nat.add_comm 1 k, Skip]
    rfl
  | .comment data, k, depth, r, fin, stk => by
    simp only [Node.tokens, List.length_singleton, List.singleton_append]
    rw [Nat.add_comm 1 k, Skip]
    rfl
  | .procInst target inst, k, depth, r, fin, stk => by
    simp only [Node.tokens, List.length_singleton, List.singleton_append]
    rw [Nat.add_comm 1 k, Skip]
    rfl
  | .directive data, k, depth, r, fin, stk => by
    simp only [Node.tokens, List.length_singleton, List.singleton_append]
    rw [Nat.add_comm 1 k, Skip]
    rfl
/-- Skipping passes over a sequence of whole nodes. -/
theorem Skip_list : ∀ (ns : List Node) (k depth : Nat) (r : List Token) (fin : GoError)
    (stk : List Name),
    Skip ((tokensList ns).length + k) depth ⟨⟨tokensList ns ++ r, fin⟩, stk⟩ =
      Skip k depth ⟨⟨r, fin⟩, stk⟩
  | [], k, depth, r, fin, stk => by simp [tokensList]
  | n :: ns, k, depth, r, fin, stk => by
    have h1 : (tokensList (n :: ns)).length + k =
        n.tokens.length + ((tokensList ns).length + k) := by
      simp [tokensList]; omega
    have h2 : tokensList (n :: ns) ++ r = n.tokens ++ (tokensList ns ++ r) := by
      simp [tokensList]
    rw [h1, h2, Skip_node n, Skip_list ns]
end

/-- `Skip` after a start tag reads the children and the end tag. -/
theorem Skip_elem (kids : List Node) (fuel : Nat) (name : Name) (r : List Token)
    (fin : GoError) (stk : List Name) (h : (tokensList kids).length + 1 ≤ fuel) :
    Skip fuel 0 ⟨⟨tokensList kids ++ .EndElement name :: r, fin⟩, name :: stk⟩ =
      .ok () ⟨⟨r, fin⟩, stk⟩ := by
  obtain ⟨k, rfl⟩ := Nat.exists_eq_add_of_le h
  rw [Nat.add_assoc, Skip_list kids (1 + k) 0 _ fin (name :: stk), Nat.add_comm 1 k, Skip,
    Token_end]
  simp

theorem unmarshalString_sem : ∀ (kids : List Node) (fuel : Nat) (data : GoString)
    (name : Name) (r : List Token) (fin : GoError) (stk : List Name),
    (tokensList kids).length + 1 ≤ fuel →
      unmarshalString fuel data ⟨⟨tokensList kids ++ .EndElement name :: r, fin⟩, name :: stk⟩ =
        .ok (data ++ directText kids) ⟨⟨r, fin⟩, stk⟩
  | [], fuel, data, name, r, fin, stk, h => by
    obtain ⟨k, rfl⟩ := Nat.exists_eq_add_of_le h
    simp only [tokensList, List.length_nil, Nat.zero_add, List.nil_append]
    rw [Nat.add_comm 1 k, unmarshalString, Token_end]
    simp [directText]
  | kid :: kids, fuel, data, name, r, fin, stk, h => by
    cases fuel with
    | zero => omega
    | succ fuel =>
      have hlen : (tokensList (kid :: kids)).length =
          kid.tokens.length + (tokensList kids).length := by simp [tokensList]
      rw [hlen] at h
      cases kid with
      | elem n attr kk =>
        have hk : (Node.elem n attr kk).tokens.length = (tokensList kk).length + 2 := by
          simp [Node.tokens]
        rw [hk] at h
        have h2 : tokensList (Node.elem n attr kk :: kids) ++ .EndElement name :: r =
            .StartElement n attr :: (tokensList kk ++ .EndElement n ::
              (tokensList kids ++ .EndElement name :: r)) := by
          simp [tokensList, Node.tokens]
        rw [h2, unmarshalString, Token_start]
        simp only
        rw [Skip_elem kk fuel n _ fin (name :: stk) (by omega)]
        simp only
        rw [unmarshalString_sem kids fuel data name r fin stk (by omega)]
        simp [directText]
      | text t =>
        have hk : (Node.text t).tokens.length = 1 := rfl
        rw [hk] at h
        have h2 : tokensList (Node.text t :: kids) ++ .EndElement name :: r =
            .CharData t :: (tokensList kids ++ .EndElement name :: r) := by
          simp [tokensList, Node.tokens]
        rw [h2, unmarshalString]
        simp only [Decoder.Token]
        rw [unmarshalString_sem kids fuel (data ++ t) name r fin stk (by omega)]
        simp [directText]
      | comment t =>
        have hk : (Node.comment t).tokens.length = 1 := rfl
        rw [hk] at h
        have h2 : tokensList (Node.comment t :: kids) ++ .EndElement name :: r =
            .Comment t :: (tokensList kids ++ .EndElement name :: r) := by
          simp [tokensList, Node.tokens]
        rw [h2, unmarshalString]
        simp only [Decoder.Token]
        rw [unmarshalString_sem kids fuel data name r fin stk (by omega)]
        simp [directText]
      | procInst t i =>
        have hk : (Node.procInst t i).tokens.length = 1 := rfl
        rw [hk] at h
        have h2 : tokensList (Node.procInst t i :: kids) ++ .EndElement name :: r =
            .ProcInst t i :: (tokensList kids ++ .EndElement name :: r) := by
          simp [tokensList, Node.tokens]
        rw [h2, unmarshalString]
        simp only [Decoder.Token]
        rw [unmarshalString_sem kids fuel data name r fin stk (by omega)]
        simp [directText]
      | directive t =>
        have hk : (Node.directive t).tokens.length = 1 := rfl
        rw [hk] at h
        have h2 : tokensList (Node.directive t :: kids) ++ .EndElement name :: r =
            .Directive t :: (tokensList kids ++ .EndElement name :: r) := by
          simp [tokensList, Node.tokens]
        rw [h2, unmarshalString]
        simp only [Decoder.Token]
        rw [unmarshalString_sem kids fuel data name r fin stk (by omega)]
        simp [directText]

theorem stringSpec_sound {σ : Type} (parents : List GoString) (name : GoString)
    (set : σ → GoString → σ) : (stringSpec parents name set).Sound := by
  intro fuel kids nm r fin stk sv h
  simp only [stringSpec, stringField]
  rw [unmarshalString_sem kids fuel [] nm r fin stk h]
  simp

theorem findField_map {σ : Type} (parents : List GoString) (lcl : GoString) :
    ∀ (specs : List (FieldSpec σ)),
      findField parents lcl (specs.map (·.info)) =
        match findSpec parents lcl specs with
        | .perfect fs => .perfect fs.info
        | .recurse p => .recurse p
        | .nothing => .nothing := by
  intro specs
  induction specs with
  | nil => rfl
  | cons f fs ih =>
    simp only [List.map_cons, findField, findSpec]
    split
    · exact ih
    · split
      · exact ih
      · split
        · rfl
        · split
          · rfl
          · exact ih

theorem findSpec_no_recurse {σ : Type} (parents : List GoString) (lcl : GoString) :
    ∀ (specs : List (FieldSpec σ)),
      (∀ fs ∈ specs, fs.info.parents.length ≤ parents.length) →
        ∀ p, findSpec parents lcl specs ≠ .recurse p := by
  intro specs
  induction specs with
  | nil => intro _ p; simp [findSpec]
  | cons f fs ih =>
    intro h p
    have hf := h f (List.mem_cons_self _ _)
    have hfs := ih (fun x hx => h x (List.mem_cons_of_mem _ hx)) p
    simp only [findSpec]
    split
    · exact hfs
    · split
      · exact hfs
      · split
        · simp
        · split
          · rename_i hgt
            omega
          · exact hfs

theorem findSpec_mem {σ : Type} (parents : List GoString) (lcl : GoString) :
    ∀ (specs : List (FieldSpec σ)) (f : FieldSpec σ),
      findSpec parents lcl specs = .perfect f → f ∈ specs := by
  intro specs
  induction specs with
  | nil => intro f h; simp [findSpec] at h
  | cons g gs ih =>
    intro f h
    unfold findSpec at h
    split at h
    · exact List.mem_cons_of_mem _ (ih f h)
    · split at h
      · exact List.mem_cons_of_mem _ (ih f h)
      · split at h
        · simp only [FoundSpec.perfect.injEq] at h
          rw [← h]
          exact List.mem_cons_self _ _
        · split at h
          · simp at h
          · exact List.mem_cons_of_mem _ (ih f h)

theorem findSpec_recurse_length {σ : Type} (lcl : GoString) :
    ∀ (specs : List (FieldSpec σ)) (p : List GoString),
      findSpec [] lcl specs = .recurse p → p.length = 1 := by
  intro specs
  induction specs with
  | nil => intro p h; simp [findSpec] at h
  | cons g gs ih =>
    intro p h
    unfold findSpec at h
    split at h
    · exact ih p h
    · split at h
      · exact ih p h
      · split at h
        · simp at h
        · split at h
          · rename_i hgt
            simp only [FoundSpec.recurse.injEq] at h
            rw [← h]
            simp only [List.length_nil, Nat.zero_add, List.length_take]
            have := hgt.1
            simp only [List.length_nil] at this
            omega
          · exact ih p h

theorem tokens_not_elem (kid : Node) (h : kid.isElem = false) :
    ∃ t, kid.tokens = [t] ∧
      ∀ (rest : List Token) (fin : GoError) (stk : List Name),
        Decoder.Token ⟨⟨t :: rest, fin⟩, stk⟩ = .ok (t, ⟨⟨rest, fin⟩, stk⟩) ∧
        (∀ n a, t ≠ .StartElement n a) ∧ (∀ n, t ≠ .EndElement n) := by
  cases kid with
  | elem n a kk => simp [Node.isElem] at h
  | text t => exact ⟨_, rfl, fun _ _ _ => ⟨rfl, by simp, by simp⟩⟩
  | comment t => exact ⟨_, rfl, fun _ _ _ => ⟨rfl, by simp, by simp⟩⟩
  | procInst t i => exact ⟨_, rfl, fun _ _ _ => ⟨rfl, by simp, by simp⟩⟩
  | directive t => exact ⟨_, rfl, fun _ _ _ => ⟨rfl, by simp, by simp⟩⟩

theorem semInner_not_elem {σ : Type} (specs : List (FieldSpec σ)) (p : List GoString)
    (sv : σ) (kid : Node) (h : kid.isElem = false) : semInner specs p sv kid = sv := by
  cases kid <;> first | rfl | simp [Node.isElem] at h

theorem semKid_not_elem {σ : Type} (specs : List (FieldSpec σ)) (sv : σ) (kid : Node)
    (h : kid.isElem = false) : semKid specs sv kid = sv := by
  cases kid <;> first | rfl | simp [Node.isElem] at h

/-- The final loop of `unmarshalPath` inside a parent element does what `semInner`
tells for each child. -/
theorem pathLoop_sem {σ : Type} (specs : List (FieldSpec σ))
    (hs : ∀ fs ∈ specs, fs.Sound) (p1 : List GoString)
    (hlen : ∀ fs ∈ specs, fs.info.parents.length ≤ p1.length) :
    ∀ (kids : List Node) (fuel : Nat) (start : Name) (sv : σ) (name : Name)
      (r : List Token) (fin : GoError) (stk : List Name),
      (tokensList kids).length + 1 ≤ fuel →
        unmarshalPath (specs.map (·.info)) fuel true p1 start sv
            ⟨⟨tokensList kids ++ .EndElement name :: r, fin⟩, name :: stk⟩ =
          .ok (true, kids.foldl (semInner specs p1) sv) ⟨⟨r, fin⟩, stk⟩ := by
  intro kids
  induction kids with
  | nil =>
    intro fuel start sv name r fin stk h
    obtain ⟨k, rfl⟩ := Nat.exists_eq_add_of_le h
    simp only [tokensList, List.length_nil, Nat.zero_add, List.nil_append]
    rw [Nat.add_comm 1 k, unmarshalPath, Token_end]
    rfl
  | cons kid kids ih =>
    intro fuel start sv name r fin stk h
    cases fuel with
    | zero => omega
    | succ fuel =>
      have hlen2 : (tokensList (kid :: kids)).length =
          kid.tokens.length + (tokensList kids).length := by simp [tokensList]
      rw [hlen2] at h
      cases hk : kid.isElem with
      | false =>
        obtain ⟨t, ht, hT⟩ := tokens_not_elem kid hk
        have h2 : tokensList (kid :: kids) ++ .EndElement name :: r =
            t :: (tokensList kids ++ .EndElement name :: r) := by
          simp [tokensList, ht]
        rw [ht] at h
        rw [h2, unmarshalPath, (hT _ fin (name :: stk)).1]
        have hcont := ih fuel start sv name r fin stk (by simp only [List.length_singleton] at h; omega)
        rw [List.foldl_cons, semInner_not_elem specs p1 sv kid hk, ← hcont]
        cases t with
        | StartElement n a => exact absurd rfl ((hT [] fin []).2.1 n a)
        | EndElement n => exact absurd rfl ((hT [] fin []).2.2 n)
        | _ => rfl
      | true =>
        cases kid with
        | elem n attr kk =>
          have hkl : (Node.elem n attr kk).tokens.length = (tokensList kk).length + 2 := by
            simp [Node.tokens]
          rw [hkl] at h
          have h2 : tokensList (Node.elem n attr kk :: kids) ++ .EndElement name :: r =
              .StartElement n attr :: (tokensList kk ++ .EndElement n ::
                (tokensList kids ++ .EndElement name :: r)) := by
            simp [tokensList, Node.tokens]
          rw [h2, unmarshalPath, Token_start]
          simp only
          cases fuel with
          | zero => omega
          | succ fuel =>
            rw [unmarshalPath, findField_map]
            rw [List.foldl_cons]
            have hcont : ∀ sv1, unmarshalPath (specs.map (·.info)) (fuel + 1) true p1 start sv1
                ⟨⟨tokensList kids ++ .EndElement name :: r, fin⟩, name :: stk⟩ =
                .ok (true, kids.foldl (semInner specs p1) sv1) ⟨⟨r, fin⟩, stk⟩ :=
              fun sv1 => ih (fuel + 1) start sv1 name r fin stk (by omega)
            cases hf : findSpec p1 n.Local specs with
            | perfect fs =>
              simp only
              rw [hs fs (findSpec_mem _ _ _ _ hf) fuel kk n _ fin (name :: stk) sv (by omega)]
              simp only
              rw [hcont]
              simp [semInner, hf]
            | recurse p => exact absurd hf (findSpec_no_recurse p1 n.Local specs hlen p)
            | nothing =>
              simp only
              rw [Skip_elem kk (fuel + 1) n _ fin (name :: stk) (by omega)]
              simp only
              rw [hcont]
              simp [semInner, hf]
        | _ => simp [Node.isElem] at hk

/-- `unmarshal` into a struct does, on the children of its element, what `semStruct`
tells. -/
theorem unmarshalStruct_sem {σ : Type} (specs : List (FieldSpec σ))
    (hs : ∀ fs ∈ specs, fs.Sound)
    (hlen : ∀ fs ∈ specs, fs.info.parents.length ≤ 1) :
    ∀ (kids : List Node) (fuel : Nat) (sv : σ) (name : Name)
      (r : List Token) (fin : GoError) (stk : List Name),
      (tokensList kids).length + 1 ≤ fuel →
        unmarshalStruct (specs.map (·.info)) fuel sv
            ⟨⟨tokensList kids ++ .EndElement name :: r, fin⟩, name :: stk⟩ =
          .ok (semStruct specs kids sv) ⟨⟨r, fin⟩, stk⟩ := by
  intro kids
  induction kids with
  | nil =>
    intro fuel sv name r fin stk h
    obtain ⟨k, rfl⟩ := Nat.exists_eq_add_of_le h
    simp only [tokensList, List.length_nil, Nat.zero_add, List.nil_append]
    rw [Nat.add_comm 1 k, unmarshalStruct, Token_end]
    rfl
  | cons kid kids ih =>
    intro fuel sv name r fin stk h
    cases fuel with
    | zero => omega
    | succ fuel =>
      have hlen2 : (tokensList (kid :: kids)).length =
          kid.tokens.length + (tokensList kids).length := by simp [tokensList]
      rw [hlen2] at h
      cases hk : kid.isElem with
      | false =>
        obtain ⟨t, ht, hT⟩ := tokens_not_elem kid hk
        have h2 : tokensList (kid :: kids) ++ .EndElement name :: r =
            t :: (tokensList kids ++ .EndElement name :: r) := by
          simp [tokensList, ht]
        rw [ht] at h
        rw [h2, unmarshalStruct, (hT _ fin (name :: stk)).1]
        have hcont := ih fuel sv name r fin stk (by simp only [List.length_singleton] at h; omega)
        unfold semStruct at hcont ⊢
        rw [List.foldl_cons, semKid_not_elem specs sv kid hk, ← hcont]
        cases t with
        | StartElement n a => exact absurd rfl ((hT [] fin []).2.1 n a)
        | EndElement n => exact absurd rfl ((hT [] fin []).2.2 n)
        | _ => rfl
      | true =>
        cases kid with
        | elem n attr kk =>
          have hkl : (Node.elem n attr kk).tokens.length = (tokensList kk).length + 2 := by
            simp [Node.tokens]
          rw [hkl] at h
          have h2 : tokensList (Node.elem n attr kk :: kids) ++ .EndElement name :: r =
              .StartElement n attr :: (tokensList kk ++ .EndElement n ::
                (tokensList kids ++ .EndElement name :: r)) := by
            simp [tokensList, Node.tokens]
          rw [h2, unmarshalStruct, Token_start]
          simp only
          cases fuel with
          | zero => omega
          | succ fuel =>
            rw [unmarshalPath, findField_map]
            unfold semStruct
            rw [List.foldl_cons]
            have hcont : ∀ sv1, unmarshalStruct (specs.map (·.info)) (fuel + 1) sv1
                ⟨⟨tokensList kids ++ .EndElement name :: r, fin⟩, name :: stk⟩ =
                .ok (kids.foldl (semKid specs) sv1) ⟨⟨r, fin⟩, stk⟩ :=
              fun sv1 => ih (fuel + 1) sv1 name r fin stk (by omega)
            cases hf : findSpec [] n.Local specs with
            | perfect fs =>
              simp only
              rw [hs fs (findSpec_mem _ _ _ _ hf) fuel kk n _ fin (name :: stk) sv (by omega)]
              simp only
              rw [hcont]
              simp [semKid, hf]
            | recurse p =>
              simp only
              have hp := findSpec_recurse_length n.Local specs p hf
              rw [pathLoop_sem specs hs p (by rw [hp]; exact hlen) kk fuel n sv n _ fin
                (name :: stk) (by omega)]
              simp only
              rw [hcont]
              simp [semKid, hf]
            | nothing =>
              simp only
              rw [Skip_elem kk (fuel + 1) n _ fin (name :: stk) (by omega)]
              simp only
              rw [hcont]
              simp [semKid, hf]
        | _ => simp [Node.isElem] at hk

theorem sliceSpec_sound {σ τ : Type} (name : GoString) (elemSpecs : List (FieldSpec τ))
    (zero : τ) (append : σ → τ → σ) (hs : ∀ fs ∈ elemSpecs, fs.Sound)
    (hlen : ∀ fs ∈ elemSpecs, fs.info.parents.length ≤ 1) :
    (sliceSpec name elemSpecs zero append).Sound := by
  intro fuel kids nm r fin stk sv h
  simp only [sliceSpec, sliceField]
  rw [unmarshalStruct_sem elemSpecs hs hlen kids fuel zero nm r fin stk h]

theorem articleFields_eq : articleFields = (lensSpecs articleLenses).map (·.info) := rfl

theorem storeFields_eq : storeFields = (lensSpecs storeLenses).map (·.info) := rfl

theorem articlesFields_eq : articlesFields = articlesSpecs.map (·.info) := rfl

theorem storesFields_eq : storesFields = storesSpecs.map (·.info) := rfl

theorem lensSpecs_sound {σ : Type} (table : List (GoString × Lens σ)) :
    ∀ fs ∈ lensSpecs table, fs.Sound := by
  intro fs hfs
  simp only [lensSpecs, List.mem_map] at hfs
  obtain ⟨p, -, rfl⟩ := hfs
  exact stringSpec_sound _ _ _

theorem lensSpecs_flat {σ : Type} (table : List (GoString × Lens σ)) :
    ∀ fs ∈ lensSpecs table, fs.info.parents.length ≤ 1 := by
  intro fs hfs
  simp only [lensSpecs, List.mem_map] at hfs
  obtain ⟨p, -, rfl⟩ := hfs
  simp [stringSpec, stringField]

theorem articlesSpecs_sound : ∀ fs ∈ articlesSpecs, fs.Sound := by
  intro fs hfs
  simp only [articlesSpecs, List.mem_cons, List.mem_singleton, List.not_mem_nil, or_false] at hfs
  rcases hfs with h | h | h <;> subst h
  · exact stringSpec_sound _ _ _
  · exact stringSpec_sound _ _ _
  · exact sliceSpec_sound _ _ _ _ (lensSpecs_sound _) (lensSpecs_flat _)

theorem storesSpecs_sound : ∀ fs ∈ storesSpecs, fs.Sound := by
  intro fs hfs
  simp only [storesSpecs, List.mem_cons, List.mem_singleton, List.not_mem_nil, or_false] at hfs
  rcases hfs with h | h <;> subst h
  · exact stringSpec_sound _ _ _
  · exact sliceSpec_sound _ _ _ _ (lensSpecs_sound _) (lensSpecs_flat _)

theorem articlesSpecs_depth : ∀ fs ∈ articlesSpecs, fs.info.parents.length ≤ 1 := by
  intro fs hfs
  simp only [articlesSpecs, List.mem_cons, List.mem_singleton, List.not_mem_nil, or_false] at hfs
  rcases hfs with h | h | h <;> subst h <;> simp [stringSpec, stringField, sliceSpec, sliceField]

theorem storesSpecs_depth : ∀ fs ∈ storesSpecs, fs.info.parents.length ≤ 1 := by
  intro fs hfs
  simp only [storesSpecs, List.mem_cons, List.mem_singleton, List.not_mem_nil, or_false] at hfs
  rcases hfs with h | h <;> subst h <;> simp [stringSpec, stringField, sliceSpec, sliceField]

theorem findStart_sem : ∀ (before : List Node), (∀ n ∈ before, n.isElem = false) →
    ∀ (fuel : Nat) (name : Name) (attr : List Attr) (rest : List Token) (fin : GoError)
      (stk : List Name), (tokensList before).length + 1 ≤ fuel →
      findStart fuel ⟨⟨tokensList before ++ .StartElement name attr :: rest, fin⟩, stk⟩ =
        .ok name ⟨⟨rest, fin⟩, name :: stk⟩ := by
  intro before
  induction before with
  | nil =>
    intro _ fuel name attr rest fin stk h
    obtain ⟨k, rfl⟩ := Nat.exists_eq_add_of_le h
    simp only [tokensList, List.length_nil, Nat.zero_add, List.nil_append]
    rw [Nat.add_comm 1 k, findStart, Token_start]
  | cons kid before ih =>
    intro hb fuel name attr rest fin stk h
    cases fuel with
    | zero => omega
    | succ fuel =>
      obtain ⟨t, ht, hT⟩ := tokens_not_elem kid (hb kid (List.mem_cons_self _ _))
      have h2 : tokensList (kid :: before) ++ .StartElement name attr :: rest =
          t :: (tokensList before ++ .StartElement name attr :: rest) := by
        simp [tokensList, ht]
      have hlen : (tokensList (kid :: before)).length = (tokensList before).length + 1 := by
        simp [tokensList, ht]
      rw [hlen] at h
      rw [h2, findStart, (hT _ fin stk).1]
      have hcont := ih (fun n hn => hb n (List.mem_cons_of_mem _ hn)) fuel name attr rest fin stk
        (by omega)
      rw [← hcont]
      cases t with
      | StartElement n a => exact absurd rfl ((hT [] fin []).2.1 n a)
      | _ => rfl

/-- Decoding a well-formed document into a struct gives what `semStruct` tells for
the children of the root element, whatever the root element is called. -/
theorem Decode_document {σ : Type} (specs : List (FieldSpec σ))
    (hs : ∀ fs ∈ specs, fs.Sound) (hlen : ∀ fs ∈ specs, fs.info.parents.length ≤ 1)
    (before : List Node) (hb : ∀ n ∈ before, n.isElem = false) (root : Name)
    (attr : List Attr) (kids : List Node) (after : List Token) (fin : GoError) (sv : σ) :
    Decode (specs.map (·.info)) sv (NewDecoder (document before root attr kids after fin)) =
      .ok (semStruct specs kids sv) ⟨⟨after, fin⟩, []⟩ := by
  have htoks : (document before root attr kids after fin).toks =
      tokensList before ++ .StartElement root attr ::
        (tokensList kids ++ .EndElement root :: after) := by
    simp [document, Node.tokens]
  have hlenT : (document before root attr kids after fin).toks.length =
      (tokensList before).length + (tokensList kids).length + after.length + 2 := by
    rw [htoks]
    simp only [List.length_append, List.length_cons]
    omega
  unfold Decode NewDecoder
  simp only [hlenT]
  have hd : (⟨document before root attr kids after fin, []⟩ : Decoder) =
      ⟨⟨tokensList before ++ .StartElement root attr ::
        (tokensList kids ++ .EndElement root :: after), fin⟩, []⟩ := by
    rw [← htoks]
    rfl
  rw [hd, findStart_sem before hb _ root attr _ fin [] (by omega)]
  simp only
  rw [unmarshalStruct_sem specs hs hlen kids _ sv root after fin [] (by omega)]

end Trees

section Fields

theorem findSpec_lensSpecs {σ : Type} (lcl : GoString) :
    ∀ (table : List (GoString × Lens σ)),
      findSpec [] lcl (lensSpecs table) =
        match table.find? (fun p => p.1 = lcl) with
        | some p => .perfect (stringSpec [] p.1 p.2.set)
        | none => .nothing := by
  intro table
  induction table with
  | nil => rfl
  | cons p ps ih =>
    simp only [lensSpecs, List.map_cons, findSpec, stringSpec, xml.stringField,
      List.length_nil, Nat.lt_irrefl, if_false, List.take_nil, ne_eq, not_true_eq_false,
      true_and, gt_iff_lt, false_and, List.find?_cons]
    by_cases hp : p.1 = lcl
    · simp [hp]
    · simp only [hp, if_false, decide_False]
      exact ih

theorem semKid_lensSpecs {σ : Type} (table : List (GoString × Lens σ)) (a : σ)
    (name : xml.Name) (attr : List xml.Attr) (kk : List Node) :
    semKid (lensSpecs table) a (.elem name attr kk) =
      match table.find? (fun p => p.1 = name.Local) with
      | some p => p.2.set a (directText kk)
      | none => a := by
  simp only [semKid, findSpec_lensSpecs]
  cases table.find? (fun p => p.1 = name.Local) <;> rfl

theorem lens_get_step {σ : Type} (table : List (GoString × Lens σ))
    (hnodup : (table.map (·.1)).Nodup)
    (hgs : ∀ p ∈ table, ∀ a s, p.2.get (p.2.set a s) = s)
    (hindep : ∀ p ∈ table, ∀ q ∈ table, p.1 ≠ q.1 → ∀ a s, p.2.get (q.2.set a s) = p.2.get a)
    (p : GoString × Lens σ) (hp : p ∈ table) (a : σ) (kid : Node) :
    p.2.get (semKid (lensSpecs table) a kid) =
      if kid.isNamed p.1 then directText kid.kids else p.2.get a := by
  cases kid with
  | elem name attr kk =>
    rw [semKid_lensSpecs]
    simp only [Node.isNamed, Node.kids, decide_eq_true_eq]
    cases hf : table.find? (fun q => q.1 = name.Local) with
    | some q =>
      have hq : q ∈ table := List.mem_of_find?_eq_some hf
      have hql : q.1 = name.Local := by simpa using List.find?_some hf
      simp only
      by_cases hpq : name.Local = p.1
      · have : q = p := by
          apply List.inj_on_of_nodup_map hnodup hq hp
          rw [hql, hpq]
        rw [this, hgs p hp, if_pos hpq]
      · rw [if_neg hpq]
        exact hindep p hp q hq (fun h => hpq (by rw [← hql, h])) a _
    | none =>
      simp only
      have hne : name.Local ≠ p.1 := by
        intro h
        have := List.find?_eq_none.1 hf p hp
        simp [h] at this
      rw [if_neg hne]
  | text t => rfl
  | comment t => rfl
  | procInst t i => rfl
  | directive t => rfl

/-- Each string field of a decoded struct is the text of the last child element that
its tag names, and is left as it was when there is none. -/
theorem lens_get_sem {σ : Type} (table : List (GoString × Lens σ))
    (hnodup : (table.map (·.1)).Nodup)
    (hgs : ∀ p ∈ table, ∀ a s, p.2.get (p.2.set a s) = s)
    (hindep : ∀ p ∈ table, ∀ q ∈ table, p.1 ≠ q.1 → ∀ a s, p.2.get (q.2.set a s) = p.2.get a)
    (p : GoString × Lens σ) (hp : p ∈ table) :
    ∀ (kids : List Node) (a : σ),
      p.2.get (semStruct (lensSpecs table) kids a) = textFrom (p.2.get a) p.1 kids := by
  intro kids
  induction kids with
  | nil => intro a; rfl
  | cons kid kids ih =>
    intro a
    unfold semStruct at ih ⊢
    rw [List.foldl_cons, ih, lens_get_step table hnodup hgs hindep p hp a kid]
    rfl

theorem articleLenses_nodup : (articleLenses.map (·.1)).Nodup := by decide!

theorem storeLenses_nodup : (storeLenses.map (·.1)).Nodup := by decide!

theorem articleLenses_get_set :
    ∀ p ∈ articleLenses, ∀ (a : Article) (s : GoString), p.2.get (p.2.set a s) = s := by
  simp [articleLenses]

theorem storeLenses_get_set :
    ∀ p ∈ storeLenses, ∀ (a : Store) (s : GoString), p.2.get (p.2.set a s) = s := by
  simp [storeLenses]

set_option maxHeartbeats 4000000 in
theorem articleLenses_indep :
    ∀ p ∈ articleLenses, ∀ q ∈ articleLenses, p.1 ≠ q.1 →
      ∀ (a : Article) (s : GoString), p.2.get (q.2.set a s) = p.2.get a := by
  simp [articleLenses]

set_option maxHeartbeats 4000000 in
theorem storeLenses_indep :
    ∀ p ∈ storeLenses, ∀ q ∈ storeLenses, p.1 ≠ q.1 →
      ∀ (a : Store) (s : GoString), p.2.get (q.2.set a s) = p.2.get a := by
  simp [storeLenses]

/-- Decoding the children of an element into `Article` gives the `Article` the element
stands for. -/
theorem semStruct_articleOf (kids : List Node) :
    semStruct (lensSpecs articleLenses) kids ({} : Article) = articleOf kids := by
  have key := lens_get_sem articleLenses articleLenses_nodup articleLenses_get_set articleLenses_indep
  have eta : ∀ a : Article, a = ⟨a.Number, a.ArticleId, a.ProductNumber, a.Name, a.SubName,
      a.Price, a.VolumeMl, a.PricePerLitre, a.SoldSince, a.DiscontinuedSince, a.ProductGroup,
      a.ContainerType, a.SealingType, a.Origin, a.OriginCountry, a.Producer, a.Distributer,
      a.AnnualVolume, a.TestAnnualValume, a.AlcoholPrecentage, a.Assortment, a.Organic, a.Kosher,
      a.PrimaryProducts⟩ := by
    intro a; cases a; rfl
  rw [eta (semStruct (lensSpecs articleLenses) kids {})]
  unfold articleOf textOf
  have hNumber : (semStruct (lensSpecs articleLenses) kids ({} : Article)).Number =
      textFrom [] (str "nr") kids :=
    key (str "nr", ⟨fun a => a.Number, fun a s => { a with Number := s }⟩)
      (by simp [articleLenses]) kids {}
  have hArticleId : (semStruct (lensSpecs articleLenses) kids ({} : Article)).ArticleId =
      textFrom [] (str "Artikelid") kids :=
    key (str "Artikelid", ⟨fun a => a.ArticleId, fun a s => { a with ArticleId := s }⟩)
      (by simp [articleLenses]) kids {}
  have hProductNumber : (semStruct (lensSpecs articleLenses) kids ({} : Article)).ProductNumber =
      textFrom [] (str "Varnummer") kids :=
    key (str "Varnummer", ⟨fun a => a.ProductNumber, fun a s => { a with ProductNumber := s }⟩)
      (by simp [articleLenses]) kids {}
  have hName : (semStruct (lensSpecs articleLenses) kids ({} : Article)).Name =
      textFrom [] (str "Namn") kids :=
    key (str "Namn", ⟨fun a => a.Name, fun a s => { a with Name := s }⟩)
      (by simp [articleLenses]) kids {}
  have hSubName : (semStruct (lensSpecs articleLenses) kids ({} : Article)).SubName =
      textFrom [] (str "Namn2") kids :=
    key (str "Namn2", ⟨fun a => a.SubName, fun a s => { a with SubName := s }⟩)
      (by simp [articleLenses]) kids {}
  have hPrice : (semStruct (lensSpecs articleLenses) kids ({} : Article)).Price =
      textFrom [] (str "Prisinklmoms") kids :=
    key (str "Prisinklmoms", ⟨fun a => a.Price, fun a s => { a with Price := s }⟩)
      (by simp [articleLenses]) kids {}
  have hVolumeMl : (semStruct (lensSpecs articleLenses) kids ({} : Article)).VolumeMl =
      textFrom [] (str "Volymiml") kids :=
    key (str "Volymiml", ⟨fun a => a.VolumeMl, fun a s => { a with VolumeMl := s }⟩)
      (by simp [articleLenses]) kids {}
  have hPricePerLitre : (semStruct (lensSpecs articleLenses) kids ({} : Article)).PricePerLitre =
      textFrom [] (str "PrisPerLiter") kids :=
    key (str "PrisPerLiter", ⟨fun a => a.PricePerLitre, fun a s => { a with PricePerLitre := s }⟩)
      (by simp [articleLenses]) kids {}
  have hSoldSince : (semStruct (lensSpecs articleLenses) kids ({} : Article)).SoldSince =
      textFrom [] (str "Saljstart") kids :=
    key (str "Saljstart", ⟨fun a => a.SoldSince, fun a s => { a with SoldSince := s }⟩)
      (by simp [articleLenses]) kids {}
  have hDiscontinuedSince : (semStruct (lensSpecs articleLenses) kids ({} : Article)).DiscontinuedSince =
      textFrom [] (str "Slutlev") kids :=
    key (str "Slutlev", ⟨fun a => a.DiscontinuedSince, fun a s => { a with DiscontinuedSince := s }⟩)
      (by simp [articleLenses]) kids {}
  have hProductGroup : (semStruct (lensSpecs articleLenses) kids ({} : Article)).ProductGroup =
      textFrom [] (str "Varugrupp") kids :=
    key (str "Varugrupp", ⟨fun a => a.ProductGroup, fun a s => { a with ProductGroup := s }⟩)
      (by simp [articleLenses]) kids {}
  have hContainerType : (semStruct (lensSpecs articleLenses) kids ({} : Article)).ContainerType =
      textFrom [] (str "Forpackning") kids :=
    key (str "Forpackning", ⟨fun a => a.ContainerType, fun a s => { a with ContainerType := s }⟩)
      (by simp [articleLenses]) kids {}
  have hSealingType : (semStruct (lensSpecs articleLenses) kids ({} : Article)).SealingType =
      textFrom [] (str "Forslutning") kids :=
    key (str "Forslutning", ⟨fun a => a.SealingType, fun a s => { a with SealingType := s }⟩)
      (by simp [articleLenses]) kids {}
  have hOrigin : (semStruct (lensSpecs articleLenses) kids ({} : Article)).Origin =
      textFrom [] (str "Ursprung") kids :=
    key (str "Ursprung", ⟨fun a => a.Origin, fun a s => { a with Origin := s }⟩)
      (by simp [articleLenses]) kids {}
  have hOriginCountry : (semStruct (lensSpecs articleLenses) kids ({} : Article)).OriginCountry =
      textFrom [] (str "Ursprunglandnamn") kids :=
    key (str "Ursprunglandnamn", ⟨fun a => a.OriginCountry, fun a s => { a with OriginCountry := s }⟩)
      (by simp [articleLenses]) kids {}
  have hProducer : (semStruct (lensSpecs articleLenses) kids ({} : Article)).Producer =
      textFrom [] (str "Producent") kids :=
    key (str "Producent", ⟨fun a => a.Producer, fun a s => { a with Producer := s }⟩)
      (by simp [articleLenses]) kids {}
  have hDistributer : (semStruct (lensSpecs articleLenses) kids ({} : Article)).Distributer =
      textFrom [] (str "Leverantor") kids :=
    key (str "Leverantor", ⟨fun a => a.Distributer, fun a s => { a with Distributer := s }⟩)
      (by simp [articleLenses]) kids {}
  have hAnnualVolume : (semStruct (lensSpecs articleLenses) kids ({} : Article)).AnnualVolume =
      textFrom [] (str "Argang") kids :=
    key (str "Argang", ⟨fun a => a.AnnualVolume, fun a s => { a with AnnualVolume := s }⟩)
      (by simp [articleLenses]) kids {}
  have hTestAnnualValume : (semStruct (lensSpecs articleLenses) kids ({} : Article)).TestAnnualValume =
      textFrom [] (str "Provadargang") kids :=
    key (str "Provadargang", ⟨fun a => a.TestAnnualValume, fun a s => { a with TestAnnualValume := s }⟩)
      (by simp [articleLenses]) kids {}
  have hAlcoholPrecentage : (semStruct (lensSpecs articleLenses) kids ({} : Article)).AlcoholPrecentage =
      textFrom [] (str "Alkoholhalt") kids :=
    key (str "Alkoholhalt", ⟨fun a => a.AlcoholPrecentage, fun a s => { a with AlcoholPrecentage := s }⟩)
      (by simp [articleLenses]) kids {}
  have hAssortment : (semStruct (lensSpecs articleLenses) kids ({} : Article)).Assortment =
      textFrom [] (str "Sortiment") kids :=
    key (str "Sortiment", ⟨fun a => a.Assortment, fun a s => { a with Assortment := s }⟩)
      (by simp [articleLenses]) kids {}
  have hOrganic : (semStruct (lensSpecs articleLenses) kids ({} : Article)).Organic =
      textFrom [] (str "Ekologisk") kids :=
    key (str "Ekologisk", ⟨fun a => a.Organic, fun a s => { a with Organic := s }⟩)
      (by simp [articleLenses]) kids {}
  have hKosher : (semStruct (lensSpecs articleLenses) kids ({} : Article)).Kosher =
      textFrom [] (str "Koscher") kids :=
    key (str "Koscher", ⟨fun a => a.Kosher, fun a s => { a with Kosher := s }⟩)
      (by simp [articleLenses]) kids {}
  have hPrimaryProducts : (semStruct (lensSpecs articleLenses) kids ({} : Article)).PrimaryProducts =
      textFrom [] (str "RavarorBeskrivning") kids :=
    key (str "RavarorBeskrivning", ⟨fun a => a.PrimaryProducts, fun a s => { a with PrimaryProducts := s }⟩)
      (by simp [articleLenses]) kids {}
  rw [hNumber, hArticleId, hProductNumber, hName, hSubName, hPrice, hVolumeMl, hPricePerLitre,
      hSoldSince, hDiscontinuedSince, hProductGroup, hContainerType, hSealingType, hOrigin,
      hOriginCountry, hProducer, hDistributer, hAnnualVolume, hTestAnnualValume,
      hAlcoholPrecentage, hAssortment, hOrganic, hKosher, hPrimaryProducts]

/-- Decoding the children of an element into `Store` gives the `Store` the element
stands for. -/
theorem semStruct_storeOf (kids : List Node) :
    semStruct (lensSpecs storeLenses) kids ({} : Store) = storeOf kids := by
  have key := lens_get_sem storeLenses storeLenses_nodup storeLenses_get_set storeLenses_indep
  have eta : ∀ a : Store, a = ⟨a.Number, a.Typ, a.Adress1, a.Adress2, a.Adress3, a.Adress4,
      a.Adress5, a.PhoneNumber, a.StoreType, a.Services, a.SearchWords, a.OpeningHours, a.RT90x,
      a.RT90y⟩ := by
    intro a; cases a; rfl
  rw [eta (semStruct (lensSpecs storeLenses) kids {})]
  unfold storeOf textOf
  have hNumber : (semStruct (lensSpecs storeLenses) kids ({} : Store)).Number =
      textFrom [] (str "Nr") kids :=
    key (str "Nr", ⟨fun a => a.Number, fun a s => { a with Number := s }⟩)
      (by simp [storeLenses]) kids {}
  have hTyp : (semStruct (lensSpecs storeLenses) kids ({} : Store)).Typ =
      textFrom [] (str "Typ") kids :=
    key (str "Typ", ⟨fun a => a.Typ, fun a s => { a with Typ := s }⟩)
      (by simp [storeLenses]) kids {}
  have hAdress1 : (semStruct (lensSpecs storeLenses) kids ({} : Store)).Adress1 =
      textFrom [] (str "Address1") kids :=
    key (str "Address1", ⟨fun a => a.Adress1, fun a s => { a with Adress1 := s }⟩)
      (by simp [storeLenses]) kids {}
  have hAdress2 : (semStruct (lensSpecs storeLenses) kids ({} : Store)).Adress2 =
      textFrom [] (str "Address2") kids :=
    key (str "Address2", ⟨fun a => a.Adress2, fun a s => { a with Adress2 := s }⟩)
      (by simp [storeLenses]) kids {}
  have hAdress3 : (semStruct (lensSpecs storeLenses) kids ({} : Store)).Adress3 =
      textFrom [] (str "Address3") kids :=
    key (str "Address3", ⟨fun a => a.Adress3, fun a s => { a with Adress3 := s }⟩)
      (by simp [storeLenses]) kids {}
  have hAdress4 : (semStruct (lensSpecs storeLenses) kids ({} : Store)).Adress4 =
      textFrom [] (str "Address4") kids :=
    key (str "Address4", ⟨fun a => a.Adress4, fun a s => { a with Adress4 := s }⟩)
      (by simp [storeLenses]) kids {}
  have hAdress5 : (semStruct (lensSpecs storeLenses) kids ({} : Store)).Adress5 =
      textFrom [] (str "Address5") kids :=
    key (str "Address5", ⟨fun a => a.Adress5, fun a s => { a with Adress5 := s }⟩)
      (by simp [storeLenses]) kids {}
  have hPhoneNumber : (semStruct (lensSpecs storeLenses) kids ({} : Store)).PhoneNumber =
      textFrom [] (str "Telefon") kids :=
    key (str "Telefon", ⟨fun a => a.PhoneNumber, fun a s => { a with PhoneNumber := s }⟩)
      (by simp [storeLenses]) kids {}
  have hStoreType : (semStruct (lensSpecs storeLenses) kids ({} : Store)).StoreType =
      textFrom [] (str "ButiksTyp") kids :=
    key (str "ButiksTyp", ⟨fun a => a.StoreType, fun a s => { a with StoreType := s }⟩)
      (by simp [storeLenses]) kids {}
  have hServices : (semStruct (lensSpecs storeLenses) kids ({} : Store)).Services =
      textFrom [] (str "Tjanster") kids :=
    key (str "Tjanster", ⟨fun a => a.Services, fun a s => { a with Services := s }⟩)
      (by simp [storeLenses]) kids {}
  have hSearchWords : (semStruct (lensSpecs storeLenses) kids ({} : Store)).SearchWords =
      textFrom [] (str "SokOrd") kids :=
    key (str "SokOrd", ⟨fun a => a.SearchWords, fun a s => { a with SearchWords := s }⟩)
      (by simp [storeLenses]) kids {}
  have hOpeningHours : (semStruct (lensSpecs storeLenses) kids ({} : Store)).OpeningHours =
      textFrom [] (str "Oppettider") kids :=
    key (str "Oppettider", ⟨fun a => a.OpeningHours, fun a s => { a with OpeningHours := s }⟩)
      (by simp [storeLenses]) kids {}
  have hRT90x : (semStruct (lensSpecs storeLenses) kids ({} : Store)).RT90x =
      textFrom [] (str "RT90x") kids :=
    key (str "RT90x", ⟨fun a => a.RT90x, fun a s => { a with RT90x := s }⟩)
      (by simp [storeLenses]) kids {}
  have hRT90y : (semStruct (lensSpecs storeLenses) kids ({} : Store)).RT90y =
      textFrom [] (str "RT90y") kids :=
    key (str "RT90y", ⟨fun a => a.RT90y, fun a s => { a with RT90y := s }⟩)
      (by simp [storeLenses]) kids {}
  rw [hNumber, hTyp, hAdress1, hAdress2, hAdress3, hAdress4, hAdress5, hPhoneNumber, hStoreType,
      hServices, hSearchWords, hOpeningHours, hRT90x, hRT90y]

end Fields

section Records

theorem findSpec_articles (lcl : GoString) :
    findSpec [] lcl articlesSpecs =
      if lcl = str "skapad-tid" then
        .perfect (stringSpec [] (str "skapad-tid") fun r s => { r with CreatedAt := s })
      else if lcl = str "info" then .recurse [str "info"]
      else if lcl = str "artikel" then
        .perfect (sliceSpec (str "artikel") (lensSpecs articleLenses) {} fun r a =>
          { r with Articles := r.Articles ++ [a] })
      else .nothing := by
  simp only [articlesSpecs, findSpec, stringSpec, sliceSpec, xml.stringField, xml.sliceField,
    List.length_nil, List.length_cons, List.length_singleton, Nat.lt_irrefl, if_false,
    List.take_nil, List.take_zero, ne_eq, not_true_eq_false, true_and, gt_iff_lt,
    false_and, Nat.not_lt_zero, Nat.zero_lt_one, Nat.one_ne_zero,
    List.get?_cons_zero, Option.some.injEq, zero_add, Nat.lt_one_iff, Nat.zero_ne_one,
    eq_comm (a := lcl)]
  split
  · rfl
  · split
    · rfl
    · rfl

theorem findSpec_articles_info (lcl : GoString) :
    findSpec [str "info"] lcl articlesSpecs =
      if lcl = str "meddelande" then
        .perfect (stringSpec [str "info"] (str "meddelande") fun r s =>
          { r with InfoMessage := s })
      else .nothing := by
  simp only [articlesSpecs, findSpec, stringSpec, sliceSpec, xml.stringField, xml.sliceField,
    List.length_nil, List.length_cons, List.length_singleton, Nat.lt_irrefl, if_false,
    if_true, List.take_nil, List.take_zero, ne_eq, not_true_eq_false, true_and, gt_iff_lt,
    false_and, Nat.not_lt_zero, Nat.zero_lt_one, Nat.one_ne_zero, zero_add,
    Nat.lt_one_iff, List.take_succ_cons, zero_lt_one, eq_comm (a := lcl)]

theorem semInner_articles_info (sv : Articles) (kid : Node) :
    (semInner articlesSpecs [str "info"] sv kid).Articles = sv.Articles := by
  cases kid with
  | elem name attr kk =>
    simp only [semInner, findSpec_articles_info]
    by_cases h : name.Local = str "meddelande"
    · rw [if_pos h]; rfl
    · rw [if_neg h]
  | _ => rfl

theorem foldl_semInner_articles (kids : List Node) : ∀ (sv : Articles),
    (kids.foldl (semInner articlesSpecs [str "info"]) sv).Articles = sv.Articles := by
  induction kids with
  | nil => intro sv; rfl
  | cons kid kids ih =>
    intro sv
    rw [List.foldl_cons, ih, semInner_articles_info]

theorem semKid_articles (sv : Articles) (kid : Node) :
    (semKid articlesSpecs sv kid).Articles =
      sv.Articles ++
        (if kid.isNamed (str "artikel") then [articleOf kid.kids] else []) := by
  cases kid with
  | elem name attr kk =>
    simp only [semKid, findSpec_articles, Node.isNamed, Node.kids, decide_eq_true_eq]
    by_cases h1 : name.Local = str "skapad-tid"
    · rw [h1, if_pos rfl, if_neg (by decide)]
      simp [stringSpec]
    · by_cases h2 : name.Local = str "info"
      · rw [h2, if_neg (by decide), if_pos rfl, if_neg (by decide)]
        simp only [List.append_nil]
        exact foldl_semInner_articles kk sv
      · by_cases h3 : name.Local = str "artikel"
        · rw [h3, if_neg (by decide), if_neg (by decide), if_pos rfl, if_pos rfl]
          simp only [sliceSpec, semStruct_articleOf]
        · rw [if_neg h1, if_neg h2, if_neg h3, if_neg h3]
          simp
  | _ => simp [semKid, Node.isNamed]

/-- The slice `Articles` after decoding: one `Article` for each `artikel` child of
the root element, in the order of the document. -/
theorem semStruct_articles (kids : List Node) : ∀ (sv : Articles),
    (semStruct articlesSpecs kids sv).Articles =
      sv.Articles ++ (kids.filter (Node.isNamed (str "artikel"))).map
        fun kid => articleOf kid.kids := by
  induction kids with
  | nil => intro sv; simp [semStruct]
  | cons kid kids ih =>
    intro sv
    unfold semStruct at ih ⊢
    rw [List.foldl_cons, ih, semKid_articles, List.filter_cons]
    cases kid.isNamed (str "artikel") <;> simp

theorem findSpec_stores (lcl : GoString) :
    findSpec [] lcl storesSpecs =
      if lcl = str "Info" then .recurse [str "Info"]
      else if lcl = str "ButikOmbud" then
        .perfect (sliceSpec (str "ButikOmbud") (lensSpecs storeLenses) {} fun r a =>
          { r with Stores := r.Stores ++ [a] })
      else .nothing := by
  simp only [storesSpecs, findSpec, stringSpec, sliceSpec, xml.stringField, xml.sliceField,
    List.length_nil, List.length_cons, List.length_singleton, Nat.lt_irrefl, if_false,
    List.take_nil, List.take_zero, ne_eq, not_true_eq_false, true_and, gt_iff_lt,
    false_and, Nat.not_lt_zero, Nat.zero_lt_one, Nat.one_ne_zero,
    List.get?_cons_zero, Option.some.injEq, zero_add, Nat.lt_one_iff, Nat.zero_ne_one,
    eq_comm (a := lcl)]
  split
  · rfl
  · rfl

theorem findSpec_stores_info (lcl : GoString) :
    findSpec [str "Info"] lcl storesSpecs =
      if lcl = str "Meddelande" then
        .perfect (stringSpec [str "Info"] (str "Meddelande") fun r s =>
          { r with InfoMessage := s })
      else .nothing := by
  simp only [storesSpecs, findSpec, stringSpec, sliceSpec, xml.stringField, xml.sliceField,
    List.length_nil, List.length_cons, List.length_singleton, Nat.lt_irrefl, if_false,
    if_true, List.take_nil, List.take_zero, ne_eq, not_true_eq_false, true_and, gt_iff_lt,
    false_and, Nat.not_lt_zero, Nat.zero_lt_one, Nat.one_ne_zero, zero_add,
    Nat.lt_one_iff, List.take_succ_cons, zero_lt_one, eq_comm (a := lcl)]

theorem semInner_stores_info (sv : Stores) (kid : Node) :
    (semInner storesSpecs [str "Info"] sv kid).Stores = sv.Stores := by
  cases kid with
  | elem name attr kk =>
    simp only [semInner, findSpec_stores_info]
    by_cases h : name.Local = str "Meddelande"
    · rw [if_pos h]; rfl
    · rw [if_neg h]
  | _ => rfl

theorem foldl_semInner_stores (kids : List Node) : ∀ (sv : Stores),
    (kids.foldl (semInner storesSpecs [str "Info"]) sv).Stores = sv.Stores := by
  induction kids with
  | nil => intro sv; rfl
  | cons kid kids ih =>
    intro sv
    rw [List.foldl_cons, ih, semInner_stores_info]

theorem semKid_stores (sv : Stores) (kid : Node) :
    (semKid storesSpecs sv kid).Stores =
      sv.Stores ++ (if kid.isNamed (str "ButikOmbud") then [storeOf kid.kids] else []) := by
  cases kid with
  | elem name attr kk =>
    simp only [semKid, findSpec_stores, Node.isNamed, Node.kids, decide_eq_true_eq]
    by_cases h2 : name.Local = str "Info"
    · rw [h2, if_pos rfl, if_neg (by decide)]
      simp only [List.append_nil]
      exact foldl_semInner_stores kk sv
    · by_cases h3 : name.Local = str "ButikOmbud"
      · rw [h3, if_neg (by decide), if_pos rfl, if_pos rfl]
        simp only [sliceSpec, semStruct_storeOf]
      · rw [if_neg h2, if_neg h3, if_neg h3]
        simp
  | _ => simp [semKid, Node.isNamed]

/-- The slice `Stores` after decoding: one `Store` for each `ButikOmbud` child of the
root element, in the order of the document. -/
theorem semStruct_stores (kids : List Node) : ∀ (sv : Stores),
    (semStruct storesSpecs kids sv).Stores =
      sv.Stores ++ (kids.filter (Node.isNamed (str "ButikOmbud"))).map
        fun kid => storeOf kid.kids := by
  induction kids with
  | nil => intro sv; simp [semStruct]
  | cons kid kids ih =>
    intro sv
    unfold semStruct at ih ⊢
    rw [List.foldl_cons, ih, semKid_stores, List.filter_cons]
    cases kid.isNamed (str "ButikOmbud") <;> simp

end Records

section Documents

open xml

theorem Decode_articles (before : List Node) (hb : ∀ n ∈ before, n.isElem = false)
    (root : Name) (attr : List Attr) (kids : List Node) (after : List Token) (fin : GoError) :
    ∃ created info,
      Decode articlesFields {} (NewDecoder (document before root attr kids after fin)) =
        .ok { CreatedAt := created, InfoMessage := info,
              Articles := (kids.filter (Node.isNamed (str "artikel"))).map
                fun kid => articleOf kid.kids } ⟨⟨after, fin⟩, []⟩ := by
  refine ⟨(semStruct articlesSpecs kids {}).CreatedAt,
    (semStruct articlesSpecs kids {}).InfoMessage, ?_⟩
  rw [articlesFields_eq, Decode_document articlesSpecs articlesSpecs_sound articlesSpecs_depth
    before hb root attr kids after fin]
  have h := semStruct_articles kids {}
  simp only [List.nil_append] at h
  rw [← h]

theorem Decode_stores (before : List Node) (hb : ∀ n ∈ before, n.isElem = false)
    (root : Name) (attr : List Attr) (kids : List Node) (after : List Token) (fin : GoError) :
    ∃ info,
      Decode storesFields {} (NewDecoder (document before root attr kids after fin)) =
        .ok { InfoMessage := info,
              Stores := (kids.filter (Node.isNamed (str "ButikOmbud"))).map
                fun kid => storeOf kid.kids } ⟨⟨after, fin⟩, []⟩ := by
  refine ⟨(semStruct storesSpecs kids {}).InfoMessage, ?_⟩
  rw [storesFields_eq, Decode_document storesSpecs storesSpecs_sound storesSpecs_depth
    before hb root attr kids after fin]
  have h := semStruct_stores kids {}
  simp only [List.nil_append] at h
  rw [← h]

theorem textFrom_absent (tag : GoString) : ∀ (kids : List Node) (acc : GoString),
    (∀ kid ∈ kids, kid.isNamed tag = false) → textFrom acc tag kids = acc := by
  intro kids
  induction kids with
  | nil => intro acc _; rfl
  | cons kid kids ih =>
    intro acc h
    unfold textFrom
    rw [h kid (List.mem_cons_self _ _)]
    exact ih acc (fun k hk => h k (List.mem_cons_of_mem _ hk))

theorem textFrom_append (tag : GoString) : ∀ (xs ys : List Node) (acc : GoString),
    textFrom acc tag (xs ++ ys) = textFrom (textFrom acc tag xs) tag ys := by
  intro xs
  induction xs with
  | nil => intro ys acc; rfl
  | cons x xs ih =>
    intro ys acc
    rw [List.cons_append, textFrom, textFrom, ih]

theorem textOf_present (tag : GoString) (pre post : List Node) (name : Name)
    (attr : List Attr) (kk : List Node) (hn : name.Local = tag)
    (hpost : ∀ kid ∈ post, kid.isNamed tag = false) :
    textOf tag (pre ++ Node.elem name attr kk :: post) = directText kk := by
  unfold textOf
  rw [textFrom_append, textFrom]
  have : (Node.elem name attr kk).isNamed tag = true := by simp [Node.isNamed, hn]
  rw [this, if_pos rfl, textFrom_absent tag post _ hpost]
  rfl

theorem decodeArticle_elem (name : Name) (attr : List Attr) (kk : List Node) :
    decodeArticle (.elem name attr kk) = some (articleOf kk) := by
  have hdoc : (⟨(Node.elem name attr kk).tokens, .EOF⟩ : Source) =
      document [] name attr kk [] .EOF := by
    simp [document, tokensList]
  unfold decodeArticle
  rw [hdoc, articleFields_eq, Decode_document (lensSpecs articleLenses) (lensSpecs_sound _)
    (lensSpecs_flat _) [] (by simp) name attr kk [] .EOF, semStruct_articleOf]

theorem decodeStore_elem (name : Name) (attr : List Attr) (kk : List Node) :
    decodeStore (.elem name attr kk) = some (storeOf kk) := by
  have hdoc : (⟨(Node.elem name attr kk).tokens, .EOF⟩ : Source) =
      document [] name attr kk [] .EOF := by
    simp [document, tokensList]
  unfold decodeStore
  rw [hdoc, storeFields_eq, Decode_document (lensSpecs storeLenses) (lensSpecs_sound _)
    (lensSpecs_flat _) [] (by simp) name attr kk [] .EOF, semStruct_storeOf]

theorem map_decodeArticle (tag : GoString) (kids : List Node) :
    (kids.filter (Node.isNamed tag)).map decodeArticle =
      ((kids.filter (Node.isNamed tag)).map fun kid => articleOf kid.kids).map some := by
  rw [List.map_map]
  apply List.map_congr_left
  intro kid hk
  have hn := (List.mem_filter.1 hk).2
  cases kid with
  | elem name attr kk => simp [decodeArticle_elem, Node.kids]
  | _ => simp [Node.isNamed] at hn

theorem map_decodeStore (tag : GoString) (kids : List Node) :
    (kids.filter (Node.isNamed tag)).map decodeStore =
      ((kids.filter (Node.isNamed tag)).map fun kid => storeOf kid.kids).map some := by
  rw [List.map_map]
  apply List.map_congr_left
  intro kid hk
  have hn := (List.mem_filter.1 hk).2
  cases kid with
  | elem name attr kk => simp [decodeStore_elem, Node.kids]
  | _ => simp [Node.isNamed] at hn

/-- C7: for every well-formed article document the decoding succeeds and gives one
`Article` for each `artikel` child of the root, each field of which is `textOf` its
tag: empty when the `artikel` has no child element of that name, and otherwise the
character data of that child (of the last one of that name) as it stands, whatever
bytes it holds; the same for store documents and `Store`. The example of the
specification, fetched by a client, gives exactly one `Article` with `Name`
`Absolut Vodka`, `Price` `229,00` and an empty `SubName`. -/
theorem decoded_fields_verbatim (before : List Node)
    (hb : ∀ n ∈ before, n.isElem = false) (root : xml.Name) (attr : List xml.Attr)
    (kids : List Node) (after : List xml.Token) (fin : GoError) :
    (∃ created info,
        xml.Decode articlesFields {}
            (xml.NewDecoder (document before root attr kids after fin)) =
          .ok { CreatedAt := created, InfoMessage := info,
                Articles := (kids.filter (Node.isNamed (str "artikel"))).map
                  fun kid => articleOf kid.kids } ⟨⟨after, fin⟩, []⟩) ∧
      (∃ info,
        xml.Decode storesFields {}
            (xml.NewDecoder (document before root attr kids after fin)) =
          .ok { InfoMessage := info,
                Stores := (kids.filter (Node.isNamed (str "ButikOmbud"))).map
                  fun kid => storeOf kid.kids } ⟨⟨after, fin⟩, []⟩) ∧
      (∀ (tag : GoString) (ks : List Node),
        (∀ kid ∈ ks, kid.isNamed tag = false) → textOf tag ks = []) ∧
      (∀ (tag : GoString) (pre post : List Node) (name : xml.Name) (at2 : List xml.Attr)
        (kk : List Node), name.Local = tag → (∀ kid ∈ post, kid.isNamed tag = false) →
          textOf tag (pre ++ Node.elem name at2 kk :: post) = directText kk) ∧
      (∀ s : GoString, directText [.text s] = s) ∧
      ((NewClient (exampleTransport 200 exampleArticleDocument) none).Articles).1 =
        .ret (some { Articles := [{ Name := str "Absolut Vodka", Price := str "229,00",
                                    SubName := [] }] }) none :=
  ⟨Decode_articles before hb root attr kids after fin,
    Decode_stores before hb root attr kids after fin,
    fun tag ks h => textFrom_absent tag ks [] h,
    fun tag pre post name at2 kk hn hp => textOf_present tag pre post name at2 kk hn hp,
    fun s => by simp [directText],
    by decide!⟩

/-- C7, at the example document of the specification. -/
theorem decoded_fields_verbatim_witness :
    ∃ created info,
      xml.Decode articlesFields {} (xml.NewDecoder exampleArticleDocument) =
        .ok { CreatedAt := created, InfoMessage := info,
              Articles := [{ Name := str "Absolut Vodka", Price := str "229,00",
                             SubName := [] }] } ⟨⟨[], .EOF⟩, []⟩ := by
  obtain ⟨created, info, h⟩ :=
    (decoded_fields_verbatim [.procInst (str "xml") (str "version=\"1.0\" encoding=\"utf-8\"")]
      (by decide) ⟨[], str "artiklar"⟩ [] exampleArticleKids [] .EOF).1
  refine ⟨created, info, ?_⟩
  have hl : (exampleArticleKids.filter (Node.isNamed (str "artikel"))).map
      (fun kid => articleOf kid.kids) =
      [{ Name := str "Absolut Vodka", Price := str "229,00", SubName := [] }] := by decide!
  rw [hl] at h
  exact h

/-- C8: when the body is a well-formed article document, the `Articles` slice of the
record that `Articles` returns has one element for each `artikel` child of the root
element and in the same order, the element being the decoding of that child; no
child is left out or merged with another, whatever it holds. The same for
`ButikOmbud` children and `Stores`. -/
theorem decoded_sequence_document_order (c : Client) (h : http.Client)
    (req : http.Request) (resp : http.Response) (hc : c.httpClient = some h)
    (hd : h.Do req = .ok resp) (hst : resp.StatusCode = 200 ∨ resp.StatusCode = 304)
    (before : List Node) (hb : ∀ n ∈ before, n.isElem = false) (root : xml.Name)
    (attr : List xml.Attr) (kids : List Node) (after : List xml.Token) (fin : GoError)
    (hbody : resp.Body.src = document before root attr kids after fin) :
    ((c.get (str "Assortment.aspx?Format=Xml")).2.sent = some req →
        ∃ record, (c.Articles).1 = .ret (some record) none ∧
          record.Articles.length = (kids.filter (Node.isNamed (str "artikel"))).length ∧
          record.Articles.map some =
            (kids.filter (Node.isNamed (str "artikel"))).map decodeArticle) ∧
      ((c.get (str "Assortment.aspx?butikerombud=1")).2.sent = some req →
        ∃ record, (c.Stores).1 = .ret (some record) none ∧
          record.Stores.length = (kids.filter (Node.isNamed (str "ButikOmbud"))).length ∧
          record.Stores.map some =
            (kids.filter (Node.isNamed (str "ButikOmbud"))).map decodeStore) := by
  have hn : ¬ (resp.StatusCode ≠ 200 ∧ resp.StatusCode ≠ 304) := by
    rcases hst with h1 | h1 <;> simp [h1]
  constructor
  · intro hs
    obtain ⟨created, info, hdec⟩ := Decode_articles before hb root attr kids after fin
    refine ⟨{ CreatedAt := created, InfoMessage := info,
              Articles := (kids.filter (Node.isNamed (str "artikel"))).map
                fun kid => articleOf kid.kids }, ?_, ?_, ?_⟩
    · rw [Articles_eq_fetch, fetch_reached c _ articlesFields {} h req resp hc hs hd, if_neg hn, hbody, hdec]
    · simp
    · rw [map_decodeArticle]
  · intro hs
    obtain ⟨info, hdec⟩ := Decode_stores before hb root attr kids after fin
    refine ⟨{ InfoMessage := info,
              Stores := (kids.filter (Node.isNamed (str "ButikOmbud"))).map
                fun kid => storeOf kid.kids }, ?_, ?_, ?_⟩
    · rw [Stores_eq_fetch, fetch_reached c _ storesFields {} h req resp hc hs hd, if_neg hn, hbody, hdec]
    · simp
    · rw [map_decodeStore]

/-- C8, at a document that holds the same `artikel` twice: both are kept. -/
theorem decoded_sequence_document_order_witness :
    ∃ record,
      ((NewClient (exampleTransport 200 exampleTwinsDocument) none).Articles).1 =
          .ret (some record) none ∧
        record.Articles.length = 2 := by
  obtain ⟨record, h1, h2, -⟩ :=
    (decoded_sequence_document_order
      (NewClient (exampleTransport 200 exampleTwinsDocument) none)
      (exampleTransport 200 exampleTwinsDocument) exampleRequest
      ⟨200, ⟨exampleTwinsDocument, false⟩⟩ rfl rfl (Or.inl rfl) [] (by simp)
      ⟨[], str "artiklar"⟩ []
      [ .elem ⟨[], str "artikel"⟩ [] [leaf "nr" "0101", leaf "Artikelid" "7"],
        .elem ⟨[], str "artikel"⟩ [] [leaf "nr" "0101", leaf "Artikelid" "7"] ] [] .EOF
      rfl).1 (by decide!)
  exact ⟨record, h1, h2.trans (by decide)⟩

end Documents

section WellFormed

open xml

theorem Token_inv (d d1 : Decoder) (t : Token) (h : d.Token = .ok (t, d1)) :
    d.src.toks = t :: d1.src.toks ∧ d1.src.fin = d.src.fin ∧
      (∀ name attr, t = .StartElement name attr → d1.stk = name :: d.stk) ∧
      (∀ name, t = .EndElement name → d.stk = name :: d1.stk) ∧
      ((∀ n a, t ≠ .StartElement n a) → (∀ n, t ≠ .EndElement n) → d1.stk = d.stk) := by
  obtain ⟨⟨toks, fin⟩, stk⟩ := d
  cases toks with
  | nil =>
    simp only [Decoder.Token] at h
    split at h <;> simp at h
  | cons t0 rest =>
    cases t0 with
    | EndElement name =>
      cases stk with
      | nil => simp [Decoder.Token] at h
      | cons s stk =>
        simp only [Decoder.Token] at h
        split at h
        · simp at h
        · rename_i hl
          split at h
          · simp at h
          · rename_i hsp
            simp only [Except.ok.injEq, Prod.mk.injEq] at h
            obtain ⟨h1, h2⟩ := h
            subst h1 h2
            have hsn : s = name := by
              cases s; cases name
              simp only [ne_eq, not_not] at hl hsp
              simp [hl, hsp]
            subst hsn
            simp
    | StartElement name attr =>
      simp only [Decoder.Token, Except.ok.injEq, Prod.mk.injEq] at h
      obtain ⟨h1, h2⟩ := h
      subst h1 h2
      simp
    | CharData data =>
      simp only [Decoder.Token, Except.ok.injEq, Prod.mk.injEq] at h
      obtain ⟨h1, h2⟩ := h
      subst h1 h2
      simp
    | Comment data =>
      simp only [Decoder.Token, Except.ok.injEq, Prod.mk.injEq] at h
      obtain ⟨h1, h2⟩ := h
      subst h1 h2
      simp
    | ProcInst target inst =>
      simp only [Decoder.Token, Except.ok.injEq, Prod.mk.injEq] at h
      obtain ⟨h1, h2⟩ := h
      subst h1 h2
      simp
    | Directive data =>
      simp only [Decoder.Token, Except.ok.injEq, Prod.mk.injEq] at h
      obtain ⟨h1, h2⟩ := h
      subst h1 h2
      simp

theorem Closed_end (d d1 : Decoder) (name : Name)
    (h : d.Token = .ok (.EndElement name, d1)) : Closed d d1 := by
  obtain ⟨h1, h2, -, h3, -⟩ := Token_inv d d1 _ h
  exact ⟨[], name, by simpa [tokensList] using h1, h3 name rfl, h2⟩

theorem Closed_elem (d d1 d2 d3 : Decoder) (name : Name) (attr : List Attr)
    (h : d.Token = .ok (.StartElement name attr, d1)) (hin : Closed d1 d2)
    (hrest : Closed d2 d3) : Closed d d3 := by
  obtain ⟨h1, h2, h3, -, -⟩ := Token_inv d d1 _ h
  obtain ⟨kk, n1, t1, s1, f1⟩ := hin
  obtain ⟨kids, n2, t2, s2, f2⟩ := hrest
  rw [h3 name attr rfl] at s1
  simp only [List.cons.injEq] at s1
  refine ⟨.elem name attr kk :: kids, n2, ?_, ?_, ?_⟩
  · rw [h1, t1, t2, ← s1.1]
    simp [tokensList, Node.tokens]
  · rw [s1.2, s2]
  · rw [f2, f1, h2]

theorem Closed_misc (d d1 d2 : Decoder) (t : Token) (h : d.Token = .ok (t, d1))
    (hs : ∀ n a, t ≠ .StartElement n a) (he : ∀ n, t ≠ .EndElement n)
    (hrest : Closed d1 d2) : Closed d d2 := by
  obtain ⟨h1, h2, -, -, h3⟩ := Token_inv d d1 _ h
  obtain ⟨kids, n2, t2, s2, f2⟩ := hrest
  have hstk := h3 hs he
  have key : ∃ kid : Node, kid.tokens = [t] := by
    cases t with
    | StartElement n a => exact absurd rfl (hs n a)
    | EndElement n => exact absurd rfl (he n)
    | CharData data => exact ⟨.text data, rfl⟩
    | Comment data => exact ⟨.comment data, rfl⟩
    | ProcInst target inst => exact ⟨.procInst target inst, rfl⟩
    | Directive data => exact ⟨.directive data, rfl⟩
  obtain ⟨kid, hk⟩ := key
  refine ⟨kid :: kids, n2, ?_, ?_, ?_⟩
  · rw [h1, t2]
    simp [tokensList, hk]
  · rw [← hstk, s2]
  · rw [f2, h2]

theorem ClosedN_elem (depth : Nat) (d d1 d2 : Decoder) (name : Name) (attr : List Attr)
    (h : d.Token = .ok (.StartElement name attr, d1)) (hin : ClosedN (depth + 1) d1 d2) :
    ClosedN depth d d2 := by
  obtain ⟨dm, hc, hr⟩ := hin
  cases depth with
  | zero => exact Closed_elem d d1 dm d2 name attr h hc hr
  | succ k =>
    obtain ⟨dm2, hc2, hr2⟩ := hr
    exact ⟨dm2, Closed_elem d d1 dm dm2 name attr h hc hc2, hr2⟩

theorem ClosedN_misc (depth : Nat) (d d1 d2 : Decoder) (t : Token)
    (h : d.Token = .ok (t, d1))
    (hs : ∀ n a, t ≠ .StartElement n a) (he : ∀ n, t ≠ .EndElement n)
    (hrest : ClosedN depth d1 d2) : ClosedN depth d d2 := by
  cases depth with
  | zero => exact Closed_misc d d1 d2 t h hs he hrest
  | succ k =>
    obtain ⟨dm, hc, hr⟩ := hrest
    exact ⟨dm, Closed_misc d d1 dm t h hs he hc, hr⟩

theorem Skip_closes (fuel : Nat) : ∀ (depth : Nat) (d d2 : Decoder) (u : Unit),
    Skip fuel depth d = .ok u d2 → ClosedN depth d d2 := by
  induction fuel with
  | zero => intro depth d d2 u h; simp [Skip] at h
  | succ fuel ih =>
    intro depth d d2 u h
    unfold Skip at h
    cases hT : d.Token with
    | error e => rw [hT] at h; simp at h
    | ok p =>
      obtain ⟨t, d1⟩ := p
      rw [hT] at h
      cases t with
      | StartElement name attr =>
        exact ClosedN_elem depth d d1 d2 name attr hT (ih _ _ _ _ h)
      | EndElement name =>
        simp only at h
        split at h
        · rename_i hd
          simp only [Res.ok.injEq, true_and] at h
          subst h hd
          exact Closed_end d d1 name hT
        · rename_i hd
          obtain ⟨k, rfl⟩ := Nat.exists_eq_succ_of_ne_zero hd
          exact ⟨d1, Closed_end d d1 name hT, ih _ _ _ _ h⟩
      | CharData data =>
        exact ClosedN_misc depth d d1 d2 _ hT (by simp) (by simp) (ih _ _ _ _ h)
      | Comment data =>
        exact ClosedN_misc depth d d1 d2 _ hT (by simp) (by simp) (ih _ _ _ _ h)
      | ProcInst target inst =>
        exact ClosedN_misc depth d d1 d2 _ hT (by simp) (by simp) (ih _ _ _ _ h)
      | Directive data =>
        exact ClosedN_misc depth d d1 d2 _ hT (by simp) (by simp) (ih _ _ _ _ h)

theorem Skip_closes_zero (fuel : Nat) (d : Decoder) : (Skip fuel 0 d).Closes d := by
  cases h : Skip fuel 0 d with
  | ok u d2 => exact Skip_closes fuel 0 d d2 u h
  | err e => trivial
  | outOfFuel => trivial

theorem unmarshalString_closes (fuel : Nat) : ∀ (data : GoString) (d : Decoder),
    (unmarshalString fuel data d).Closes d := by
  induction fuel with
  | zero => intro data d; simp [unmarshalString, Res.Closes]
  | succ fuel ih =>
    intro data d
    unfold unmarshalString
    cases hT : d.Token with
    | error e => simp [Res.Closes]
    | ok p =>
      obtain ⟨t, d1⟩ := p
      have key : ∀ dt (d2 : Decoder), Closed d1 d2 →
          (unmarshalString fuel dt d2).Closes d2 → ∀ name attr, t = .StartElement name attr →
          (unmarshalString fuel dt d2).Closes d := by
        intro dt d2 h1 h2 name attr ht
        subst ht
        revert h2
        cases unmarshalString fuel dt d2 with
        | ok v d3 => exact fun h2 => Closed_elem d d1 d2 d3 name attr hT h1 h2
        | err e => exact fun _ => trivial
        | outOfFuel => exact fun _ => trivial
      have misc : ∀ dt, (∀ n a, t ≠ .StartElement n a) → (∀ n, t ≠ .EndElement n) →
          (unmarshalString fuel dt d1).Closes d := by
        intro dt hs he
        have h2 := ih dt d1
        revert h2
        cases unmarshalString fuel dt d1 with
        | ok v d3 => exact fun h2 => Closed_misc d d1 d3 t hT hs he h2
        | err e => exact fun _ => trivial
        | outOfFuel => exact fun _ => trivial
      cases t with
      | StartElement name attr =>
        simp only
        have hs := Skip_closes_zero fuel d1
        revert hs
        cases Skip fuel 0 d1 with
        | ok u d2 =>
          intro hs
          exact key _ d2 hs (ih _ d2) name attr rfl
        | err e => exact fun _ => trivial
        | outOfFuel => exact fun _ => trivial
      | EndElement name => exact Closed_end d d1 name hT
      | CharData data => exact misc _ (by simp) (by simp)
      | Comment data => exact misc _ (by simp) (by simp)
      | ProcInst target inst => exact misc _ (by simp) (by simp)
      | Directive data => exact misc _ (by simp) (by simp)

theorem unmarshalPath_closes {σ : Type} (fields : List (fieldInfo σ))
    (hf : ∀ f ∈ fields, StoreCloses f) (fuel : Nat) :
    ∀ (parents : List GoString) (start : Name) (sv : σ) (d : Decoder) (c : Bool) (sv1 : σ)
      (d1 : Decoder),
      (unmarshalPath fields fuel true parents start sv d = .ok (c, sv1) d1 →
        c = true ∧ Closed d d1) ∧
      (unmarshalPath fields fuel false parents start sv d = .ok (c, sv1) d1 →
        (c = true → Closed d d1) ∧ (c = false → d1 = d)) := by
  induction fuel with
  | zero => intro parents start sv d c sv1 d1; constructor <;> intro h <;> simp [unmarshalPath] at h
  | succ fuel ih =>
    intro parents start sv d c sv1 d1
    constructor
    · intro h
      unfold unmarshalPath at h
      cases hT : d.Token with
      | error e => rw [hT] at h; simp at h
      | ok p =>
        obtain ⟨t, da⟩ := p
        rw [hT] at h
        have misc : (∀ n a, t ≠ .StartElement n a) → (∀ n, t ≠ .EndElement n) →
            unmarshalPath fields fuel true parents start sv da = .ok (c, sv1) d1 →
            c = true ∧ Closed d d1 := by
          intro hs he h2
          obtain ⟨hc, hcl⟩ := (ih parents start sv da c sv1 d1).1 h2
          exact ⟨hc, Closed_misc d da d1 t hT hs he hcl⟩
        cases t with
        | StartElement name attr =>
          simp only at h
          cases hp : unmarshalPath fields fuel false parents name sv da with
          | ok v d2 =>
            obtain ⟨c2, sv2⟩ := v
            rw [hp] at h
            have hp2 := (ih parents name sv da c2 sv2 d2).2 hp
            cases c2 with
            | true =>
              simp only at h
              obtain ⟨hc, hcl⟩ := (ih parents start sv2 d2 c sv1 d1).1 h
              exact ⟨hc, Closed_elem d da d2 d1 name attr hT (hp2.1 rfl) hcl⟩
            | false =>
              simp only at h
              have hd2 := hp2.2 rfl
              subst hd2
              cases hs : Skip fuel 0 d2 with
              | ok u d3 =>
                rw [hs] at h
                simp only at h
                obtain ⟨hc, hcl⟩ := (ih parents start sv2 d3 c sv1 d1).1 h
                exact ⟨hc, Closed_elem d d2 d3 d1 name attr hT (Skip_closes fuel 0 d2 d3 u hs) hcl⟩
              | err e => rw [hs] at h; simp at h
              | outOfFuel => rw [hs] at h; simp at h
          | err e => rw [hp] at h; simp at h
          | outOfFuel => rw [hp] at h; simp at h
        | EndElement name =>
          simp only [Res.ok.injEq, Prod.mk.injEq] at h
          obtain ⟨⟨hc, -⟩, hd⟩ := h
          subst hd
          exact ⟨hc.symm, Closed_end d da name hT⟩
        | CharData data => exact misc (by simp) (by simp) h
        | Comment data => exact misc (by simp) (by simp) h
        | ProcInst target inst => exact misc (by simp) (by simp) h
        | Directive data => exact misc (by simp) (by simp) h
    · intro h
      unfold unmarshalPath at h
      cases hfd : findField parents start.Local fields with
      | perfect f =>
        rw [hfd] at h
        simp only at h
        have hs := hf f (findField_mem _ _ _ _ hfd) fuel sv d
        cases hst : f.store fuel sv d with
        | ok v d2 =>
          rw [hst] at h hs
          simp only [Res.ok.injEq, Prod.mk.injEq] at h
          obtain ⟨⟨hc, -⟩, hd⟩ := h
          subst hd
          subst hc
          exact ⟨fun _ => hs, fun hx => by simp at hx⟩
        | err e => rw [hst] at h; simp at h
        | outOfFuel => rw [hst] at h; simp at h
      | recurse parents1 =>
        rw [hfd] at h
        simp only at h
        obtain ⟨hc, hcl⟩ := (ih parents1 start sv d c sv1 d1).1 h
        exact ⟨fun _ => hcl, fun hx => by rw [hc] at hx; simp at hx⟩
      | nothing =>
        rw [hfd] at h
        simp only [Res.ok.injEq, Prod.mk.injEq] at h
        obtain ⟨⟨hc, -⟩, hd⟩ := h
        subst hc
        exact ⟨fun hx => by simp at hx, fun _ => hd.symm⟩

theorem unmarshalStruct_closes {σ : Type} (fields : List (fieldInfo σ))
    (hf : ∀ f ∈ fields, StoreCloses f) (fuel : Nat) :
    ∀ (sv : σ) (d : Decoder), (unmarshalStruct fields fuel sv d).Closes d := by
  induction fuel with
  | zero => intro sv d; simp [unmarshalStruct, Res.Closes]
  | succ fuel ih =>
    intro sv d
    unfold unmarshalStruct
    cases hT : d.Token with
    | error e => simp [Res.Closes]
    | ok p =>
      obtain ⟨t, da⟩ := p
      have elem : ∀ (sv2 : σ) (d2 : Decoder) name attr, t = .StartElement name attr →
          Closed da d2 → (unmarshalStruct fields fuel sv2 d2).Closes d := by
        intro sv2 d2 name attr ht h1
        subst ht
        have h2 := ih sv2 d2
        revert h2
        cases unmarshalStruct fields fuel sv2 d2 with
        | ok v d3 => exact fun h2 => Closed_elem d da d2 d3 name attr hT h1 h2
        | err e => exact fun _ => trivial
        | outOfFuel => exact fun _ => trivial
      have misc : (∀ n a, t ≠ .StartElement n a) → (∀ n, t ≠ .EndElement n) →
          (unmarshalStruct fields fuel sv da).Closes d := by
        intro hs he
        have h2 := ih sv da
        revert h2
        cases unmarshalStruct fields fuel sv da with
        | ok v d3 => exact fun h2 => Closed_misc d da d3 t hT hs he h2
        | err e => exact fun _ => trivial
        | outOfFuel => exact fun _ => trivial
      cases t with
      | StartElement name attr =>
        simp only
        cases hp : unmarshalPath fields fuel false [] name sv da with
        | ok v d2 =>
          obtain ⟨c2, sv2⟩ := v
          have hp2 := (unmarshalPath_closes fields hf fuel [] name sv da c2 sv2 d2).2 hp
          cases c2 with
          | true => exact elem sv2 d2 name attr rfl (hp2.1 rfl)
          | false =>
            simp only
            have hd2 := hp2.2 rfl
            subst hd2
            cases hs : Skip fuel 0 d2 with
            | ok u d3 => exact elem sv2 d3 name attr rfl (Skip_closes fuel 0 d2 d3 u hs)
            | err e => trivial
            | outOfFuel => trivial
        | err e => trivial
        | outOfFuel => trivial
      | EndElement name => exact Closed_end d da name hT
      | CharData data => exact misc (by simp) (by simp)
      | Comment data => exact misc (by simp) (by simp)
      | ProcInst target inst => exact misc (by simp) (by simp)
      | Directive data => exact misc (by simp) (by simp)

theorem stringField_closes {σ : Type} (parents : List GoString) (name : GoString)
    (set : σ → GoString → σ) : StoreCloses (stringField parents name set) := by
  intro fuel sv d
  have hs := unmarshalString_closes fuel [] d
  revert hs
  simp only [stringField]
  cases unmarshalString fuel [] d <;> simp [Res.Closes]

theorem sliceField_closes {σ τ : Type} (name : GoString) (elemFields : List (fieldInfo τ))
    (zero : τ) (append : σ → τ → σ) (hf : ∀ f ∈ elemFields, StoreCloses f) :
    StoreCloses (sliceField name elemFields zero append) := by
  intro fuel sv d
  have hs := unmarshalStruct_closes elemFields hf fuel zero d
  revert hs
  simp only [sliceField]
  cases unmarshalStruct elemFields fuel zero d <;> simp [Res.Closes]

theorem articleFields_closes : ∀ f ∈ articleFields, StoreCloses f := by
  intro f hf
  simp only [articleFields, List.mem_cons, List.mem_singleton, List.not_mem_nil, or_false] at hf
  rcases hf with h | h | h | h | h | h | h | h | h | h | h | h | h | h | h | h | h | h | h | h |
    h | h | h | h <;> subst h <;> exact stringField_closes _ _ _

theorem storeFields_closes : ∀ f ∈ storeFields, StoreCloses f := by
  intro f hf
  simp only [storeFields, List.mem_cons, List.mem_singleton, List.not_mem_nil, or_false] at hf
  rcases hf with h | h | h | h | h | h | h | h | h | h | h | h | h | h <;> subst h <;>
    exact stringField_closes _ _ _

theorem articlesFields_closes : ∀ f ∈ articlesFields, StoreCloses f := by
  intro f hf
  simp only [articlesFields, List.mem_cons, List.mem_singleton, List.not_mem_nil, or_false] at hf
  rcases hf with h | h | h <;> subst h
  · exact stringField_closes _ _ _
  · exact stringField_closes _ _ _
  · exact sliceField_closes _ _ _ _ articleFields_closes

theorem storesFields_closes : ∀ f ∈ storesFields, StoreCloses f := by
  intro f hf
  simp only [storesFields, List.mem_cons, List.mem_singleton, List.not_mem_nil, or_false] at hf
  rcases hf with h | h <;> subst h
  · exact stringField_closes _ _ _
  · exact sliceField_closes _ _ _ _ storeFields_closes

/-- Where `findStart` succeeds on a decoder with no element open, it has read markup
that is no element and then a start tag. -/
theorem findStart_shape (fuel : Nat) : ∀ (d d1 : Decoder) (name : Name), d.stk = [] →
    findStart fuel d = .ok name d1 →
      ∃ (before : List Node) (attr : List Attr), (∀ n ∈ before, n.isElem = false) ∧
        d.src.toks = tokensList before ++ .StartElement name attr :: d1.src.toks ∧
        d1.stk = [name] ∧ d1.src.fin = d.src.fin := by
  induction fuel with
  | zero => intro d d1 name hstk h; simp [findStart] at h
  | succ fuel ih =>
    intro d d1 name hstk h
    unfold findStart at h
    cases hT : d.Token with
    | error e => rw [hT] at h; simp at h
    | ok p =>
      obtain ⟨t, da⟩ := p
      rw [hT] at h
      obtain ⟨h1, h2, h3, h4, h5⟩ := Token_inv d da t hT
      have misc : ∀ kid : Node, kid.isElem = false → kid.tokens = [t] →
          (∀ n a, t ≠ .StartElement n a) → (∀ n, t ≠ .EndElement n) →
          findStart fuel da = .ok name d1 →
          ∃ (before : List Node) (attr : List Attr), (∀ n ∈ before, n.isElem = false) ∧
            d.src.toks = tokensList before ++ .StartElement name attr :: d1.src.toks ∧
            d1.stk = [name] ∧ d1.src.fin = d.src.fin := by
        intro kid hk hkt hs he h6
        obtain ⟨before, attr, hb, ht, hst, hf⟩ := ih da d1 name ((h5 hs he).trans hstk) h6
        refine ⟨kid :: before, attr, ?_, ?_, hst, hf.trans h2⟩
        · intro n hn
          rcases List.mem_cons.1 hn with rfl | hn
          · exact hk
          · exact hb n hn
        · rw [h1, ht]
          simp [tokensList, hkt]
      cases t with
      | StartElement n attr =>
        simp only [Res.ok.injEq] at h
        obtain ⟨hn, hd⟩ := h
        subst hn hd
        exact ⟨[], attr, by simp, by simpa [tokensList] using h1,
          by rw [h3 n attr rfl, hstk], h2⟩
      | EndElement n =>
        have := h4 n rfl
        rw [hstk] at this
        simp at this
      | CharData data => exact misc (.text data) rfl rfl (by simp) (by simp) h
      | Comment data => exact misc (.comment data) rfl rfl (by simp) (by simp) h
      | ProcInst target inst => exact misc (.procInst target inst) rfl rfl (by simp) (by simp) h
      | Directive data => exact misc (.directive data) rfl rfl (by simp) (by simp) h

/-- Where `Decode` succeeds, the input begins with a complete root element, and the
decoder has read up to and with the end tag of that element. -/
theorem Decode_shape {σ : Type} (fields : List (fieldInfo σ))
    (hf : ∀ f ∈ fields, StoreCloses f) (sv v : σ) (src : Source) (d1 : Decoder)
    (h : Decode fields sv (NewDecoder src) = .ok v d1) :
    ∃ (before : List Node) (root : Name) (attr : List Attr) (kids : List Node),
      (∀ n ∈ before, n.isElem = false) ∧
        src = document before root attr kids d1.src.toks src.fin := by
  unfold Decode at h
  cases hfs : findStart (2 * (NewDecoder src).src.toks.length + 1) (NewDecoder src) with
  | ok name da =>
    rw [hfs] at h
    simp only at h
    obtain ⟨before, attr, hb, ht, hst, hfin⟩ := findStart_shape _ _ _ _ rfl hfs
    have hc := unmarshalStruct_closes fields hf (2 * (NewDecoder src).src.toks.length + 1) sv da
    rw [h] at hc
    obtain ⟨kids, n2, t2, s2, f2⟩ := hc
    rw [hst] at s2
    simp only [List.cons.injEq] at s2
    refine ⟨before, name, attr, kids, hb, ?_⟩
    obtain ⟨toks, fin⟩ := src
    simp only [NewDecoder] at ht
    simp only [document, Source.mk.injEq, and_true]
    rw [ht, t2, ← s2.1]
    simp [Node.tokens]
  | err e => rw [hfs] at h; simp at h
  | outOfFuel => rw [hfs] at h; simp at h

/-- The decoding of a body into a struct succeeds exactly when the body begins with a
complete root element. -/
theorem Decode_ok_iff {σ : Type} (specs : List (FieldSpec σ))
    (hs : ∀ fs ∈ specs, fs.Sound) (hlen : ∀ fs ∈ specs, fs.info.parents.length ≤ 1)
    (hf : ∀ f ∈ specs.map (·.info), StoreCloses f) (sv : σ) (src : Source) :
    (∃ v d1, Decode (specs.map (·.info)) sv (NewDecoder src) = .ok v d1) ↔
      src.StartsWithRoot := by
  constructor
  · rintro ⟨v, d1, h⟩
    obtain ⟨before, root, attr, kids, hb, hsrc⟩ := Decode_shape _ hf sv v src d1 h
    exact ⟨before, root, attr, kids, d1.src.toks, hb, hsrc⟩
  · rintro ⟨before, root, attr, kids, after, hb, hsrc⟩
    rw [hsrc]
    exact ⟨_, _, Decode_document specs hs hlen before hb root attr kids after src.fin sv⟩

theorem articlesFields_closes2 : ∀ f ∈ articlesSpecs.map (·.info), StoreCloses f := by
  rw [← articlesFields_eq]
  exact articlesFields_closes

theorem storesFields_closes2 : ∀ f ∈ storesSpecs.map (·.info), StoreCloses f := by
  rw [← storesFields_eq]
  exact storesFields_closes

/-- `Articles` and `Stores`, for any record, on a response that `get` accepted: a
record comes back exactly when the body begins with a complete root element, and the
error of the decoder comes back when it does not. -/
theorem fetch_starts_with_root {σ : Type} (c : Client) (ref : GoString)
    (specs : List (FieldSpec σ)) (hs : ∀ fs ∈ specs, fs.Sound)
    (hlen : ∀ fs ∈ specs, fs.info.parents.length ≤ 1)
    (hcl : ∀ f ∈ specs.map (·.info), StoreCloses f)
    (hgood : ∀ f ∈ specs.map (·.info), StoreGood f) (zero : σ)
    (res : http.Response) (hg : (c.get ref).1 = .ret (some res) none) :
    ((∃ v, (c.fetch ref (specs.map (·.info)) zero).1 = .ret (some v) none) ↔
        res.Body.src.StartsWithRoot) ∧
      (¬ res.Body.src.StartsWithRoot →
        ∃ e, xml.Decode (specs.map (·.info)) zero (xml.NewDecoder res.Body.src) = .err e ∧
          (c.fetch ref (specs.map (·.info)) zero).1 = .ret none (some e)) := by
  have hiff := Decode_ok_iff specs hs hlen hcl zero res.Body.src
  have ht := Decode_total (specs.map (·.info)) hgood zero (xml.NewDecoder res.Body.src)
  unfold Client.fetch
  rcases hgg : c.get ref with ⟨out, eff⟩
  rw [hgg] at hg
  simp only at hg
  subst hg
  simp only
  cases hd : xml.Decode (specs.map (·.info)) zero (xml.NewDecoder res.Body.src) with
  | ok v d =>
    have hsw : res.Body.src.StartsWithRoot := hiff.1 ⟨v, d, hd⟩
    exact ⟨⟨fun _ => hsw, fun _ => ⟨v, rfl⟩⟩, fun hn => absurd hsw hn⟩
  | err e =>
    have hsw : ¬ res.Body.src.StartsWithRoot := by
      intro hsw
      obtain ⟨v, d, hv⟩ := hiff.2 hsw
      rw [hd] at hv
      simp at hv
    refine ⟨⟨fun hv => ?_, fun h => absurd h hsw⟩, fun _ => ⟨e, rfl, rfl⟩⟩
    obtain ⟨v, hv⟩ := hv
    simp at hv
  | outOfFuel => exact absurd hd ht

/-- C2, amended: with a transport and a base address in place, `Articles`, and
likewise `Stores`, returns exactly one of a record and an error: the record, with a
nil error, exactly when `get` succeeded and the decoding of the body succeeded, and
in every other case a nil record with a non-nil error. On a response that `get`
accepted the decoding succeeds exactly when the body begins, after markup that is no
element, with a complete root element (start tag, well-nested content, matching end
tag), whatever follows; a body that does not begin so gives the error of the decoder
and no record. -/
theorem Articles_Stores_record_xor_error (c : Client) (h : http.Client) (B : url.URL)
    (hc : c.httpClient = some h) (hb : c.BaseURL = some B) :
    (((∃ a, (c.Articles).1 = .ret (some a) none) ∨
          (∃ e, (c.Articles).1 = .ret none (some e))) ∧
        (∀ a, (c.Articles).1 = .ret (some a) none ↔
          ∃ res d, (c.get (str "Assortment.aspx?Format=Xml")).1 = .ret (some res) none ∧
            xml.Decode articlesFields {} (xml.NewDecoder res.Body.src) = .ok a d) ∧
        (∀ res e, (c.get (str "Assortment.aspx?Format=Xml")).1 = .ret (some res) none →
          xml.Decode articlesFields {} (xml.NewDecoder res.Body.src) = .err e →
            (c.Articles).1 = .ret none (some e)) ∧
        (∀ res, (c.get (str "Assortment.aspx?Format=Xml")).1 = .ret (some res) none →
          ((∃ a, (c.Articles).1 = .ret (some a) none) ↔ res.Body.src.StartsWithRoot) ∧
            (¬ res.Body.src.StartsWithRoot →
              ∃ e, xml.Decode articlesFields {} (xml.NewDecoder res.Body.src) = .err e ∧
                (c.Articles).1 = .ret none (some e)))) ∧
      (((∃ s, (c.Stores).1 = .ret (some s) none) ∨
          (∃ e, (c.Stores).1 = .ret none (some e))) ∧
        (∀ s, (c.Stores).1 = .ret (some s) none ↔
          ∃ res d, (c.get (str "Assortment.aspx?butikerombud=1")).1 = .ret (some res) none ∧
            xml.Decode storesFields {} (xml.NewDecoder res.Body.src) = .ok s d) ∧
        (∀ res e, (c.get (str "Assortment.aspx?butikerombud=1")).1 = .ret (some res) none →
          xml.Decode storesFields {} (xml.NewDecoder res.Body.src) = .err e →
            (c.Stores).1 = .ret none (some e)) ∧
        (∀ res, (c.get (str "Assortment.aspx?butikerombud=1")).1 = .ret (some res) none →
          ((∃ s, (c.Stores).1 = .ret (some s) none) ↔ res.Body.src.StartsWithRoot) ∧
            (¬ res.Body.src.StartsWithRoot →
              ∃ e, xml.Decode storesFields {} (xml.NewDecoder res.Body.src) = .err e ∧
                (c.Stores).1 = .ret none (some e)))) := by
  have hA := fetch_record_xor_error c (str "Assortment.aspx?Format=Xml") articlesFields
    articlesFields_good {} h B hc hb
  have hS := fetch_record_xor_error c (str "Assortment.aspx?butikerombud=1") storesFields
    storesFields_good {} h B hc hb
  have hA2 := fetch_starts_with_root c (str "Assortment.aspx?Format=Xml") articlesSpecs
    articlesSpecs_sound articlesSpecs_depth articlesFields_closes2
    (articlesFields_eq ▸ articlesFields_good) {}
  have hS2 := fetch_starts_with_root c (str "Assortment.aspx?butikerombud=1") storesSpecs
    storesSpecs_sound storesSpecs_depth storesFields_closes2
    (storesFields_eq ▸ storesFields_good) {}
  rw [← articlesFields_eq, ← Articles_eq_fetch] at hA2
  rw [← storesFields_eq, ← Stores_eq_fetch] at hS2
  rw [← Articles_eq_fetch] at hA
  rw [← Stores_eq_fetch] at hS
  exact ⟨⟨hA.1, hA.2.1, hA.2.2, hA2⟩, ⟨hS.1, hS.2.1, hS.2.2, hS2⟩⟩

/-- C2 amended, at transports that answer 200 with a body that is no XML document:
plain text (no root element), a root element that is never closed, an end tag that
does not match, and a document cut off inside an element. None begins with a
complete root element, and `Articles` returns the error of the decoder and no record. -/
theorem Articles_Stores_record_xor_error_witness :
    (¬ noRootBody.StartsWithRoot ∧
        ((NewClient (exampleTransport 200 noRootBody) none).Articles).1 =
          .ret none (some .EOF)) ∧
      (¬ unclosedBody.StartsWithRoot ∧
        ((NewClient (exampleTransport 200 unclosedBody) none).Articles).1 =
          .ret none (some (.SyntaxError (str "unexpected EOF")))) ∧
      (¬ mismatchedBody.StartsWithRoot ∧
        ((NewClient (exampleTransport 200 mismatchedBody) none).Articles).1 =
          .ret none (some (.SyntaxError (str "element <artiklar> closed by </artikel>")))) ∧
      (¬ truncatedBody.StartsWithRoot ∧
        ((NewClient (exampleTransport 200 truncatedBody) none).Stores).1 =
          .ret none (some (.SyntaxError (str "unexpected EOF")))) :=
  have hno := (Articles_Stores_record_xor_error
    (NewClient (exampleTransport 200 noRootBody) none) (exampleTransport 200 noRootBody)
    { Scheme := str "http", Host := str "www.systembolaget.se", Path := str "/" }
    rfl (by decide!)).1
  have hun := (Articles_Stores_record_xor_error
    (NewClient (exampleTransport 200 unclosedBody) none) (exampleTransport 200 unclosedBody)
    { Scheme := str "http", Host := str "www.systembolaget.se", Path := str "/" }
    rfl (by decide!)).1
  have hmi := (Articles_Stores_record_xor_error
    (NewClient (exampleTransport 200 mismatchedBody) none) (exampleTransport 200 mismatchedBody)
    { Scheme := str "http", Host := str "www.systembolaget.se", Path := str "/" }
    rfl (by decide!)).1
  have htr := (Articles_Stores_record_xor_error
    (NewClient (exampleTransport 200 truncatedBody) none) (exampleTransport 200 truncatedBody)
    { Scheme := str "http", Host := str "www.systembolaget.se", Path := str "/" }
    rfl (by decide!)).2
  have eno := hno.2.2.1 ⟨200, ⟨noRootBody, false⟩⟩ .EOF (by decide!) (by decide!)
  have eun := hun.2.2.1 ⟨200, ⟨unclosedBody, false⟩⟩ (.SyntaxError (str "unexpected EOF"))
    (by decide!) (by decide!)
  have emi := hmi.2.2.1 ⟨200, ⟨mismatchedBody, false⟩⟩
    (.SyntaxError (str "element <artiklar> closed by </artikel>")) (by decide!) (by decide!)
  have etr := htr.2.2.1 ⟨200, ⟨truncatedBody, false⟩⟩ (.SyntaxError (str "unexpected EOF"))
    (by decide!) (by decide!)
  ⟨⟨fun hsw => by
        obtain ⟨a, ha⟩ := ((hno.2.2.2 ⟨200, ⟨noRootBody, false⟩⟩ (by decide!)).1).2 hsw
        rw [eno] at ha
        simp at ha,
      eno⟩,
    ⟨fun hsw => by
        obtain ⟨a, ha⟩ := ((hun.2.2.2 ⟨200, ⟨unclosedBody, false⟩⟩ (by decide!)).1).2 hsw
        rw [eun] at ha
        simp at ha,
      eun⟩,
    ⟨fun hsw => by
        obtain ⟨a, ha⟩ := ((hmi.2.2.2 ⟨200, ⟨mismatchedBody, false⟩⟩ (by decide!)).1).2 hsw
        rw [emi] at ha
        simp at ha,
      emi⟩,
    ⟨fun hsw => by
        obtain ⟨a, ha⟩ := ((htr.2.2.2 ⟨200, ⟨truncatedBody, false⟩⟩ (by decide!)).1).2 hsw
        rw [etr] at ha
        simp at ha,
      etr⟩⟩

/-- C2 as stated fails in two places. Its last part: the body `<artiklar></artiklar><`
is no valid XML (the lexer gives the two tags and then fails on the lone `<`), yet with
status 200 `Articles` returns a record and a nil error, since the decoder stops reading
at the end tag of the root element. And "every client state": a client whose base
address or transport is nil (the zero `Client`, or one whose field the caller has set
to nil) makes `Articles` and `Stores` panic, so that neither a record nor an error is
returned. -/
theorem record_despite_garbage_after_root :
    (((NewClient (exampleTransport 200 garbageAfterRoot) none).Articles).1 =
        .ret (some {}) none ∧
      garbageAfterRoot.fin ≠ .EOF) ∧
      ((({ httpClient := none, BaseURL := none, UserAgent := [] } : Client).Articles).1 =
          .panic ∧
        (({ httpClient := none, BaseURL := none, UserAgent := [] } : Client).Stores).1 =
          .panic) ∧
      ((({ NewClient (exampleTransport 200 exampleArticleDocument) none with
            BaseURL := none } : Client).Articles).1 = .panic ∧
        (({ NewClient (exampleTransport 200 exampleArticleDocument) none with
            BaseURL := none } : Client).Stores).1 = .panic) ∧
      ((({ NewClient (exampleTransport 200 exampleArticleDocument) none with
            httpClient := none } : Client).Articles).1 = .panic ∧
        (({ NewClient (exampleTransport 200 exampleArticleDocument) none with
            httpClient := none } : Client).Stores).1 = .panic) := by
  refine ⟨⟨?_, ?_⟩, ⟨?_, ?_⟩, ⟨?_, ?_⟩, ⟨?_, ?_⟩⟩ <;> decide!

end WellFormed

end Systembolaget
